import Mathlib

/-!
The kubernetes-event-exporter: event processing and dispatch pipeline.

A shallow embedding of the exporter's pipeline: the event watcher
(`pkg/kube/watcher.go`), the pipeline engine (`pkg/exporter/engine.go`) and the
delivery registries (`pkg/exporter/sync_registry.go`,
`pkg/exporter/channel_registry.go`).

Conventions.
* A `time.Time` is the number of nanoseconds since the zero instant
  (January 1, year 1, 00:00:00 UTC), so `IsZero` is `t = 0`; a `time.Duration`
  is a signed 64-bit count of nanoseconds.
* A sink (`sinks.Sink`, an interface implemented outside the core) is known by
  its identity; what the core does to it is recorded as a sequence of calls.
* A Go runtime fault (nil dereference) is the `crash` result of `Run`.
-/

namespace EventExporter

/-! ## Data model -/

/-- Go `map[string]string`; the nil map and the empty map are both `[]`. -/
abbrev StrMap := List (String × String)

/-- The `corev1.ObjectReference` of the Kubernetes API. -/
structure ObjectReference where
  Kind : String
  Namespace : String
  Name : String
  UID : String
  APIVersion : String
  ResourceVersion : String
  FieldPath : String
deriving DecidableEq, Repr, Inhabited

/-- The `metav1.OwnerReference` of the Kubernetes API. -/
structure OwnerReference where
  APIVersion : String
  Kind : String
  Name : String
  UID : String
  Controller : Option Bool
  BlockOwnerDeletion : Option Bool
deriving DecidableEq, Repr, Inhabited

/-- The `corev1.Event` of the Kubernetes API: object metadata followed by the
event's own fields (`EventType` is the field `Type`). Timestamps are nanoseconds
since the zero instant. -/
structure Event where
  Name : String
  Namespace : String
  UID : String
  ResourceVersion : String
  Labels : StrMap
  Annotations : StrMap
  ManagedFields : List String
  InvolvedObject : ObjectReference
  Reason : String
  Message : String
  SourceComponent : String
  SourceHost : String
  FirstTimestamp : Int
  LastTimestamp : Int
  Count : Int
  EventType : String
  EventTime : Int
  Action : String
  ReportingController : String
  ReportingInstance : String
deriving DecidableEq, Repr, Inhabited

/-- Modelled from the spec: the declaration of `kube.EnhancedObjectReference`
is not among the sources. An enriched object reference extends a plain object
reference with resolved labels, annotations, owner references and a deletion
flag. -/
structure EnhancedObjectReference where
  ObjectReference : ObjectReference
  Labels : StrMap
  Annotations : StrMap
  OwnerReferences : List OwnerReference
  Deleted : Bool
deriving DecidableEq, Repr, Inhabited

/-- Modelled from the spec: the declaration of `kube.EnhancedEvent` is not
among the sources. It embeds the cluster event and carries the cluster name
stamped in `main` and the enriched involved-object reference. -/
structure EnhancedEvent where
  Event : Event
  ClusterName : String
  InvolvedObject : EnhancedObjectReference
deriving DecidableEq, Repr, Inhabited

/-- The zero value `ObjectReference{}`. -/
def ObjectReference.zero : ObjectReference :=
  ⟨"", "", "", "", "", "", ""⟩

/-- The zero value `EnhancedObjectReference{}`. -/
def EnhancedObjectReference.zero : EnhancedObjectReference :=
  ⟨ObjectReference.zero, [], [], [], false⟩

/-- The zero value `corev1.Event{}`. -/
def Event.zero : Event :=
  ⟨"", "", "", "", [], [], [], ObjectReference.zero, "", "", "", "", 0, 0, 0, "", 0, "", "", ""⟩

/-- The zero value `kube.EnhancedEvent{}` used by the engine tests. -/
def EnhancedEvent.zero : EnhancedEvent :=
  ⟨Event.zero, "", EnhancedObjectReference.zero⟩

/-! ## Sinks and the outside world -/

/-- Identity of a sink object (a value of the interface `sinks.Sink`). -/
abbrev SinkId := Nat

/-- One call the core makes on a sink. -/
inductive SinkCall where
  | send (sink : SinkId) (ev : EnhancedEvent)
  | close (sink : SinkId)
deriving DecidableEq, Repr

/-- What the core has done to the outside: the calls made on sinks, in order,
and the messages written to the log. -/
structure World where
  calls : List SinkCall
  logs : List String
deriving DecidableEq, Repr

/-- The world before anything happened. -/
def World.init : World := ⟨[], []⟩

/-- Behaviour of the sinks: given the calls made so far, the error (if any)
that `Send` of a sink returns for an event. -/
structure SinkEnv where
  sendErr : List SinkCall → SinkId → EnhancedEvent → Option String

/-- Result of running Go code that may fault at run time. -/
inductive Run (α : Type) where
  | done (a : α)
  | crash (reason : String)
deriving DecidableEq, Repr

/-- Sequencing of code that may fault. -/
def Run.bind {α β : Type} (x : Run α) (f : α → Run β) : Run β :=
  match x with
  | Run.done a => f a
  | Run.crash r => Run.crash r

/-- The events with which `Send` was invoked on the given sink, in order. -/
def sendsTo (calls : List SinkCall) (sink : SinkId) : List EnhancedEvent :=
  calls.filterMap fun c =>
    match c with
    | SinkCall.send s ev => if s = sink then some ev else none
    | SinkCall.close _ => none

/-- All events with which any `Send` was invoked, in order. -/
def allSends (calls : List SinkCall) : List (SinkId × EnhancedEvent) :=
  calls.filterMap fun c =>
    match c with
    | SinkCall.send s ev => some (s, ev)
    | SinkCall.close _ => none

/-- Number of times `Close` was invoked on the given sink. -/
def closeCount (calls : List SinkCall) (sink : SinkId) : Nat :=
  calls.count (SinkCall.close sink)

/-- Modelled from the spec: the in-memory sink (`sinks.InMemory`, used by the
engine tests) is not among the sources. It records every event handed to its
`Send`, so its recorded events are the events sent to it. -/
def InMemory.Events (w : World) (sink : SinkId) : List EnhancedEvent :=
  sendsTo w.calls sink

/-! ## Routing (rule tree) -/

mutual
/-- Modelled from the spec: `Rule` (rule.go) is not among the sources. A rule
is a list of predicates over the event's fields plus, on match, a destination
name to route to and/or a nested sub-tree of rules. -/
inductive Rule where
  | mk (preds : List (EnhancedEvent → Bool)) (Receiver : Option String)
      (sub : Option Route)
/-- Modelled from the spec: `Route` (route.go) is not among the sources. A
route holds an ordered sequence of drop rules and an ordered sequence of match
rules. -/
inductive Route where
  | mk (Drop : List Rule) (Match : List Rule)
end

/-- The predicates of a rule. -/
def Rule.preds : Rule → List (EnhancedEvent → Bool)
  | Rule.mk p _ _ => p

/-- The receiver named by a rule, if any. -/
def Rule.Receiver : Rule → Option String
  | Rule.mk _ r _ => r

/-- The drop rules of a route. -/
def Route.Drop : Route → List Rule
  | Route.mk d _ => d

/-- The match rules of a route. -/
def Route.Match : Route → List Rule
  | Route.mk _ m => m

/-- Modelled from the spec: a rule matches an event when every one of its
predicates holds of it; a rule with no predicates matches every event. -/
def Rule.MatchesEvent (r : Rule) (ev : EnhancedEvent) : Bool :=
  r.preds.all fun p => p ev

mutual
/-- Modelled from the spec: `route(event)`, the ordered sequence of destination
names, not deduplicated. Drop rules first; if any matches, nothing. Otherwise
the match rules in declaration order, each contributing its receiver name
and/or the destinations of its nested route for the same event. -/
def Route.route : Route → EnhancedEvent → List String
  | Route.mk d m, ev =>
    if d.any (fun r => r.MatchesEvent ev) then [] else Route.routeRules m ev
/-- Destinations contributed by a sequence of match rules. -/
def Route.routeRules : List Rule → EnhancedEvent → List String
  | [], _ => []
  | r :: rs, ev => Route.routeRule r ev ++ Route.routeRules rs ev
/-- Destinations contributed by one match rule. -/
def Route.routeRule : Rule → EnhancedEvent → List String
  | Rule.mk p recv sub, ev =>
    if (Rule.mk p recv sub).MatchesEvent ev then
      (match recv with
        | none => []
        | some name => [name]) ++
      (match sub with
        | none => []
        | some rt => Route.route rt ev)
    else []
end

mutual
/-- Modelled from the spec: the destination names reachable through the match
tree of a route, that is the receivers of its match rules and of the match
rules of their nested routes (drop rules route nowhere). -/
def Route.receivers : Route → List String
  | Route.mk _ m => Route.receiversRules m
/-- Destination names reachable through a sequence of match rules. -/
def Route.receiversRules : List Rule → List String
  | [] => []
  | r :: rs => Route.receiversRule r ++ Route.receiversRules rs
/-- Destination names reachable through one match rule. -/
def Route.receiversRule : Rule → List String
  | Rule.mk _ recv sub =>
    (match recv with
      | none => []
      | some name => [name]) ++
    (match sub with
      | none => []
      | some rt => Route.receivers rt)
end

/-! ## Delivery registry: the capability contract and the synchronous variant -/

/-- The interface `ReceiverRegistry` that the engine is given, over a registry
state `ρ`: `SendEvent(name, event)`, `Register(name, sink)` and `Close()`. -/
structure ReceiverRegistry (ρ : Type) where
  SendEvent : ρ → String → EnhancedEvent → World → Run World
  Register : ρ → String → SinkId → ρ
  Close : ρ → World → World

/-- The `SyncRegistry`: the map `reg` from receiver name to sink, as an
association list with at most one entry per name (the order of the entries
stands for the unspecified iteration order of a Go map). -/
structure SyncRegistry where
  reg : List (String × SinkId)
deriving DecidableEq, Repr

/-- The zero value `&SyncRegistry{}` (nil map). -/
def SyncRegistry.empty : SyncRegistry := ⟨[]⟩

/-- Map lookup `s.reg[name]`; `none` is the nil interface value returned for a
missing key. -/
def SyncRegistry.lookup (s : SyncRegistry) (name : String) : Option SinkId :=
  (s.reg.find? fun p => p.1 == name).map fun p => p.2

/-- Map assignment `m[name] = sink`: replaces the value of an existing key,
adds the key otherwise. -/
def mapSet : List (String × SinkId) → String → SinkId → List (String × SinkId)
  | [], name, sink => [(name, sink)]
  | (k, v) :: rest, name, sink =>
    if k = name then (k, sink) :: rest else (k, v) :: mapSet rest name sink

/-- The method `SyncRegistry.SendEvent`: calls `Send` of `s.reg[name]` on the
calling context; an error is logged and not returned. Calling `Send` on the nil
interface of a missing name is a run-time fault. -/
def SyncRegistry.SendEvent (env : SinkEnv) (s : SyncRegistry) (name : String)
    (event : EnhancedEvent) (w : World) : Run World :=
  match s.lookup name with
  | none => Run.crash "invalid memory address or nil pointer dereference"
  | some sink =>
    let w1 : World := { w with calls := w.calls ++ [SinkCall.send sink event] }
    match env.sendErr w.calls sink event with
    | none => Run.done w1
    | some _ => Run.done { w1 with logs := w1.logs ++ ["ERROR Cannot send event"] }

/-- The method `SyncRegistry.Register`. -/
def SyncRegistry.Register (s : SyncRegistry) (name : String) (sink : SinkId) :
    SyncRegistry :=
  ⟨mapSet s.reg name sink⟩

/-- The loop of `SyncRegistry.Close` over the entries of the map. -/
def SyncRegistry.closeLoop : List (String × SinkId) → World → World
  | [], w => w
  | (_, sink) :: rest, w =>
    SyncRegistry.closeLoop rest
      { calls := w.calls ++ [SinkCall.close sink],
        logs := w.logs ++ ["INFO Closing sink"] }

/-- The method `SyncRegistry.Close`: calls `Close` on every sink of the map. -/
def SyncRegistry.Close (s : SyncRegistry) (w : World) : World :=
  SyncRegistry.closeLoop s.reg w

/-- The synchronous registry as a `ReceiverRegistry`. -/
def SyncRegistry.iface (env : SinkEnv) : ReceiverRegistry SyncRegistry where
  SendEvent := SyncRegistry.SendEvent env
  Register := SyncRegistry.Register
  Close := SyncRegistry.Close

/-- A sequence of `Register(name, sink)` calls on the synchronous registry. -/
def SyncRegistry.registerAll (s : SyncRegistry) : List (String × SinkId) → SyncRegistry
  | [] => s
  | (name, sink) :: rest => SyncRegistry.registerAll (s.Register name sink) rest

/-! ## Delivery registry: the channel-based variant

`Register` starts one worker goroutine per call; `SendEvent` starts one
goroutine per event, which sends the event on the unbuffered channel of the
name. The goroutines run interleaved: the system is a state and a step function
that performs one action of one goroutine, and a schedule is a list of actions.
Goroutines started by `go` are not ordered among themselves, so any pending
sender of a channel may be the one whose event the worker receives next. -/

/-- Identity of a channel made by `make(chan ...)`. -/
abbrev ChanId := Nat

/-- Where a worker goroutine started by `Register` stands. -/
inductive WorkerPc where
  | selecting
  | sending (ev : EnhancedEvent)
  | closing
  | exited
deriving DecidableEq, Repr

/-- A worker goroutine: the sink and the two channels it closes over, and its
position in the loop. -/
structure Worker where
  name : String
  sink : SinkId
  ch : ChanId
  exitCh : ChanId
  pc : WorkerPc
deriving DecidableEq, Repr

/-- A goroutine started by `SendEvent`, at `ch <- *event`; `ch = none` is the
nil channel read from the map for a name without a channel. -/
structure Sender where
  ch : Option ChanId
  ev : EnhancedEvent
deriving DecidableEq, Repr

/-- Where the goroutine that called `Close()` stands: not called, in the loop
over `exitCh` with these channels left to signal, in `wg.Wait()`, returned. -/
inductive ClosePc where
  | idle
  | signalling (rest : List ChanId)
  | waiting
  | returned
deriving DecidableEq, Repr

/-- What can be observed of a run, in order. -/
inductive ChanEvent where
  | dispatched (name : String) (ev : EnhancedEvent)
  | sendStart (worker : Nat) (ev : EnhancedEvent)
  | sendEnd (worker : Nat) (ev : EnhancedEvent)
  | sinkClosed (worker : Nat)
  | closeReturned
deriving DecidableEq, Repr

/-- The struct `ChannelBasedReceiverRegistry`: the two maps and the wait group
(`none` is the nil pointer, `some n` a wait group whose counter is `n`). -/
structure ChannelBasedReceiverRegistry where
  ch : List (String × ChanId)
  exitCh : List (String × ChanId)
  wg : Option Nat
deriving DecidableEq, Repr

/-- The registry with its goroutines: the workers (in the order they were
started), the pending sender goroutines, the caller of `Close`, whether the
process has faulted, the calls made on sinks, the `SendErrors` counter and the
observed events. -/
structure ChanSys where
  r : ChannelBasedReceiverRegistry
  workers : List Worker
  senders : List Sender
  closer : ClosePc
  faulted : Bool
  world : World
  SendErrors : Nat
  trace : List ChanEvent
deriving DecidableEq, Repr

/-- The zero value `&ChannelBasedReceiverRegistry{}` and no goroutine. -/
def ChanSys.init : ChanSys :=
  { r := ⟨[], [], none⟩, workers := [], senders := [], closer := ClosePc.idle,
    faulted := false, world := World.init, SendErrors := 0, trace := [] }

/-- One action of one goroutine. -/
inductive Action where
  | register (name : String) (sink : SinkId)
  | dispatch (name : String) (ev : EnhancedEvent)
  | receive (i : Nat)
  | sendReturn (w : Nat)
  | closeCall
  | exitSignal
  | closeWait
  | workerClose (w : Nat)
  | closeReturn
deriving DecidableEq, Repr

/-- Map lookup `m[name]` of a channel; `none` is the nil channel. -/
def chanLookup (m : List (String × ChanId)) (name : String) : Option ChanId :=
  (m.find? fun p => p.1 == name).map fun p => p.2

/-- Map assignment `m[name] = c`. -/
def chanSet : List (String × ChanId) → String → ChanId → List (String × ChanId)
  | [], name, c => [(name, c)]
  | (k, v) :: rest, name, c =>
    if k = name then (k, c) :: rest else (k, v) :: chanSet rest name c

/-- Index of the worker that is in `select` on the channel `c`, if any. -/
def selectingOn (workers : List Worker) (c : ChanId) : Option Nat :=
  let i := workers.findIdx fun w => w.ch == c && w.pc == WorkerPc.selecting
  if i < workers.length then some i else none

/-- Index of the worker that is in `select` on the exit channel `c`, if any. -/
def selectingOnExit (workers : List Worker) (c : ChanId) : Option Nat :=
  let i := workers.findIdx fun w => w.exitCh == c && w.pc == WorkerPc.selecting
  if i < workers.length then some i else none

/-- Sets the position of worker `i`. -/
def setPc (workers : List Worker) (i : Nat) (pc : WorkerPc) : List Worker :=
  workers.modify (fun w => { w with pc := pc }) i

/-- The method `ChannelBasedReceiverRegistry.Register`: two fresh channels are
stored under the name, the wait group is created if nil and incremented, and a
worker goroutine is started at its `select`. -/
def ChanSys.Register (s : ChanSys) (name : String) (receiver : SinkId) : ChanSys :=
  let ch := 2 * s.workers.length
  let exitCh := 2 * s.workers.length + 1
  { s with
    r := { ch := chanSet s.r.ch name ch,
           exitCh := chanSet s.r.exitCh name exitCh,
           wg := some (s.r.wg.getD 0 + 1) },
    workers := s.workers ++ [⟨name, receiver, ch, exitCh, WorkerPc.selecting⟩] }

/-- The method `ChannelBasedReceiverRegistry.SendEvent`: reads the channel of
the name (logging when there is none), starts a goroutine that sends the event
on it, and returns. -/
def ChanSys.SendEvent (s : ChanSys) (name : String) (event : EnhancedEvent) : ChanSys :=
  let ch := chanLookup s.r.ch name
  let world : World :=
    match ch with
    | none => { s.world with logs := s.world.logs ++ ["ERROR There is no channel"] }
    | some _ => s.world
  { s with
    world := world,
    senders := s.senders ++ [⟨ch, event⟩],
    trace := s.trace ++ [ChanEvent.dispatched name event] }

/-- One step of the system under the sinks `env`; `none` when the action is not
enabled in the state. -/
def ChanSys.step (env : SinkEnv) (s : ChanSys) : Action → Option ChanSys
  | Action.register name sink =>
    if s.faulted then none else some (s.Register name sink)
  | Action.dispatch name ev =>
    if s.faulted then none else some (s.SendEvent name ev)
  | Action.receive i =>
    if s.faulted then none else
    match s.senders.get? i with
    | some ⟨some c, ev⟩ =>
      match selectingOn s.workers c with
      | some w =>
        match s.workers.get? w with
        | some wk =>
          some { s with
            senders := s.senders.eraseIdx i,
            workers := setPc s.workers w (WorkerPc.sending ev),
            world := { s.world with calls := s.world.calls ++ [SinkCall.send wk.sink ev] },
            trace := s.trace ++ [ChanEvent.sendStart w ev] }
        | none => none
      | none => none
    | _ => none
  | Action.sendReturn w =>
    if s.faulted then none else
    match s.workers.get? w with
    | some wk =>
      match wk.pc with
      | WorkerPc.sending ev =>
        let failed := (env.sendErr s.world.calls wk.sink ev).isSome
        some { s with
          workers := setPc s.workers w WorkerPc.selecting,
          SendErrors := if failed then s.SendErrors + 1 else s.SendErrors,
          world := if failed then
              { s.world with logs := s.world.logs ++ ["ERROR Cannot send event"] }
            else s.world,
          trace := s.trace ++ [ChanEvent.sendEnd w ev] }
      | _ => none
    | none => none
  | Action.closeCall =>
    if s.faulted then none else
    match s.closer with
    | ClosePc.idle =>
      some { s with closer := ClosePc.signalling (s.r.exitCh.map fun p => p.2) }
    | _ => none
  | Action.exitSignal =>
    if s.faulted then none else
    match s.closer with
    | ClosePc.signalling (c :: rest) =>
      match selectingOnExit s.workers c with
      | some w =>
        some { s with
          closer := ClosePc.signalling rest,
          workers := setPc s.workers w WorkerPc.closing }
      | none => none
    | _ => none
  | Action.closeWait =>
    if s.faulted then none else
    match s.closer with
    | ClosePc.signalling [] =>
      match s.r.wg with
      | none => some { s with faulted := true }
      | some _ => some { s with closer := ClosePc.waiting }
    | _ => none
  | Action.workerClose w =>
    if s.faulted then none else
    match s.workers.get? w with
    | some wk =>
      match wk.pc with
      | WorkerPc.closing =>
        some { s with
          workers := setPc s.workers w WorkerPc.exited,
          r := { s.r with wg := s.r.wg.map fun n => n - 1 },
          world := { s.world with calls := s.world.calls ++ [SinkCall.close wk.sink] },
          trace := s.trace ++ [ChanEvent.sinkClosed w] }
      | _ => none
    | none => none
  | Action.closeReturn =>
    if s.faulted then none else
    match s.closer, s.r.wg with
    | ClosePc.waiting, some 0 =>
      some { s with closer := ClosePc.returned, trace := s.trace ++ [ChanEvent.closeReturned] }
    | _, _ => none

/-- Runs a schedule; `none` when some action of it is not enabled. -/
def ChanSys.run (env : SinkEnv) : List Action → ChanSys → Option ChanSys
  | [], s => some s
  | a :: rest, s =>
    match s.step env a with
    | some s1 => ChanSys.run env rest s1
    | none => none

/-- The events with which worker `w` started a `Send`, in order. -/
def sendStartsOf (trace : List ChanEvent) (w : Nat) : List EnhancedEvent :=
  trace.filterMap fun t =>
    match t with
    | ChanEvent.sendStart w1 ev => if w1 = w then some ev else none
    | _ => none

/-- The events whose `Send` by worker `w` has returned, in order. -/
def sendEndsOf (trace : List ChanEvent) (w : Nat) : List EnhancedEvent :=
  trace.filterMap fun t =>
    match t with
    | ChanEvent.sendEnd w1 ev => if w1 = w then some ev else none
    | _ => none

/-- The events dispatched to a name, in the order of the `SendEvent` calls. -/
def dispatchedTo (trace : List ChanEvent) (name : String) : List EnhancedEvent :=
  trace.filterMap fun t =>
    match t with
    | ChanEvent.dispatched n ev => if n = name then some ev else none
    | _ => none

/-- The event whose `Send` is in progress at a position of the worker loop. -/
def WorkerPc.inFlight : WorkerPc → List EnhancedEvent
  | WorkerPc.sending ev => [ev]
  | _ => []

/-- The event (at most one) whose `Send` worker `w` is running. -/
def inFlight (workers : List Worker) (w : Nat) : List EnhancedEvent :=
  match workers.get? w with
  | some wk => wk.pc.inFlight
  | none => []

/-- Sends started and finished by every worker agree up to the one send in
progress: the invariant of the worker loop. -/
def ChanSys.SendsBracketed (s : ChanSys) : Prop :=
  ∀ w, sendStartsOf s.trace w = sendEndsOf s.trace w ++ inFlight s.workers w

/-! ## Pipeline engine -/

/-- Dispatches one event to each destination name in turn through the
registry. -/
def dispatchAll {ρ : Type} (I : ReceiverRegistry ρ) (registry : ρ)
    (ev : EnhancedEvent) : List String → World → Run World
  | [], w => Run.done w
  | name :: rest, w =>
    (I.SendEvent registry name ev w).bind (dispatchAll I registry ev rest)

/-- Modelled from the spec: `Route.ProcessEvent` (route.go) is not among the
sources. The routing engine resolves the destination names of the event and the
event is dispatched to each resolved name via the delivery registry. -/
def Route.ProcessEvent {ρ : Type} (I : ReceiverRegistry ρ) (r : Route)
    (ev : EnhancedEvent) (registry : ρ) (w : World) : Run World :=
  dispatchAll I registry ev (r.route ev) w

/-- Modelled from the spec: `sinks.ReceiverConfig` is not among the sources. A
configured destination has a name; its sink settings are kept opaque. -/
structure ReceiverConfig where
  Name : String
  Settings : String
deriving DecidableEq, Repr

/-- The `kube.LeaderElectionConfig` part of the configuration. -/
structure LeaderElectionConfig where
  Enabled : Bool
  LeaderElectionID : String
deriving DecidableEq, Repr

/-- The struct `Config`. `KubeQPS` is the bit pattern of the `float32`. -/
structure Config where
  LogLevel : String
  LogFormat : String
  ThrottlePeriod : Int
  MaxEventAgeSeconds : Int
  ClusterName : String
  Namespace : String
  LeaderElection : LeaderElectionConfig
  Route : Route
  Receivers : List ReceiverConfig
  KubeQPS : Nat
  KubeBurst : Int
  MetricsNamePrefix : String
  OmitLookup : Bool
  CacheSize : Int

/-- The struct `Engine`: the route and the registry. -/
structure Engine (ρ : Type) where
  Route : Route
  Registry : ρ

/-- What a call of `NewEngine` leaves behind: the returned pair (an engine, or
the error), the registry object as the loop left it, and the world. -/
structure NewEngineResult (ρ : Type) where
  result : Except String (Engine ρ)
  registry : ρ
  world : World

/-- The loop of `NewEngine` over `config.Receivers`; `GetSink` of a receiver
configuration (not among the sources) is the parameter `getSink`. Returns the
error of the first receiver whose sink cannot be built, or nothing. -/
def NewEngine.loop {ρ : Type} (I : ReceiverRegistry ρ)
    (getSink : ReceiverConfig → Except String SinkId) :
    List ReceiverConfig → ρ → World → Option String × ρ × World
  | [], registry, w => (none, registry, w)
  | v :: rest, registry, w =>
    match getSink v with
    | Except.error _ => (some ("Cannot initialize sink " ++ v.Name), registry, w)
    | Except.ok sink =>
      NewEngine.loop I getSink rest (I.Register registry v.Name sink)
        { w with logs := w.logs ++ ["INFO Registering sink"] }

/-- The function `NewEngine`. -/
def NewEngine {ρ : Type} (I : ReceiverRegistry ρ)
    (getSink : ReceiverConfig → Except String SinkId)
    (config : Config) (registry : ρ) (w : World) : NewEngineResult ρ :=
  match NewEngine.loop I getSink config.Receivers registry w with
  | (some err, registry1, w1) =>
    { result := Except.error err, registry := registry1, world := w1 }
  | (none, registry1, w1) =>
    { result := Except.ok { Route := config.Route, Registry := registry1 },
      registry := registry1, world := w1 }

/-- The method `Engine.OnEvent`. -/
def Engine.OnEvent {ρ : Type} (I : ReceiverRegistry ρ) (e : Engine ρ)
    (event : EnhancedEvent) (w : World) : Run World :=
  e.Route.ProcessEvent I event e.Registry w

/-- The method `Engine.Stop`. -/
def Engine.Stop {ρ : Type} (I : ReceiverRegistry ρ) (e : Engine ρ) (w : World) :
    World :=
  let w1 : World := { w with logs := w.logs ++ ["INFO Closing sinks"] }
  let w2 := I.Close e.Registry w1
  { w2 with logs := w2.logs ++ ["INFO All sinks closed"] }

/-! ## Event watcher -/

/-- Largest `time.Duration`: `1<<63 - 1` nanoseconds. -/
def maxDuration : Int := 9223372036854775807

/-- Smallest `time.Duration`: `-1 << 63` nanoseconds. -/
def minDuration : Int := -9223372036854775808

/-- Two's-complement wrap of an integer to `int64`. -/
def wrapInt64 (x : Int) : Int :=
  (x + 9223372036854775808) % 18446744073709551616 - 9223372036854775808

/-- The library function `Time.Sub`: the duration `t - u`, or the largest
(smallest) duration when the difference does not fit. -/
def Time.Sub (t u : Int) : Int :=
  if t - u > maxDuration then maxDuration
  else if t - u < minDuration then minDuration
  else t - u

/-- The library function `time.Since(t)`, which is `time.Now().Sub(t)`; the
reading of the clock is the parameter `now`. -/
def Time.Since (now t : Int) : Int :=
  Time.Sub now t

/-- The metadata `kube.ObjectMetadata` that a lookup resolves (its declaration
is not among the sources; the fields are those `onEvent` reads). -/
structure ObjectMetadata where
  Annotations : StrMap
  Labels : StrMap
  OwnerReferences : List OwnerReference
  Deleted : Bool
deriving DecidableEq, Repr

/-- An error returned by the metadata lookup; `notFound` is what
`errors.IsNotFound` answers for it. -/
structure LookupError where
  notFound : Bool
  msg : String
deriving DecidableEq, Repr

/-- The fields of `EventWatcher` that `onEvent` reads. The metadata cache
(`objectMetadataCache.GetObjectMetadata`, not among the sources) is the
parameter `lookup` of `onEvent`; the callback `fn` is recorded in
`WatcherState.delivered`. -/
structure EventWatcher where
  omitLookup : Bool
  maxEventAgeSeconds : Int
deriving DecidableEq, Repr

/-- What the watcher changes: the two counters of the metrics store, the log,
the queries made to the metadata cache and the events handed to the callback
`fn`, each in order. -/
structure WatcherState where
  EventsDiscarded : Nat
  EventsProcessed : Nat
  logs : List String
  lookups : List ObjectReference
  delivered : List EnhancedEvent
deriving DecidableEq, Repr

/-- The state before any event. -/
def WatcherState.init : WatcherState := ⟨0, 0, [], [], []⟩

/-- What `NewEventWatcher` stores from its arguments:
`maxEventAgeSeconds = time.Second * time.Duration(MaxEventAgeSeconds)`, a
multiplication of `int64` values. -/
def NewEventWatcher (MaxEventAgeSeconds : Int) (omitLookup : Bool) : EventWatcher :=
  { omitLookup := omitLookup,
    maxEventAgeSeconds := wrapInt64 (1000000000 * MaxEventAgeSeconds) }

/-- The method `EventWatcher.isEventDiscarded`; `startUpTime` is the package
variable and `now` the clock read by `time.Since`. -/
def EventWatcher.isEventDiscarded (e : EventWatcher) (startUpTime now : Int)
    (event : Event) (st : WatcherState) : Bool × WatcherState :=
  let timestamp := if event.LastTimestamp = 0 then event.EventTime else event.LastTimestamp
  let eventAge := Time.Since now timestamp
  if eventAge > e.maxEventAgeSeconds then
    if timestamp > startUpTime then
      (true, { st with
        logs := st.logs ++ ["WARN Event discarded as being older then maxEventAgeSeconds"],
        EventsDiscarded := st.EventsDiscarded + 1 })
    else (true, st)
  else (false, st)

/-- The method `EventWatcher.onEvent`: a stale event is dropped; otherwise the
event is copied without its managed fields, its involved object is enriched
from the metadata cache unless `omitLookup` is set, and the callback is invoked
with the result. -/
def EventWatcher.onEvent (e : EventWatcher)
    (lookup : ObjectReference → Except LookupError ObjectMetadata)
    (startUpTime now : Int) (event : Event) (st : WatcherState) : WatcherState :=
  match e.isEventDiscarded startUpTime now event st with
  | (true, st1) => st1
  | (false, st1) =>
    let st2 : WatcherState :=
      { st1 with logs := st1.logs ++ ["DEBUG Received event"],
                 EventsProcessed := st1.EventsProcessed + 1 }
    let ev0 : EnhancedEvent :=
      { Event := event, ClusterName := "", InvolvedObject := EnhancedObjectReference.zero }
    let ev1 : EnhancedEvent := { ev0 with Event := { ev0.Event with ManagedFields := [] } }
    let r : EnhancedEvent × WatcherState :=
      if e.omitLookup then
        ({ ev1 with InvolvedObject := { ev1.InvolvedObject with
              ObjectReference := event.InvolvedObject } }, st2)
      else
        let st3 : WatcherState :=
          { st2 with lookups := st2.lookups ++ [event.InvolvedObject] }
        match lookup event.InvolvedObject with
        | Except.error err =>
          let r1 : EnhancedEvent × WatcherState :=
            if err.notFound then
              ({ ev1 with InvolvedObject := { ev1.InvolvedObject with Deleted := true } },
               { st3 with logs := st3.logs ++ ["ERROR Object not found, likely deleted"] })
            else
              (ev1, { st3 with logs := st3.logs ++ ["ERROR Failed to get object metadata"] })
          ({ r1.1 with InvolvedObject := { r1.1.InvolvedObject with
                ObjectReference := event.InvolvedObject } }, r1.2)
        | Except.ok objectMetadata =>
          ({ ev1 with InvolvedObject :=
              { Labels := objectMetadata.Labels,
                Annotations := objectMetadata.Annotations,
                OwnerReferences := objectMetadata.OwnerReferences,
                ObjectReference := event.InvolvedObject,
                Deleted := objectMetadata.Deleted } }, st3)
    { r.2 with delivered := r.2.delivered ++ [r.1] }

/-- The method `EventWatcher.OnAdd` as its caller sees it: the event object
that was passed, as it is after the call, and the effects of the watcher.
`onEvent` reads the object and assigns only to fields of its own copy
(`event.DeepCopy()`), never through the pointer it was given. -/
def EventWatcher.OnAdd (e : EventWatcher)
    (lookup : ObjectReference → Except LookupError ObjectMetadata)
    (startUpTime now : Int) (obj : Event) (st : WatcherState) : Event × WatcherState :=
  (obj, e.onEvent lookup startUpTime now obj st)

/-! ## Configuration validation -/

/-- What a validation method leaves behind: the returned error (if any), the
configuration object after the call, and the lines logged. -/
structure Validated where
  err : Option String
  config : Config
  logs : List String

/-- The method `Config.validateMaxEventAgeSeconds`. -/
def Config.validateMaxEventAgeSeconds (c : Config) : Validated :=
  if c.ThrottlePeriod = 0 ∧ c.MaxEventAgeSeconds = 0 then
    { err := none, config := { c with MaxEventAgeSeconds := 5 },
      logs := ["INFO setting config.maxEventAgeSeconds=5 (default)"] }
  else if c.ThrottlePeriod ≠ 0 ∧ c.MaxEventAgeSeconds ≠ 0 then
    { err := some "validateMaxEventAgeSeconds failed", config := c,
      logs := ["ERROR cannot set both throttlePeriod (deprecated) and MaxEventAgeSeconds"] }
  else if c.ThrottlePeriod ≠ 0 then
    { err := none, config := { c with MaxEventAgeSeconds := c.ThrottlePeriod },
      logs := ["INFO config.maxEventAgeSeconds=" ++ toString c.ThrottlePeriod,
        "WARN config.throttlePeriod is deprecated, consider using config.maxEventAgeSeconds instead"] }
  else
    { err := none, config := c,
      logs := ["INFO config.maxEventAgeSeconds=" ++ toString c.MaxEventAgeSeconds] }

/-- The method `Config.validateDefaults`. -/
def Config.validateDefaults (c : Config) : Validated :=
  c.validateMaxEventAgeSeconds

/-- ASCII letter, the class `[a-zA-Z]`. -/
def isAsciiLetter (ch : Char) : Bool :=
  (97 ≤ ch.toNat && ch.toNat ≤ 122) || (65 ≤ ch.toNat && ch.toNat ≤ 90)

/-- The class `[a-zA-Z0-9_:]`. -/
def isPrefixChar (ch : Char) : Bool :=
  isAsciiLetter ch || (48 ≤ ch.toNat && ch.toNat ≤ 57) || ch = '_' || ch = ':'

/-- Whether a string matches the pattern `^[a-zA-Z][a-zA-Z0-9_:]*_$` of
`validateMetricsNamePrefix`. -/
def matchesMetricsNamePrefix (text : String) : Bool :=
  match text.data with
  | [] => false
  | first :: rest =>
    isAsciiLetter first && rest.all isPrefixChar && rest.getLast? = some '_'

/-- The method `Config.validateMetricsNamePrefix`. -/
def Config.validateMetricsNamePrefix (c : Config) : Validated :=
  if c.MetricsNamePrefix ≠ "" then
    if matchesMetricsNamePrefix c.MetricsNamePrefix then
      { err := none, config := c, logs := ["INFO config.metricsNamePrefix"] }
    else
      { err := some "validateMetricsNamePrefix failed", config := c,
        logs := ["ERROR config.metricsNamePrefix should match the regex"] }
  else
    { err := none, config := c,
      logs := ["WARN metrics name prefix is empty"] }

/-- The method `Config.Validate`: the two checks in turn; receivers and routes
are not examined. -/
def Config.Validate (c : Config) : Validated :=
  let v1 := c.validateDefaults
  match v1.err with
  | some err => { err := some err, config := v1.config, logs := v1.logs }
  | none =>
    let v2 := v1.config.validateMetricsNamePrefix
    { err := v2.err, config := v2.config, logs := v1.logs ++ v2.logs }

/-! ## Dynamic values (`any`) and layouts -/

/-- A Go value of a basic type other than string held in an `any`: a boolean,
an integer or a floating-point number (by its bit pattern). -/
inductive Scalar where
  | bool (b : Bool)
  | int (i : Int)
  | float (bits : Nat)
deriving DecidableEq, Repr

/-- A key of a `map[any]any`: a string or a value of another basic type. -/
inductive Key where
  | str (s : String)
  | other (c : Scalar)
deriving DecidableEq, Repr

/-- A Go value held in an `any`, by dynamic type: the nil interface, a string,
a `map[any]any`, a `map[string]any`, a `[]any`, or a value of another type. A
map is the list of its entries; a Go map holds each key once (`keysNodup`). -/
inductive Value where
  | null
  | str (s : String)
  | mapAny (m : List (Key × Value))
  | mapStr (m : List (String × Value))
  | list (l : List Value)
  | other (c : Scalar)

/-- Map assignment `m[k] = v`: replaces the value of an existing key, adds the
key otherwise. -/
def mapPut {κ ν : Type} [DecidableEq κ] : List (κ × ν) → κ → ν → List (κ × ν)
  | [], k, v => [(k, v)]
  | (k0, v0) :: rest, k, v =>
    if k0 = k then (k0, v) :: rest else (k0, v0) :: mapPut rest k v

/-- Map lookup `m[k]` with its presence flag. -/
def mapGet {κ ν : Type} [DecidableEq κ] (m : List (κ × ν)) (k : κ) : Option ν :=
  (m.find? fun p => decide (p.1 = k)).map fun p => p.2

mutual
/-- Whether every map in the value, at every depth, holds each key once: what
the Go map type guarantees. -/
def Value.keysNodup : Value → Bool
  | Value.mapAny m => decide ((m.map Prod.fst).Nodup) && Value.keysNodupAny m
  | Value.mapStr m => decide ((m.map Prod.fst).Nodup) && Value.keysNodupStr m
  | Value.list l => Value.keysNodupList l
  | _ => true
/-- The same for the values of the entries of a `map[any]any`. -/
def Value.keysNodupAny : List (Key × Value) → Bool
  | [] => true
  | (_, v) :: rest => Value.keysNodup v && Value.keysNodupAny rest
/-- The same for the values of the entries of a `map[string]any`. -/
def Value.keysNodupStr : List (String × Value) → Bool
  | [] => true
  | (_, v) :: rest => Value.keysNodup v && Value.keysNodupStr rest
/-- The same for the elements of a list. -/
def Value.keysNodupList : List Value → Bool
  | [] => true
  | v :: rest => Value.keysNodup v && Value.keysNodupList rest
end

mutual
/-- The template strings of a value: every string in it, through maps and
lists. -/
def Value.templates : Value → List String
  | Value.str s => [s]
  | Value.mapAny m => Value.templatesAny m
  | Value.mapStr m => Value.templatesStr m
  | Value.list l => Value.templatesList l
  | _ => []
/-- Template strings in the entries of a `map[any]any`. -/
def Value.templatesAny : List (Key × Value) → List String
  | [] => []
  | (_, v) :: rest => Value.templates v ++ Value.templatesAny rest
/-- Template strings in the entries of a `map[string]any`. -/
def Value.templatesStr : List (String × Value) → List String
  | [] => []
  | (_, v) :: rest => Value.templates v ++ Value.templatesStr rest
/-- Template strings in the elements of a list. -/
def Value.templatesList : List Value → List String
  | [] => []
  | v :: rest => Value.templates v ++ Value.templatesList rest
end

mutual
/-- The keys of the any-keyed maps of a value, at every depth. -/
def Value.anyKeys : Value → List Key
  | Value.mapAny m => Value.anyKeysAny m
  | Value.mapStr m => Value.anyKeysStr m
  | Value.list l => Value.anyKeysList l
  | _ => []
/-- The keys of a `map[any]any` and those nested in its values. -/
def Value.anyKeysAny : List (Key × Value) → List Key
  | [] => []
  | (k, v) :: rest => k :: (Value.anyKeys v ++ Value.anyKeysAny rest)
/-- Keys of any-keyed maps nested in the values of a `map[string]any`. -/
def Value.anyKeysStr : List (String × Value) → List Key
  | [] => []
  | (_, v) :: rest => Value.anyKeys v ++ Value.anyKeysStr rest
/-- Keys of any-keyed maps nested in the elements of a list. -/
def Value.anyKeysList : List Value → List Key
  | [] => []
  | v :: rest => Value.anyKeys v ++ Value.anyKeysList rest
end

/-! ## Layout templates (`tmpl.go`) -/

mutual
/-- The function `convertTemplate`. Rendering a template string against the
event (`GetString`, on the external template library) is the parameter
`render`. The result is a fault, or the pair (value, error) as an `Except`. -/
def convertTemplate (render : EnhancedEvent → String → Except String String)
    (ev : EnhancedEvent) : Value → Run (Except String Value)
  | Value.str v =>
    match render ev v with
    | Except.error err => Run.done (Except.error err)
    | Except.ok rendered => Run.done (Except.ok (Value.str rendered))
  | Value.mapAny m =>
    match convertTemplate.anyLoop render ev m [] with
    | Run.crash r => Run.crash r
    | Run.done (Except.error err) => Run.done (Except.error err)
    | Run.done (Except.ok strKeysMap) => Run.done (Except.ok (Value.mapStr strKeysMap))
  | Value.mapStr m =>
    match convertTemplate.strLoop render ev m [] with
    | Run.crash r => Run.crash r
    | Run.done (Except.error err) => Run.done (Except.error err)
    | Run.done (Except.ok strKeysMap) => Run.done (Except.ok (Value.mapStr strKeysMap))
  | Value.list l =>
    match convertTemplate.listLoop render ev l [] with
    | Run.crash r => Run.crash r
    | Run.done (Except.error err) => Run.done (Except.error err)
    | Run.done (Except.ok listConf) => Run.done (Except.ok (Value.list listConf))
  | Value.null => Run.done (Except.ok Value.null)
  | Value.other c => Run.done (Except.ok (Value.other c))
/-- The loop over a `map[any]any`: converts the value, then asserts that the
key is a string (`k.(string)`, which faults otherwise) and stores the result
under it. -/
def convertTemplate.anyLoop (render : EnhancedEvent → String → Except String String)
    (ev : EnhancedEvent) :
    List (Key × Value) → List (String × Value) → Run (Except String (List (String × Value)))
  | [], strKeysMap => Run.done (Except.ok strKeysMap)
  | (k, v) :: rest, strKeysMap =>
    match convertTemplate render ev v with
    | Run.crash r => Run.crash r
    | Run.done (Except.error err) => Run.done (Except.error err)
    | Run.done (Except.ok res) =>
      match k with
      | Key.str key => convertTemplate.anyLoop render ev rest (mapPut strKeysMap key res)
      | Key.other _ =>
        Run.crash "interface conversion: interface \x7b\x7d is not string"
/-- The loop over a `map[string]any`. -/
def convertTemplate.strLoop (render : EnhancedEvent → String → Except String String)
    (ev : EnhancedEvent) :
    List (String × Value) → List (String × Value) → Run (Except String (List (String × Value)))
  | [], strKeysMap => Run.done (Except.ok strKeysMap)
  | (k, v) :: rest, strKeysMap =>
    match convertTemplate render ev v with
    | Run.crash r => Run.crash r
    | Run.done (Except.error err) => Run.done (Except.error err)
    | Run.done (Except.ok res) =>
      convertTemplate.strLoop render ev rest (mapPut strKeysMap k res)
/-- The loop over a `[]any`: element `i` of the result is the conversion of
element `i`. -/
def convertTemplate.listLoop (render : EnhancedEvent → String → Except String String)
    (ev : EnhancedEvent) :
    List Value → List Value → Run (Except String (List Value))
  | [], listConf => Run.done (Except.ok listConf)
  | v :: rest, listConf =>
    match convertTemplate render ev v with
    | Run.crash r => Run.crash r
    | Run.done (Except.error err) => Run.done (Except.error err)
    | Run.done (Except.ok t) => convertTemplate.listLoop render ev rest (listConf ++ [t])
end

/-- The function `convertLayoutTemplate`: the loop of `convertTemplate` for a
`map[string]any`, over the layout. -/
def convertLayoutTemplate (render : EnhancedEvent → String → Except String String)
    (layout : List (String × Value)) (ev : EnhancedEvent) :
    Run (Except String (List (String × Value))) :=
  convertTemplate.strLoop render ev layout []

/-- The string a key of a `map[any]any` is when it is a string. -/
def Key.asString : Key → String
  | Key.str s => s
  | Key.other _ => ""

mutual
/-- The conversion of a layout value as the specification describes it: a
string becomes its rendering, a map (any-keyed or string-keyed) becomes a
string-keyed map with the same keys and converted values, a list becomes the
list of its converted elements, any other value stays. -/
def specConvert (render : EnhancedEvent → String → Except String String)
    (ev : EnhancedEvent) : Value → Value
  | Value.str s =>
    match render ev s with
    | Except.ok rendered => Value.str rendered
    | Except.error _ => Value.str s
  | Value.mapAny m => Value.mapStr (specConvert.anyEntries render ev m)
  | Value.mapStr m => Value.mapStr (specConvert.strEntries render ev m)
  | Value.list l => Value.list (specConvert.items render ev l)
  | Value.null => Value.null
  | Value.other c => Value.other c
/-- Entries of an any-keyed map, converted. -/
def specConvert.anyEntries (render : EnhancedEvent → String → Except String String)
    (ev : EnhancedEvent) : List (Key × Value) → List (String × Value)
  | [] => []
  | (k, v) :: rest =>
    (k.asString, specConvert render ev v) :: specConvert.anyEntries render ev rest
/-- Entries of a string-keyed map, converted. -/
def specConvert.strEntries (render : EnhancedEvent → String → Except String String)
    (ev : EnhancedEvent) : List (String × Value) → List (String × Value)
  | [] => []
  | (k, v) :: rest => (k, specConvert render ev v) :: specConvert.strEntries render ev rest
/-- Elements of a list, converted. -/
def specConvert.items (render : EnhancedEvent → String → Except String String)
    (ev : EnhancedEvent) : List Value → List Value
  | [] => []
  | v :: rest => specConvert render ev v :: specConvert.items render ev rest
end

/-! ## BigQuery sink: nil values -/

/-- The test `value == nil` on an `any`. -/
def Value.isNull : Value → Bool
  | Value.null => true
  | _ => false

mutual
/-- What `bigQueryDropNils` stores for a value that is not nil: when the value
is a `map[string]any`, `bigQueryDropNils` of it (the loop run on it from an
empty map), otherwise the value itself. -/
def bigQueryDropNils.stored : Value → Value
  | Value.mapStr mapValue => Value.mapStr (bigQueryDropNils.loop mapValue [])
  | Value.null => Value.null
  | Value.str s => Value.str s
  | Value.mapAny m => Value.mapAny m
  | Value.list l => Value.list l
  | Value.other c => Value.other c
/-- The loop of `bigQueryDropNils` over the entries of `x`, filling `y`: an
entry whose value is nil is skipped. -/
def bigQueryDropNils.loop :
    List (String × Value) → List (String × Value) → List (String × Value)
  | [], y => y
  | (key, value) :: rest, y =>
    match value with
    | Value.null => bigQueryDropNils.loop rest y
    | _ => bigQueryDropNils.loop rest (mapPut y key (bigQueryDropNils.stored value))
end

/-- The function `bigQueryDropNils`. -/
def bigQueryDropNils (x : List (String × Value)) : List (String × Value) :=
  bigQueryDropNils.loop x []

/-- A call of `bigQueryDropNils` as its caller sees it: the map that was
passed, as it is after the call, and the map returned. The function assigns
only into the map `y` that it makes. -/
def bigQueryDropNils.call (x : List (String × Value)) :
    List (String × Value) × List (String × Value) :=
  (x, bigQueryDropNils x)

mutual
/-- Whether no key of a string-keyed map nested in the value, at any depth of
nested string-keyed maps, has a nil value. -/
def Value.noNilInMaps : Value → Bool
  | Value.mapStr m => Value.noNilEntries m
  | _ => true
/-- Whether no key of the map has a nil value, at any depth of nested
string-keyed maps. -/
def Value.noNilEntries : List (String × Value) → Bool
  | [] => true
  | (_, v) :: rest => !v.isNull && v.noNilInMaps && Value.noNilEntries rest
end

/-! ## BigQuery sink: keys -/

/-- The two predicates of Go's package `unicode` that `bigQuerySanitizeKey`
calls, on a rune given by its code point. -/
structure UnicodeTables where
  IsLetter : Nat → Bool
  IsDigit : Nat → Bool

/-- The first byte of the UTF-8 encoding of a character: what `key[0]` reads
when the key starts with that character. -/
def utf8LeadByte (c : Char) : Nat :=
  if c.toNat < 128 then c.toNat
  else if c.toNat < 2048 then 192 + c.toNat / 64
  else if c.toNat < 65536 then 224 + c.toNat / 4096
  else 240 + c.toNat / 262144

/-- The character appended for one rune of the key: the rune itself when it is
a letter or a digit, an underscore otherwise. -/
def sanitizeRune (U : UnicodeTables) (ch : Char) : Char :=
  if U.IsLetter ch.toNat || U.IsDigit ch.toNat then ch else '_'

/-- The loop `for _, ch := range key` of `bigQuerySanitizeKey`. -/
def bigQuerySanitizeKey.loop (U : UnicodeTables) : List Char → List Char → List Char
  | [], fixedKey => fixedKey
  | ch :: rest, fixedKey =>
    bigQuerySanitizeKey.loop U rest (fixedKey ++ [sanitizeRune U ch])

/-- The function `bigQuerySanitizeKey` on a key that is valid UTF-8.
`rune(key[0])` is the first byte of the key taken as a code point; indexing the
empty key faults. -/
def bigQuerySanitizeKey (U : UnicodeTables) (key : String) : Run String :=
  match key.data with
  | [] => Run.crash "index out of range [0] with length 0"
  | c :: _ =>
    let fixedKey : List Char := if !U.IsLetter (utf8LeadByte c) then ['_'] else []
    Run.done (String.mk (bigQuerySanitizeKey.loop U key.data fixedKey))

/-- An excerpt of the Unicode tables: letters and digits of ASCII and Latin-1,
and the Arabic-Indic digits U+0660 to U+0669. Code points outside these ranges
are not covered by the excerpt. -/
def unicodeExcerpt : UnicodeTables where
  IsLetter := fun r =>
    (65 ≤ r && r ≤ 90) || (97 ≤ r && r ≤ 122) || r == 170 || r == 181 || r == 186 ||
    (192 ≤ r && r ≤ 214) || (216 ≤ r && r ≤ 246) || (248 ≤ r && r ≤ 255)
  IsDigit := fun r => (48 ≤ r && r ≤ 57) || (1632 ≤ r && r ≤ 1641)

mutual
/-- What `bigQuerySanitizeKeys` stores under the fixed key of an entry: when
the value is a `map[string]any`, `bigQuerySanitizeKeys` of it (the loop run on
it from an empty map), otherwise the value itself. -/
def bigQuerySanitizeKeys.stored (U : UnicodeTables) : Value → Run Value
  | Value.mapStr mapValue =>
    match bigQuerySanitizeKeys.loop U mapValue [] with
    | Run.done y => Run.done (Value.mapStr y)
    | Run.crash r => Run.crash r
  | Value.null => Run.done Value.null
  | Value.str s => Run.done (Value.str s)
  | Value.mapAny m => Run.done (Value.mapAny m)
  | Value.list l => Run.done (Value.list l)
  | Value.other c => Run.done (Value.other c)
/-- The loop of `bigQuerySanitizeKeys` over the entries of `x`, filling `y`:
the key is fixed first, then the value to store is computed, then
`y[fixedKey]` is assigned. -/
def bigQuerySanitizeKeys.loop (U : UnicodeTables) :
    List (String × Value) → List (String × Value) → Run (List (String × Value))
  | [], y => Run.done y
  | (key, value) :: rest, y =>
    match bigQuerySanitizeKey U key with
    | Run.crash r => Run.crash r
    | Run.done fixedKey =>
      match bigQuerySanitizeKeys.stored U value with
      | Run.crash r => Run.crash r
      | Run.done v => bigQuerySanitizeKeys.loop U rest (mapPut y fixedKey v)
end

/-- The function `bigQuerySanitizeKeys`. -/
def bigQuerySanitizeKeys (U : UnicodeTables) (x : List (String × Value)) :
    Run (List (String × Value)) :=
  bigQuerySanitizeKeys.loop U x []

/-! ## BigQuery sink: keys, as the specification describes them -/

/-- The string `bigQuerySanitizeKey(k)` of a key that is not empty. -/
def specSanitizedKey (U : UnicodeTables) (key : String) : String :=
  match bigQuerySanitizeKey U key with
  | Run.done fixedKey => fixedKey
  | Run.crash _ => ""

mutual
/-- A value with the keys of its string-keyed maps fixed, every entry kept. -/
def specSanitizeValue (U : UnicodeTables) : Value → Value
  | Value.mapStr m => Value.mapStr (specSanitizeEntries U m)
  | Value.null => Value.null
  | Value.str s => Value.str s
  | Value.mapAny m => Value.mapAny m
  | Value.list l => Value.list l
  | Value.other c => Value.other c
/-- The entries of a map, each kept under its fixed key with its value (fixed
recursively when it is a string-keyed map), in order. -/
def specSanitizeEntries (U : UnicodeTables) :
    List (String × Value) → List (String × Value)
  | [] => []
  | (key, value) :: rest =>
    (specSanitizedKey U key, specSanitizeValue U value) :: specSanitizeEntries U rest
end

mutual
/-- Whether, in every string-keyed map of the value reached through
string-keyed maps, no key is empty and the fixed keys are pairwise distinct. -/
def Value.sanitizesApart (U : UnicodeTables) : Value → Bool
  | Value.mapStr m =>
    m.all (fun p => !p.1.data.isEmpty) &&
    decide ((m.map fun p => specSanitizedKey U p.1).Nodup) &&
    Value.sanitizesApartEntries U m
  | _ => true
/-- The same for the values of the entries of a map. -/
def Value.sanitizesApartEntries (U : UnicodeTables) : List (String × Value) → Bool
  | [] => true
  | (_, v) :: rest => Value.sanitizesApart U v && Value.sanitizesApartEntries U rest
end

/-! ## BigQuery sink: the batch handler -/

/-- An element of a batch (`any`), by dynamic type: a pointer to an event, as
`Send` submits them, or a value of another type. -/
inductive BatchItem where
  | event (ev : EnhancedEvent)
  | other (v : Value)

mutual
/-- Whether no string-keyed map of the value, reached through string-keyed
maps, has an empty key. -/
def Value.keysNonempty : Value → Bool
  | Value.mapStr m => Value.keysNonemptyEntries m
  | _ => true
/-- Whether no key of the map is empty, at any depth of nested string-keyed
maps. -/
def Value.keysNonemptyEntries : List (String × Value) → Bool
  | [] => true
  | (k, v) :: rest => !k.data.isEmpty && v.keysNonempty && Value.keysNonemptyEntries rest
end

/-- The loop of `bigQueryWriteBatchToJsonFile` over the items, with the rows
handed to the writer so far. `decode ev` is the map that `json.Unmarshal`
leaves in `mapStruct` from `event.ToJSON()`; the type assertion faults on an
item that is not an event, and so does `bigQuerySanitizeKeys` on an empty key.
The errors of `json.Marshal` and `fmt.Fprintln` are not looked at. -/
def bigQueryWriteBatchToJsonFile.loop (U : UnicodeTables)
    (decode : EnhancedEvent → List (String × Value)) :
    List BatchItem → List (List (String × Value)) → Run (List (List (String × Value)))
  | [], written => Run.done written
  | BatchItem.other _ :: _, _ =>
    Run.crash "interface conversion: interface \x7b\x7d is not *kube.EnhancedEvent"
  | BatchItem.event event :: rest, written =>
    match bigQuerySanitizeKeys U (bigQueryDropNils (decode event)) with
    | Run.crash r => Run.crash r
    | Run.done row => bigQueryWriteBatchToJsonFile.loop U decode rest (written ++ [row])

/-- The function `bigQueryWriteBatchToJsonFile`: the error it returns, if any,
and the rows handed to the writer. `createErr` is the outcome of `os.Create`
(on an error the function returns before it reads any item) and `flushErr` the
outcome of `writer.Flush()`. -/
def bigQueryWriteBatchToJsonFile (U : UnicodeTables)
    (decode : EnhancedEvent → List (String × Value)) (items : List BatchItem)
    (createErr flushErr : Option String) :
    Run (Option String × List (List (String × Value))) :=
  match createErr with
  | some err => Run.done (some err, [])
  | none =>
    match bigQueryWriteBatchToJsonFile.loop U decode items [] with
    | Run.crash r => Run.crash r
    | Run.done written => Run.done (flushErr, written)

/-- What one call of the batch handler leaves behind when it returns: the
per-item result returned to the batch writer, the lines logged, the rows
handed to the writer of the batch file, and whether the file was deleted. -/
structure BatchOutcome where
  res : List Bool
  logs : List String
  written : List (List (String × Value))
  removed : Bool

/-- The closure `handleBatch` of `NewBigQuerySink`. `res` is filled before the
batch file is written; a fault of `bigQueryWriteBatchToJsonFile` leaves the
closure with it. The outcomes of loading the file into the warehouse
(`bigQueryImportJsonFromFile`) and of deleting it (`os.Remove`) are the
parameters `importErr` and `removeErr`: the error, if any. -/
def bigQueryHandleBatch (U : UnicodeTables)
    (decode : EnhancedEvent → List (String × Value)) (items : List BatchItem)
    (createErr flushErr importErr removeErr : Option String) : Run BatchOutcome :=
  let res0 := List.replicate items.length false
  let res := (List.range items.length).foldl (fun r i => r.set i true) res0
  match bigQueryWriteBatchToJsonFile U decode items createErr flushErr with
  | Run.crash r => Run.crash r
  | Run.done (writeErr, written) =>
    let logs1 :=
      match writeErr with
      | some _ => ["ERROR Failed to write JSON file"]
      | none => []
    match importErr with
    | some _ =>
      Run.done { res := res, logs := logs1 ++ ["ERROR BigQuerySink load failed"],
                 written := written, removed := false }
    | none =>
      match removeErr with
      | some _ =>
        Run.done { res := res, logs := logs1 ++ ["ERROR Failed to delete file"],
                   written := written, removed := false }
      | none => Run.done { res := res, logs := logs1, written := written, removed := true }

/-- A registry that only records the `Register` calls made on it, in order. -/
def recordingRegistry : ReceiverRegistry (List (String × SinkId)) where
  SendEvent := fun _ _ _ w => Run.done w
  Register := fun r name sink => r ++ [(name, sink)]
  Close := fun _ w => w

/-! ## Test scenarios of `engine_test.go` -/

/-- The sink construction of the tests: the receiver named `in-mem` gets the
in-memory sink `0`; any other receiver fails to initialize. -/
def testGetSink (v : ReceiverConfig) : Except String SinkId :=
  if v.Name = "in-mem" then Except.ok 0 else Except.error "unknown sink"

/-- Sinks whose `Send` always succeeds. -/
def okEnv : SinkEnv := ⟨fun _ _ _ => none⟩

/-- Configuration with the given route and receivers, all else zero. -/
def testConfig (route : Route) (receivers : List ReceiverConfig) : Config :=
  { LogLevel := "", LogFormat := "", ThrottlePeriod := 0, MaxEventAgeSeconds := 0,
    ClusterName := "", Namespace := "", LeaderElection := ⟨false, ""⟩,
    Route := route, Receivers := receivers, KubeQPS := 0, KubeBurst := 0,
    MetricsNamePrefix := "", OmitLookup := false, CacheSize := 0 }

/-- Route of `TestEngineNoRoutes`: the zero value `Route{}`. -/
def emptyRoute : Route :=
  Route.mk [] []

/-- A route whose only match rule names the receiver `missing`, which no
configuration of the tests declares. -/
def danglingRoute : Route :=
  Route.mk [] [Rule.mk [] (some "missing") none]

/-- Route of `TestEngineSimple`: one match rule `{Receiver: "in-mem"}`. -/
def simpleRoute : Route :=
  Route.mk [] [Rule.mk [] (some "in-mem") none]

/-- Route of `TestEngineDropSimple`: a drop rule without predicates and one
match rule `{Receiver: "in-mem"}`. -/
def dropRoute : Route :=
  Route.mk [Rule.mk [] none none] [Rule.mk [] (some "in-mem") none]

/-- The synchronous registry after `NewEngine` registered the receiver
`in-mem` of the tests. -/
def testRegistry : SyncRegistry :=
  (NewEngine (SyncRegistry.iface okEnv) testGetSink
    (testConfig simpleRoute [⟨"in-mem", ""⟩]) SyncRegistry.empty World.init).registry

/-! ## The enriched reference of the specification -/

/-- The enriched involved-object reference as the specification describes it,
by cases on whether enrichment is disabled and on the outcome of the lookup;
compared with what `onEvent` builds in `EventWatcher.onEvent_retained`. -/
def specEnrichedReference (omitLookup : Bool)
    (outcome : Except LookupError ObjectMetadata) (ref : ObjectReference) :
    EnhancedObjectReference :=
  if omitLookup then
    { ObjectReference := ref, Labels := [], Annotations := [], OwnerReferences := [],
      Deleted := false }
  else
    match outcome with
    | Except.error err =>
      { ObjectReference := ref, Labels := [], Annotations := [], OwnerReferences := [],
        Deleted := err.notFound }
    | Except.ok md =>
      { ObjectReference := ref, Labels := md.Labels, Annotations := md.Annotations,
        OwnerReferences := md.OwnerReferences, Deleted := md.Deleted }

/-! ## Sample inputs of the registries -/

/-- A first event. -/
def firstEvent : EnhancedEvent :=
  { EnhancedEvent.zero with Event := { Event.zero with UID := "1", Message := "first" } }

/-- A second event. -/
def secondEvent : EnhancedEvent :=
  { EnhancedEvent.zero with Event := { Event.zero with UID := "2", Message := "second" } }

/-- A schedule of the channel-based registry: one destination `a`, two
dispatches one after the other, and the worker receiving from the goroutine of
the second dispatch first. -/
def reorderSchedule : List Action :=
  [Action.register "a" 7,
   Action.dispatch "a" firstEvent,
   Action.dispatch "a" secondEvent,
   Action.receive 1,
   Action.sendReturn 0,
   Action.receive 0,
   Action.sendReturn 0]

/-! ## Sample inputs of the layout conversion -/

/-- A renderer for the samples: the message template yields the message of the
event, a template that does not parse fails, any other text is literal. -/
def sampleRender (ev : EnhancedEvent) (text : String) : Except String String :=
  if text = "\x7b\x7b .Message \x7d\x7d" then Except.ok ev.Event.Message
  else if text = "\x7b\x7b .Message" then Except.error "template: unclosed action"
  else Except.ok text

/-- A layout after `TestLayoutConvert`: a nested any-keyed map with a template
and a list, and a literal. -/
def sampleLayout : List (String × Value) :=
  [("details", Value.mapAny
      [(Key.str "message", Value.str "\x7b\x7b .Message \x7d\x7d"),
       (Key.str "tags", Value.list [Value.str "sre", Value.str "ops"])]),
   ("eventType", Value.str "kube-event"),
   ("count", Value.other (Scalar.int 3))]

/-- The same layout with a template that does not parse. -/
def brokenLayout : List (String × Value) :=
  [("details", Value.mapAny [(Key.str "message", Value.str "\x7b\x7b .Message")]),
   ("eventType", Value.str "kube-event")]

/-! ## Sample inputs of the BigQuery sink -/

/-- A decoded event fragment with nil values at two depths and one inside a
list. -/
def sampleRow : List (String × Value) :=
  [("reason", Value.str "Started"),
   ("series", Value.null),
   ("metadata", Value.mapStr
      [("name", Value.str "web-0.17"), ("generateName", Value.null),
       ("labels", Value.mapStr [("app", Value.null)])]),
   ("tags", Value.list [Value.null])]

/-- A map with two distinct keys that have the same fixed key. -/
def clashingRow : List (String × Value) :=
  [("a-b", Value.other (Scalar.int 1)), ("a_b", Value.other (Scalar.int 2))]

/-- A map whose fixed keys are pairwise distinct, with a nested map. -/
def labelledRow : List (String × Value) :=
  [("reason", Value.str "Started"),
   ("labels", Value.mapStr
      [("app.kubernetes.io/name", Value.str "web"), ("2nd", Value.str "x")])]

/-- A decoding of events for the samples: the message, and the labels of the
involved object as a nested map. -/
def sampleDecode (ev : EnhancedEvent) : List (String × Value) :=
  [("message", Value.str ev.Event.Message),
   ("count", Value.null),
   ("involvedObject", Value.mapStr
      [("labels", Value.mapStr [("app.kubernetes.io/name", Value.str "web")])])]

/-- A decoding in which the involved object has a label with the empty key. -/
def emptyKeyDecode (ev : EnhancedEvent) : List (String × Value) :=
  [("message", Value.str ev.Event.Message),
   ("involvedObject", Value.mapStr [("labels", Value.mapStr [("", Value.str "web")])])]

/-- A layout whose nested any-keyed map has the integer key `1`, as a YAML
document with the entry `1: one` decodes. -/
def intKeyLayout : List (String × Value) :=
  [("details", Value.mapAny [(Key.other (Scalar.int 1), Value.str "one")])]

/-! ## Sample inputs of the watcher -/

/-- A pod reference. -/
def sampleRef : ObjectReference :=
  ⟨"Pod", "default", "web-0", "uid-1", "v1", "42", ""⟩

/-- A raw event about `sampleRef`, last seen at instant `1000`, carrying a
managed-fields entry. -/
def sampleEvent : Event :=
  { Event.zero with
    Name := "web-0.17", Namespace := "default", UID := "ev-1",
    ManagedFields := ["kubelet"], InvolvedObject := sampleRef,
    Reason := "Started", Message := "Started container", LastTimestamp := 1000 }

/-- Metadata of `sampleRef` as a successful lookup returns it. -/
def sampleMetadata : ObjectMetadata :=
  { Annotations := [("team", "core")], Labels := [("app", "web")],
    OwnerReferences := [⟨"apps/v1", "StatefulSet", "web", "uid-0", some true, none⟩],
    Deleted := false }

/-- A lookup that succeeds. -/
def lookupOk (_ : ObjectReference) : Except LookupError ObjectMetadata :=
  Except.ok sampleMetadata

/-- A lookup that reports the object as not found. -/
def lookupNotFound (_ : ObjectReference) : Except LookupError ObjectMetadata :=
  Except.error ⟨true, "pods \"web-0\" not found"⟩

/-- A lookup that fails for another reason. -/
def lookupFails (_ : ObjectReference) : Except LookupError ObjectMetadata :=
  Except.error ⟨false, "connection refused"⟩

/-! ## Theorems -/

/-- A rule without predicates matches every event. -/
theorem Rule.matchesEvent_of_no_preds (r : Rule) (ev : EnhancedEvent)
    (h : r.preds = []) : r.MatchesEvent ev = true := by
  simp [Rule.MatchesEvent, h]

/-- Routing yields nothing as soon as one drop rule matches. -/
theorem Route.route_eq_nil_of_drop (r : Route) (ev : EnhancedEvent)
    (h : ∃ d ∈ r.Drop, d.MatchesEvent ev = true) : r.route ev = [] := by
  cases r with
  | mk d m =>
    obtain ⟨x, hx, hm⟩ := h
    have hany : (d.any fun r => r.MatchesEvent ev) = true :=
      List.any_eq_true.mpr ⟨x, hx, hm⟩
    simp [Route.route, hany]

/-- C1: for every event and every route, if some drop rule of the route matches
the event (in particular a drop rule without predicates), routing resolves no
destination and `Engine.OnEvent` returns with the world unchanged: no `Send` is
invoked on any sink, whatever the match rules, so the recorded events of a sink
registered as the receiver of a match rule stay empty. -/
theorem onEvent_drop_delivers_nothing {ρ : Type} (I : ReceiverRegistry ρ)
    (e : Engine ρ) (E : EnhancedEvent) (w : World)
    (h : ∃ d ∈ e.Route.Drop, d.MatchesEvent E = true ∨ d.preds = []) :
    e.Route.route E = [] ∧
    Engine.OnEvent I e E w = Run.done w ∧
    (∀ w1, Engine.OnEvent I e E w = Run.done w1 →
      allSends w1.calls = allSends w.calls ∧
      ∀ sink, InMemory.Events w sink = [] → InMemory.Events w1 sink = []) := by
  have hdrop : ∃ d ∈ e.Route.Drop, d.MatchesEvent E = true := by
    obtain ⟨d, hd, hm⟩ := h
    refine ⟨d, hd, ?_⟩
    cases hm with
    | inl hm => exact hm
    | inr hp => exact Rule.matchesEvent_of_no_preds d E hp
  have hroute : e.Route.route E = [] := Route.route_eq_nil_of_drop e.Route E hdrop
  have hrun : Engine.OnEvent I e E w = Run.done w := by
    simp [Engine.OnEvent, Route.ProcessEvent, hroute, dispatchAll]
  refine ⟨hroute, hrun, ?_⟩
  intro w1 hw1
  rw [hrun] at hw1
  cases hw1
  exact ⟨rfl, fun _ hs => hs⟩

/-- Witness of C1 on `TestEngineDropSimple`: a drop rule without predicates
next to the match rule `{Receiver: "in-mem"}`, the in-memory sink registered. -/
theorem onEvent_drop_delivers_nothing_witness :
    (∃ d ∈ (Engine.mk dropRoute testRegistry).Route.Drop,
      d.MatchesEvent EnhancedEvent.zero = true ∨ d.preds = []) ∧
    testRegistry.lookup "in-mem" = some 0 ∧
    Engine.OnEvent (SyncRegistry.iface okEnv) (Engine.mk dropRoute testRegistry)
      EnhancedEvent.zero World.init = Run.done World.init ∧
    InMemory.Events World.init 0 = [] :=
  ⟨⟨Rule.mk [] none none, by simp [dropRoute, Route.Drop], Or.inr rfl⟩,
   by decide,
   (onEvent_drop_delivers_nothing (SyncRegistry.iface okEnv)
      (Engine.mk dropRoute testRegistry) EnhancedEvent.zero World.init
      ⟨Rule.mk [] none none, by simp [dropRoute, Route.Drop], Or.inr rfl⟩).2.1,
   by decide⟩

/-- C2: for every event, with no drop rules and exactly one match rule without
predicates naming receiver `X`, and `X` registered in the synchronous registry,
the destinations resolve to exactly `[X]` and `Engine.OnEvent` returns after
invoking `Send` of the sink of `X` with the event (and nothing else), so the
event is among the events that sink recorded. -/
theorem onEvent_single_match_delivers (env : SinkEnv) (s : SyncRegistry)
    (X : String) (sink : SinkId) (E : EnhancedEvent) (w : World)
    (hreg : s.lookup X = some sink) :
    (Route.mk [] [Rule.mk [] (some X) none]).route E = [X] ∧
    ∃ w1, Engine.OnEvent (SyncRegistry.iface env)
        (Engine.mk (Route.mk [] [Rule.mk [] (some X) none]) s) E w = Run.done w1 ∧
      w1.calls = w.calls ++ [SinkCall.send sink E] ∧
      E ∈ InMemory.Events w1 sink := by
  have hroute : (Route.mk [] [Rule.mk [] (some X) none]).route E = [X] := by
    simp [Route.route, Route.routeRules, Route.routeRule, Rule.MatchesEvent, Rule.preds]
  refine ⟨hroute, ?_⟩
  cases herr : env.sendErr w.calls sink E with
  | none =>
    refine ⟨{ w with calls := w.calls ++ [SinkCall.send sink E] }, ?_, rfl, ?_⟩
    · simp [Engine.OnEvent, Route.ProcessEvent, hroute, dispatchAll, SyncRegistry.iface,
        SyncRegistry.SendEvent, hreg, herr, Run.bind]
    · simp [InMemory.Events, sendsTo, List.filterMap_append]
  | some err =>
    refine ⟨{ calls := w.calls ++ [SinkCall.send sink E],
              logs := w.logs ++ ["ERROR Cannot send event"] }, ?_, rfl, ?_⟩
    · simp [Engine.OnEvent, Route.ProcessEvent, hroute, dispatchAll, SyncRegistry.iface,
        SyncRegistry.SendEvent, hreg, herr, Run.bind]
    · simp [InMemory.Events, sendsTo, List.filterMap_append]

/-- Witness of C2 on `TestEngineSimple`. -/
theorem onEvent_single_match_delivers_witness :
    testRegistry.lookup "in-mem" = some 0 ∧
    simpleRoute.route EnhancedEvent.zero = ["in-mem"] ∧
    ∃ w1, Engine.OnEvent (SyncRegistry.iface okEnv) (Engine.mk simpleRoute testRegistry)
        EnhancedEvent.zero World.init = Run.done w1 ∧
      w1.calls = World.init.calls ++ [SinkCall.send 0 EnhancedEvent.zero] ∧
      EnhancedEvent.zero ∈ InMemory.Events w1 0 :=
  ⟨by decide,
   onEvent_single_match_delivers okEnv testRegistry "in-mem" 0 EnhancedEvent.zero
     World.init (by decide)⟩

/-- The maximum age stored by `NewEventWatcher` is a representable duration and
is never the largest one (it is a multiple of `2^9` modulo `2^64`). -/
theorem NewEventWatcher.maxAge_bounds (secs : Int) (omitLookup : Bool) :
    minDuration ≤ (NewEventWatcher secs omitLookup).maxEventAgeSeconds ∧
    (NewEventWatcher secs omitLookup).maxEventAgeSeconds < maxDuration := by
  simp only [NewEventWatcher, wrapInt64, minDuration, maxDuration]
  omega

/-- Below the largest duration, comparing the saturated difference with a bound
is comparing the exact difference with it. -/
theorem Time.since_gt_iff (now t m : Int) (hlo : minDuration ≤ m) (hhi : m < maxDuration) :
    Time.Since now t > m ↔ now - t > m := by
  simp only [Time.Since, Time.Sub, minDuration, maxDuration] at *
  split_ifs <;> omega

/-- What `isEventDiscarded` returns, for any watcher. -/
theorem EventWatcher.isEventDiscarded_fst (e : EventWatcher) (startUpTime now : Int)
    (event : Event) (st : WatcherState) :
    (e.isEventDiscarded startUpTime now event st).1 =
      decide (Time.Since now
        (if event.LastTimestamp = 0 then event.EventTime else event.LastTimestamp) >
          e.maxEventAgeSeconds) := by
  simp only [EventWatcher.isEventDiscarded]
  split_ifs <;> simp_all

/-- C3: for every raw event, clock reading `now` and configured maximum age,
`isEventDiscarded` returns true if and only if `now - t` exceeds the maximum
age held by the watcher, where `t` is the last-seen timestamp when it is
non-zero and the event-time otherwise. An event whose timestamp is older than
`now - maxAge` is discarded; one whose timestamp is exactly `now - maxAge` is
retained. (For any watcher the test is on the saturating `time.Since`; the
maximum age built by `NewEventWatcher` is never the saturation bound, so the
test is the exact comparison.) -/
theorem isEventDiscarded_iff_age_exceeds (MaxEventAgeSeconds : Int) (omitLookup : Bool)
    (startUpTime now : Int) (event : Event) (st : WatcherState) :
    (∀ e : EventWatcher,
      ((e.isEventDiscarded startUpTime now event st).1 = true ↔
        Time.Since now
          (if event.LastTimestamp = 0 then event.EventTime else event.LastTimestamp) >
            e.maxEventAgeSeconds)) ∧
    (((NewEventWatcher MaxEventAgeSeconds omitLookup).isEventDiscarded
        startUpTime now event st).1 = true ↔
      now - (if event.LastTimestamp = 0 then event.EventTime else event.LastTimestamp) >
        (NewEventWatcher MaxEventAgeSeconds omitLookup).maxEventAgeSeconds) ∧
    (∀ k : Nat,
      ((NewEventWatcher MaxEventAgeSeconds omitLookup).isEventDiscarded startUpTime now
        { event with
          LastTimestamp :=
            now - (NewEventWatcher MaxEventAgeSeconds omitLookup).maxEventAgeSeconds - (k + 1),
          EventTime :=
            now - (NewEventWatcher MaxEventAgeSeconds omitLookup).maxEventAgeSeconds - (k + 1) }
        st).1 = true) ∧
    ((NewEventWatcher MaxEventAgeSeconds omitLookup).isEventDiscarded startUpTime now
        { event with
          LastTimestamp :=
            now - (NewEventWatcher MaxEventAgeSeconds omitLookup).maxEventAgeSeconds,
          EventTime :=
            now - (NewEventWatcher MaxEventAgeSeconds omitLookup).maxEventAgeSeconds }
        st).1 = false := by
  obtain ⟨hlo, hhi⟩ := NewEventWatcher.maxAge_bounds MaxEventAgeSeconds omitLookup
  refine ⟨?_, ?_, ?_, ?_⟩
  · intro e
    rw [EventWatcher.isEventDiscarded_fst]
    simp
  · rw [EventWatcher.isEventDiscarded_fst, decide_eq_true_iff]
    exact Time.since_gt_iff _ _ _ hlo hhi
  · intro k
    rw [EventWatcher.isEventDiscarded_fst, decide_eq_true_iff,
      Time.since_gt_iff _ _ _ hlo hhi]
    simp only
    split_ifs <;> omega
  · rw [EventWatcher.isEventDiscarded_fst, decide_eq_false_iff_not,
      Time.since_gt_iff _ _ _ hlo hhi]
    simp only
    split_ifs <;> omega

/-- C4: for every raw event and every outcome of the metadata lookup (success,
not-found, any other failure, or lookup disabled), `onEvent` invokes the
callback exactly once when the event is not stale and not at all when it is
stale. -/
theorem onEvent_callback_count (e : EventWatcher)
    (lookup : ObjectReference → Except LookupError ObjectMetadata)
    (startUpTime now : Int) (event : Event) (st : WatcherState) :
    (e.onEvent lookup startUpTime now event st).delivered.length =
      st.delivered.length +
        (if (e.isEventDiscarded startUpTime now event st).1 = true then 0 else 1) ∧
    ∃ rest, (e.onEvent lookup startUpTime now event st).delivered = st.delivered ++ rest ∧
      rest.length =
        (if (e.isEventDiscarded startUpTime now event st).1 = true then 0 else 1) := by
  have hst : ∀ b st1, e.isEventDiscarded startUpTime now event st = (b, st1) →
      st1.delivered = st.delivered := by
    intro b st1 h
    simp only [EventWatcher.isEventDiscarded] at h
    split_ifs at h <;> cases h <;> rfl
  rcases hd : e.isEventDiscarded startUpTime now event st with ⟨b, st1⟩
  have h1 := hst b st1 hd
  cases b with
  | true =>
    simp only [EventWatcher.onEvent, hd]
    exact ⟨by simp [h1], [], by simp [h1], by simp⟩
  | false =>
    simp only [EventWatcher.onEvent, hd]
    cases ho : e.omitLookup with
    | true => simp [h1]
    | false =>
      cases hl : lookup event.InvolvedObject with
      | error err => cases hn : err.notFound <;> simp [h1, hn]
      | ok md => simp [h1]

/-- The only state `isEventDiscarded` touches is the discard counter and the
log. -/
theorem EventWatcher.isEventDiscarded_frame (e : EventWatcher) (startUpTime now : Int)
    (event : Event) (st : WatcherState) :
    (e.isEventDiscarded startUpTime now event st).2.delivered = st.delivered ∧
    (e.isEventDiscarded startUpTime now event st).2.lookups = st.lookups ∧
    (e.isEventDiscarded startUpTime now event st).2.EventsProcessed = st.EventsProcessed := by
  simp only [EventWatcher.isEventDiscarded]
  split_ifs <;> exact ⟨rfl, rfl, rfl⟩

/-- For a retained event, `onEvent` hands the callback one event: the raw event
without managed fields, an empty cluster name and the enriched reference of the
specification; the cache is queried once unless enrichment is disabled. -/
theorem EventWatcher.onEvent_retained (e : EventWatcher)
    (lookup : ObjectReference → Except LookupError ObjectMetadata)
    (startUpTime now : Int) (event : Event) (st : WatcherState)
    (hret : (e.isEventDiscarded startUpTime now event st).1 = false) :
    (e.onEvent lookup startUpTime now event st).delivered =
      st.delivered ++
        [{ Event := { event with ManagedFields := [] }, ClusterName := "",
           InvolvedObject := specEnrichedReference e.omitLookup
             (lookup event.InvolvedObject) event.InvolvedObject }] ∧
    (e.onEvent lookup startUpTime now event st).lookups =
      st.lookups ++ (if e.omitLookup then [] else [event.InvolvedObject]) := by
  obtain ⟨h1, h2, _⟩ := e.isEventDiscarded_frame startUpTime now event st
  rcases hd : e.isEventDiscarded startUpTime now event st with ⟨b, st1⟩
  rw [hd] at hret h1 h2
  simp only at hret h1 h2
  subst hret
  simp only [EventWatcher.onEvent, hd, specEnrichedReference]
  cases ho : e.omitLookup with
  | true => simp [h1, h2, EnhancedObjectReference.zero]
  | false =>
    cases hl : lookup event.InvolvedObject with
    | error err =>
      cases hn : err.notFound <;> simp [h1, h2, hn, EnhancedObjectReference.zero]
    | ok md => simp [h1, h2]

/-- C5: for every retained raw event the callback receives exactly one event
whose enriched involved-object reference is one of four fully determined
values: (1) enrichment disabled: no lookup is made and the reference is the
plain one with no labels, annotations or owners and `Deleted = false`;
(2) lookup not-found: the plain reference, nothing else, `Deleted = true`;
(3) any other lookup failure: the plain reference, nothing else,
`Deleted = false`; (4) lookup success: labels, annotations, owner references
and `Deleted` of the lookup result together with the plain reference. -/
theorem onEvent_enriched_reference (e : EventWatcher)
    (lookup : ObjectReference → Except LookupError ObjectMetadata)
    (startUpTime now : Int) (event : Event) (st : WatcherState)
    (hret : (e.isEventDiscarded startUpTime now event st).1 = false) :
    ∃ ev, (e.onEvent lookup startUpTime now event st).delivered = st.delivered ++ [ev] ∧
      (e.omitLookup = true →
        (e.onEvent lookup startUpTime now event st).lookups = st.lookups ∧
        ev.InvolvedObject =
          { ObjectReference := event.InvolvedObject, Labels := [], Annotations := [],
            OwnerReferences := [], Deleted := false }) ∧
      (e.omitLookup = false →
        (e.onEvent lookup startUpTime now event st).lookups =
          st.lookups ++ [event.InvolvedObject]) ∧
      (∀ err, e.omitLookup = false → lookup event.InvolvedObject = Except.error err →
        err.notFound = true →
        ev.InvolvedObject =
          { ObjectReference := event.InvolvedObject, Labels := [], Annotations := [],
            OwnerReferences := [], Deleted := true }) ∧
      (∀ err, e.omitLookup = false → lookup event.InvolvedObject = Except.error err →
        err.notFound = false →
        ev.InvolvedObject =
          { ObjectReference := event.InvolvedObject, Labels := [], Annotations := [],
            OwnerReferences := [], Deleted := false }) ∧
      (∀ md, e.omitLookup = false → lookup event.InvolvedObject = Except.ok md →
        ev.InvolvedObject =
          { ObjectReference := event.InvolvedObject, Labels := md.Labels,
            Annotations := md.Annotations, OwnerReferences := md.OwnerReferences,
            Deleted := md.Deleted }) := by
  obtain ⟨hdel, hlook⟩ := e.onEvent_retained lookup startUpTime now event st hret
  refine ⟨_, hdel, ?_, ?_, ?_, ?_, ?_⟩
  · intro ho
    rw [hlook]
    simp [ho, specEnrichedReference]
  · intro ho
    rw [hlook]
    simp [ho]
  · intro err ho hl hn
    simp [ho, hl, hn, specEnrichedReference]
  · intro err ho hl hn
    simp [ho, hl, hn, specEnrichedReference]
  · intro md ho hl
    simp [ho, hl, specEnrichedReference]

/-- Witness of C5: a retained event whose involved object is reported as not
found; the other three cases are evaluated next to it. -/
theorem onEvent_enriched_reference_witness :
    ((NewEventWatcher 5 false).isEventDiscarded 0 2000 sampleEvent WatcherState.init).1
      = false ∧
    (∃ ev, ((NewEventWatcher 5 false).onEvent lookupNotFound 0 2000 sampleEvent
        WatcherState.init).delivered = WatcherState.init.delivered ++ [ev] ∧
      ev.InvolvedObject = ⟨sampleRef, [], [], [], true⟩) ∧
    (((NewEventWatcher 5 false).onEvent lookupFails 0 2000 sampleEvent
        WatcherState.init).delivered.map fun ev => ev.InvolvedObject) =
      [⟨sampleRef, [], [], [], false⟩] ∧
    (((NewEventWatcher 5 false).onEvent lookupOk 0 2000 sampleEvent
        WatcherState.init).delivered.map fun ev => ev.InvolvedObject) =
      [⟨sampleRef, [("app", "web")], [("team", "core")],
        [⟨"apps/v1", "StatefulSet", "web", "uid-0", some true, none⟩], false⟩] ∧
    (((NewEventWatcher 5 true).onEvent lookupOk 0 2000 sampleEvent
        WatcherState.init).delivered.map fun ev => ev.InvolvedObject) =
      [⟨sampleRef, [], [], [], false⟩] ∧
    ((NewEventWatcher 5 true).onEvent lookupOk 0 2000 sampleEvent
        WatcherState.init).lookups = [] := by
  have hret : ((NewEventWatcher 5 false).isEventDiscarded 0 2000 sampleEvent
      WatcherState.init).1 = false := by decide
  obtain ⟨ev, hev, _, _, h2, _, _⟩ :=
    onEvent_enriched_reference (NewEventWatcher 5 false) lookupNotFound 0 2000 sampleEvent
      WatcherState.init hret
  exact ⟨hret, ⟨ev, hev, h2 ⟨true, "pods \"web-0\" not found"⟩ rfl rfl rfl⟩,
    by decide, by decide, by decide, by decide⟩

/-! ### Synchronous registry -/

/-- The calls made by the loop of `Close`: one `Close` per entry of the map. -/
theorem SyncRegistry.closeLoop_calls (l : List (String × SinkId)) (w : World) :
    (SyncRegistry.closeLoop l w).calls = w.calls ++ l.map fun p => SinkCall.close p.2 := by
  induction l generalizing w with
  | nil => simp [SyncRegistry.closeLoop]
  | cons p rest ih =>
    obtain ⟨name, sink⟩ := p
    simp [SyncRegistry.closeLoop, ih]

/-- Counting the `Close` calls on a sink among one `Close` per entry. -/
theorem count_close_map (l : List (String × SinkId)) (sink : SinkId) :
    (l.map fun p => SinkCall.close p.2).count (SinkCall.close sink) =
      (l.map Prod.snd).count sink := by
  induction l with
  | nil => rfl
  | cons p rest ih =>
    obtain ⟨name, k⟩ := p
    by_cases h : k = sink
    · subst h
      simp [ih]
    · have h1 : SinkCall.close sink ≠ SinkCall.close k := by
        intro hc
        cases hc
        exact h rfl
      have h2 : sink ≠ k := fun hc => h hc.symm
      simp only [List.map_cons]
      rw [List.count_cons_of_ne h1, List.count_cons_of_ne h2, ih]

/-- No `Send` is among one `Close` per entry. -/
theorem allSends_close_map (l : List (String × SinkId)) :
    allSends (l.map fun p => SinkCall.close p.2) = [] := by
  induction l with
  | nil => rfl
  | cons p rest ih =>
    simp only [allSends] at ih
    simp [allSends, ih]

/-- Assigning a name the map does not hold appends the entry. -/
theorem mapSet_of_not_mem (l : List (String × SinkId)) (name : String) (sink : SinkId)
    (h : name ∉ l.map Prod.fst) : mapSet l name sink = l ++ [(name, sink)] := by
  induction l with
  | nil => rfl
  | cons p rest ih =>
    obtain ⟨k, v⟩ := p
    simp only [List.map_cons, List.mem_cons, not_or] at h
    have hk : ¬ k = name := fun hc => h.1 hc.symm
    simp [mapSet, hk, ih h.2]

/-- After `Register(name, sink)` the name is bound to that sink. -/
theorem SyncRegistry.lookup_register (s : SyncRegistry) (name : String) (sink : SinkId) :
    (s.Register name sink).lookup name = some sink := by
  obtain ⟨l⟩ := s
  simp only [SyncRegistry.Register, SyncRegistry.lookup]
  induction l with
  | nil => simp [mapSet]
  | cons p rest ih =>
    obtain ⟨k, v⟩ := p
    by_cases hk : k = name
    · simp [mapSet, hk]
    · simp only [mapSet, hk, if_false]
      rw [List.find?_cons_of_neg]
      · exact ih
      · simpa using hk

/-- Registering pairwise distinct names not yet held appends them in order. -/
theorem SyncRegistry.registerAll_reg (regs : List (String × SinkId)) (s : SyncRegistry)
    (h : (s.reg.map Prod.fst ++ regs.map Prod.fst).Nodup) :
    (s.registerAll regs).reg = s.reg ++ regs := by
  induction regs generalizing s with
  | nil => simp [SyncRegistry.registerAll]
  | cons p rest ih =>
    obtain ⟨name, sink⟩ := p
    have hnot : name ∉ s.reg.map Prod.fst := by
      intro hm
      rw [List.nodup_append] at h
      exact h.2.2 hm (by simp)
    have hreg : (s.Register name sink).reg = s.reg ++ [(name, sink)] := by
      simp [SyncRegistry.Register, mapSet_of_not_mem _ _ _ hnot]
    have h2 : ((s.Register name sink).reg.map Prod.fst ++ rest.map Prod.fst).Nodup := by
      rw [hreg]
      simpa using h
    simp only [SyncRegistry.registerAll]
    rw [ih _ h2, hreg]
    simp

/-- Dispatch to a registered name on the synchronous registry: one `Send` on
the sink bound to the name, then a normal return; an error is only logged. -/
theorem SyncRegistry.sendEvent_registered (env : SinkEnv) (s : SyncRegistry)
    (name : String) (sink : SinkId) (ev : EnhancedEvent) (w : World)
    (hreg : s.lookup name = some sink) :
    SyncRegistry.SendEvent env s name ev w =
      Run.done { calls := w.calls ++ [SinkCall.send sink ev],
                 logs := if (env.sendErr w.calls sink ev).isSome then
                     w.logs ++ ["ERROR Cannot send event"] else w.logs } := by
  simp only [SyncRegistry.SendEvent, hreg]
  cases env.sendErr w.calls sink ev <;> simp

/-- C6 (as stated, refuted): after `register("a", 1)`, `register("a", 2)` and
one `closeAll()`, the destination `1`, which was passed to `register`, has had
its `Close` called zero times. -/
theorem close_skips_replaced_destination :
    1 ∈ ([("a", 1), ("a", 2)] : List (String × SinkId)).map Prod.snd ∧
    closeCount ((SyncRegistry.empty.registerAll [("a", 1), ("a", 2)]).Close
      World.init).calls 1 = 0 := by
  decide

/-- C6 (amended): `closeAll()` on the synchronous registry calls `Close` once
per name the registry holds, on the destination bound to that name, and calls
no `Send`; registering under a name binds the name to the new destination. So
for every sequence of `register` calls with pairwise distinct names and
pairwise distinct destinations followed by one `closeAll()`, every destination
passed to `register` has had its `Close` called exactly once, and no other
destination was closed. -/
theorem close_closes_each_destination_once (regs : List (String × SinkId)) (w : World)
    (hnames : (regs.map Prod.fst).Nodup) (hsinks : (regs.map Prod.snd).Nodup) :
    (∀ (s : SyncRegistry) (sink : SinkId),
      closeCount (s.Close w).calls sink =
        closeCount w.calls sink + (s.reg.map Prod.snd).count sink) ∧
    (∀ (s : SyncRegistry) (name : String) (sink : SinkId),
      (s.Register name sink).lookup name = some sink) ∧
    (∀ sink ∈ regs.map Prod.snd,
      closeCount ((SyncRegistry.empty.registerAll regs).Close w).calls sink =
        closeCount w.calls sink + 1) ∧
    (∀ sink, sink ∉ regs.map Prod.snd →
      closeCount ((SyncRegistry.empty.registerAll regs).Close w).calls sink =
        closeCount w.calls sink) ∧
    allSends ((SyncRegistry.empty.registerAll regs).Close w).calls = allSends w.calls := by
  have hcount : ∀ (s : SyncRegistry) (sink : SinkId),
      closeCount (s.Close w).calls sink =
        closeCount w.calls sink + (s.reg.map Prod.snd).count sink := by
    intro s sink
    simp only [closeCount, SyncRegistry.Close, SyncRegistry.closeLoop_calls,
      List.count_append, count_close_map]
  have hreg : (SyncRegistry.empty.registerAll regs).reg = regs := by
    have h := SyncRegistry.registerAll_reg regs SyncRegistry.empty
      (by simpa [SyncRegistry.empty] using hnames)
    simpa [SyncRegistry.empty] using h
  refine ⟨hcount, SyncRegistry.lookup_register, ?_, ?_, ?_⟩
  · intro sink hmem
    rw [hcount, hreg, List.count_eq_one_of_mem hsinks hmem]
  · intro sink hmem
    rw [hcount, hreg, List.count_eq_zero_of_not_mem hmem, Nat.add_zero]
  · simp only [SyncRegistry.Close, SyncRegistry.closeLoop_calls]
    simp only [allSends, List.filterMap_append]
    have h := allSends_close_map (SyncRegistry.empty.registerAll regs).reg
    simp only [allSends] at h
    rw [h]
    simp

/-- Witness of C6 (amended): two destinations under two names. -/
theorem close_closes_each_destination_once_witness :
    (([("a", 1), ("b", 2)] : List (String × SinkId)).map Prod.fst).Nodup ∧
    (([("a", 1), ("b", 2)] : List (String × SinkId)).map Prod.snd).Nodup ∧
    closeCount ((SyncRegistry.empty.registerAll [("a", 1), ("b", 2)]).Close
      World.init).calls 1 = closeCount World.init.calls 1 + 1 ∧
    closeCount ((SyncRegistry.empty.registerAll [("a", 1), ("b", 2)]).Close
      World.init).calls 2 = closeCount World.init.calls 2 + 1 :=
  ⟨by decide, by decide,
   (close_closes_each_destination_once [("a", 1), ("b", 2)] World.init
      (by decide) (by decide)).2.2.1 1 (by decide),
   (close_closes_each_destination_once [("a", 1), ("b", 2)] World.init
      (by decide) (by decide)).2.2.1 2 (by decide)⟩

/-- C7 (as stated, refuted): on the synchronous registry, after
`register("a", 1)` and a `closeAll()` that has returned, `dispatch("a", e)`
invokes `Send` of destination `1` with `e`. -/
theorem sync_dispatch_after_close_sends :
    SyncRegistry.SendEvent okEnv (SyncRegistry.empty.Register "a" 1) "a" firstEvent
        ((SyncRegistry.empty.Register "a" 1).Close World.init) =
      Run.done { calls := [SinkCall.close 1, SinkCall.send 1 firstEvent],
                 logs := ["INFO Closing sink"] } := by
  decide

/-- C7 (amended): the synchronous registry keeps no closed state. `closeAll()`
only calls `Close` on the destinations; a `dispatch(name, event)` made after it
has returned, for a registered name, invokes `Send` of the destination bound to
the name exactly once with the event and invokes no other `Send`, exactly as
before `closeAll()`. -/
theorem sync_dispatch_after_close (env : SinkEnv) (s : SyncRegistry) (name : String)
    (sink : SinkId) (ev : EnhancedEvent) (w : World) (hreg : s.lookup name = some sink) :
    ∃ w1, SyncRegistry.SendEvent env s name ev (s.Close w) = Run.done w1 ∧
      w1.calls = (s.Close w).calls ++ [SinkCall.send sink ev] ∧
      allSends w1.calls = allSends w.calls ++ [(sink, ev)] := by
  refine ⟨_, SyncRegistry.sendEvent_registered env s name sink ev (s.Close w) hreg, rfl, ?_⟩
  simp only [SyncRegistry.Close, SyncRegistry.closeLoop_calls, allSends,
    List.filterMap_append]
  have h := allSends_close_map s.reg
  simp only [allSends] at h
  rw [h]
  simp

/-- Witness of C7 (amended). -/
theorem sync_dispatch_after_close_witness :
    (SyncRegistry.empty.Register "a" 1).lookup "a" = some 1 ∧
    ∃ w1, SyncRegistry.SendEvent okEnv (SyncRegistry.empty.Register "a" 1) "a" firstEvent
        ((SyncRegistry.empty.Register "a" 1).Close World.init) = Run.done w1 ∧
      w1.calls = ((SyncRegistry.empty.Register "a" 1).Close World.init).calls ++
        [SinkCall.send 1 firstEvent] ∧
      allSends w1.calls = allSends World.init.calls ++ [(1, firstEvent)] :=
  ⟨by decide,
   sync_dispatch_after_close okEnv (SyncRegistry.empty.Register "a" 1) "a" 1 firstEvent
     World.init (by decide)⟩

/-- C9: for every registered name and every event, dispatch on the synchronous
registry invokes `Send` of the destination registered under the name exactly
once with the event, invokes no other `Send`, and returns normally to the
caller whether `Send` succeeds or fails: a failure is logged, not propagated,
and the send is not retried. -/
theorem sync_dispatch_sends_once (env : SinkEnv) (s : SyncRegistry) (name : String)
    (sink : SinkId) (ev : EnhancedEvent) (w : World) (hreg : s.lookup name = some sink) :
    ∃ w1, SyncRegistry.SendEvent env s name ev w = Run.done w1 ∧
      w1.calls = w.calls ++ [SinkCall.send sink ev] ∧
      allSends w1.calls = allSends w.calls ++ [(sink, ev)] ∧
      (env.sendErr w.calls sink ev = none → w1.logs = w.logs) ∧
      (∀ err, env.sendErr w.calls sink ev = some err →
        w1.logs = w.logs ++ ["ERROR Cannot send event"]) := by
  refine ⟨_, SyncRegistry.sendEvent_registered env s name sink ev w hreg, rfl, ?_, ?_, ?_⟩
  · simp [allSends, List.filterMap_append]
  · intro h
    simp [h]
  · intro err h
    simp [h]

/-- Witness of C9: a destination whose `Send` fails. -/
theorem sync_dispatch_sends_once_witness :
    testRegistry.lookup "in-mem" = some 0 ∧
    ∃ w1, SyncRegistry.SendEvent ⟨fun _ _ _ => some "boom"⟩ testRegistry "in-mem"
        firstEvent World.init = Run.done w1 ∧
      w1.calls = World.init.calls ++ [SinkCall.send 0 firstEvent] ∧
      allSends w1.calls = allSends World.init.calls ++ [(0, firstEvent)] ∧
      ((none : Option String) = some "boom" ∨ w1.logs = ["ERROR Cannot send event"]) := by
  obtain ⟨w1, h1, h2, h3, _, h5⟩ :=
    sync_dispatch_sends_once ⟨fun _ _ _ => some "boom"⟩ testRegistry "in-mem" 0 firstEvent
      World.init (by decide)
  exact ⟨by decide, w1, h1, h2, h3, Or.inr (by simpa [World.init] using h5 "boom" rfl)⟩

/-! ### Pipeline engine construction -/

/-- The loop of `NewEngine` when every sink can be built: one `Register` per
receiver, in order. -/
theorem NewEngine.loop_ok {ρ : Type} (I : ReceiverRegistry ρ)
    (getSink : ReceiverConfig → Except String SinkId) (receivers : List ReceiverConfig)
    (sinks : List SinkId) (registry : ρ) (w : World)
    (h : receivers.map getSink = sinks.map Except.ok) :
    NewEngine.loop I getSink receivers registry w =
      (none,
       (receivers.zip sinks).foldl (fun r p => I.Register r p.1.Name p.2) registry,
       { w with logs := w.logs ++ List.replicate receivers.length "INFO Registering sink" }) := by
  induction receivers generalizing sinks registry w with
  | nil => simp [NewEngine.loop]
  | cons v rest ih =>
    cases sinks with
    | nil => simp at h
    | cons k ks =>
      simp only [List.map_cons, List.cons.injEq] at h
      obtain ⟨hv, hrest⟩ := h
      simp only [NewEngine.loop, hv, List.zip_cons_cons, List.foldl_cons]
      rw [ih ks _ _ hrest]
      simp [List.replicate_succ]

/-- The loop of `NewEngine` returns an error exactly when the sink of some
receiver cannot be built. -/
theorem NewEngine.loop_error_iff {ρ : Type} (I : ReceiverRegistry ρ)
    (getSink : ReceiverConfig → Except String SinkId) (receivers : List ReceiverConfig)
    (registry : ρ) (w : World) :
    (∃ err, (NewEngine.loop I getSink receivers registry w).1 = some err) ↔
      ∃ v ∈ receivers, ∃ e, getSink v = Except.error e := by
  induction receivers generalizing registry w with
  | nil => simp [NewEngine.loop]
  | cons v rest ih =>
    cases hv : getSink v with
    | error e =>
      simp only [NewEngine.loop, hv]
      constructor
      · intro _
        exact ⟨v, by simp, e, hv⟩
      · intro _
        exact ⟨_, rfl⟩
    | ok k =>
      simp only [NewEngine.loop, hv]
      rw [ih]
      constructor
      · rintro ⟨x, hx, e, he⟩
        exact ⟨x, by simp [hx], e, he⟩
      · rintro ⟨x, hx, e, he⟩
        simp only [List.mem_cons] at hx
        cases hx with
        | inl h =>
          subst h
          rw [hv] at he
          cases he
        | inr h => exact ⟨x, h, e, he⟩

/-- C10: for every configuration, `NewEngine` returns an error (and no engine)
if and only if constructing the sink of some configured receiver fails;
otherwise it returns an engine holding the route of the configuration and the
given registry, after calling `Register(name, sink)` exactly once per
configured receiver, in configuration order. -/
theorem newEngine_registers_each_receiver {ρ : Type} (I : ReceiverRegistry ρ)
    (getSink : ReceiverConfig → Except String SinkId) (config : Config)
    (registry : ρ) (w : World) :
    ((∃ err, (NewEngine I getSink config registry w).result = Except.error err) ↔
      ∃ v ∈ config.Receivers, ∃ e, getSink v = Except.error e) ∧
    (∀ sinks : List SinkId, config.Receivers.map getSink = sinks.map Except.ok →
      ∃ engine, (NewEngine I getSink config registry w).result = Except.ok engine ∧
        engine.Route = config.Route ∧
        engine.Registry =
          (config.Receivers.zip sinks).foldl (fun r p => I.Register r p.1.Name p.2)
            registry) ∧
    (∀ sinks : List SinkId, config.Receivers.map getSink = sinks.map Except.ok →
      ∃ engine, (NewEngine recordingRegistry getSink config [] w).result =
          Except.ok engine ∧
        engine.Registry = (config.Receivers.map fun v => v.Name).zip sinks) := by
  refine ⟨?_, ?_, ?_⟩
  · rw [← NewEngine.loop_error_iff I getSink config.Receivers registry w]
    simp only [NewEngine]
    rcases hl : NewEngine.loop I getSink config.Receivers registry w with ⟨r, reg1, w1⟩
    cases r with
    | none => simp
    | some err => simp
  · intro sinks h
    simp only [NewEngine, NewEngine.loop_ok I getSink config.Receivers sinks registry w h]
    exact ⟨_, rfl, rfl, rfl⟩
  · intro sinks h
    simp only [NewEngine, NewEngine.loop_ok recordingRegistry getSink config.Receivers
      sinks [] w h]
    refine ⟨_, rfl, ?_⟩
    simp only
    have hgen : ∀ (rs : List ReceiverConfig) (ks : List SinkId) (acc : List (String × SinkId)),
        (rs.zip ks).foldl (fun r p => recordingRegistry.Register r p.1.Name p.2) acc =
          acc ++ (rs.map fun v => v.Name).zip ks := by
      intro rs
      induction rs with
      | nil => intro ks acc; simp
      | cons v rest ih =>
        intro ks acc
        cases ks with
        | nil => simp
        | cons k ks1 =>
          simp only [List.zip_cons_cons, List.foldl_cons, List.map_cons]
          rw [ih]
          simp [recordingRegistry]
    simpa using hgen config.Receivers sinks []

/-- Witness of C10 on the configuration of `TestEngineSimple`, and on one whose
second receiver cannot be built. -/
theorem newEngine_registers_each_receiver_witness :
    (testConfig simpleRoute [⟨"in-mem", ""⟩]).Receivers.map testGetSink =
      [0].map Except.ok ∧
    (∃ engine, (NewEngine (SyncRegistry.iface okEnv) testGetSink
        (testConfig simpleRoute [⟨"in-mem", ""⟩]) SyncRegistry.empty World.init).result =
          Except.ok engine ∧
      engine.Route = (testConfig simpleRoute [⟨"in-mem", ""⟩]).Route ∧
      engine.Registry = ⟨[("in-mem", 0)]⟩) ∧
    (∃ err, (NewEngine (SyncRegistry.iface okEnv) testGetSink
        (testConfig simpleRoute [⟨"in-mem", ""⟩, ⟨"other", ""⟩]) SyncRegistry.empty
        World.init).result = Except.error err) := by
  refine ⟨rfl, ?_, ?_⟩
  · obtain ⟨engine, h1, h2, h3⟩ :=
      (newEngine_registers_each_receiver (SyncRegistry.iface okEnv) testGetSink
        (testConfig simpleRoute [⟨"in-mem", ""⟩]) SyncRegistry.empty World.init).2.1
        [0] rfl
    exact ⟨engine, h1, h2, by rw [h3]; decide⟩
  · exact (newEngine_registers_each_receiver (SyncRegistry.iface okEnv) testGetSink
      (testConfig simpleRoute [⟨"in-mem", ""⟩, ⟨"other", ""⟩]) SyncRegistry.empty
      World.init).1.mpr ⟨⟨"other", ""⟩, by simp [testConfig], "unknown sink", rfl⟩

/-! ### Channel-based registry -/

/-- A worker found selecting on a channel is in `select`. -/
theorem selectingOn_spec (workers : List Worker) (c : ChanId) (w : Nat)
    (h : selectingOn workers c = some w) :
    ∃ wk, workers.get? w = some wk ∧ wk.ch = c ∧ wk.pc = WorkerPc.selecting := by
  simp only [selectingOn] at h
  split_ifs at h with hlt
  cases h
  refine ⟨workers[workers.findIdx fun w => w.ch == c && w.pc == WorkerPc.selecting], ?_, ?_⟩
  · simp [List.getElem?_eq_getElem hlt]
  · have hp := List.findIdx_getElem (w := hlt)
    simpa using hp

/-- A worker found selecting on an exit channel is in `select`. -/
theorem selectingOnExit_spec (workers : List Worker) (c : ChanId) (w : Nat)
    (h : selectingOnExit workers c = some w) :
    ∃ wk, workers.get? w = some wk ∧ wk.exitCh = c ∧ wk.pc = WorkerPc.selecting := by
  simp only [selectingOnExit] at h
  split_ifs at h with hlt
  cases h
  refine ⟨workers[workers.findIdx fun w => w.exitCh == c && w.pc == WorkerPc.selecting],
    ?_, ?_⟩
  · simp [List.getElem?_eq_getElem hlt]
  · have hp := List.findIdx_getElem (w := hlt)
    simpa using hp

/-- The send in progress of a worker is read off its position. -/
theorem inFlight_of_get (workers : List Worker) (w : Nat) (wk : Worker)
    (hget : workers.get? w = some wk) : inFlight workers w = wk.pc.inFlight := by
  simp only [inFlight, hget]

/-- The send in progress after the position of one worker is set. -/
theorem inFlight_setPc (workers : List Worker) (i w : Nat) (pc : WorkerPc) (wk : Worker)
    (hi : workers.get? i = some wk) :
    inFlight (setPc workers i pc) w = if w = i then pc.inFlight else inFlight workers w := by
  simp only [inFlight, setPc, List.get?_eq_getElem?] at *
  by_cases hw : w = i
  · subst hw
    simp [List.getElem?_modify_eq, hi]
  · have hne : i ≠ w := fun hc => hw hc.symm
    simp [List.getElem?_modify_ne _ _ hne, hw]

/-- A worker just started has no send in progress. -/
theorem inFlight_append_selecting (workers : List Worker) (wk : Worker) (w : Nat)
    (hpc : wk.pc = WorkerPc.selecting) :
    inFlight (workers ++ [wk]) w = inFlight workers w := by
  simp only [inFlight, List.get?_eq_getElem?]
  by_cases hlt : w < workers.length
  · rw [List.getElem?_append_left hlt]
  · have hge : workers.length ≤ w := Nat.le_of_not_lt hlt
    rw [List.getElem?_append_right hge, List.getElem?_eq_none hge]
    by_cases h0 : w - workers.length = 0
    · simp [h0, hpc, WorkerPc.inFlight]
    · have : [wk][w - workers.length]? = none := by
        apply List.getElem?_eq_none
        simp only [List.length_singleton]
        omega
      simp [this]

/-- Every step keeps the sends of each worker bracketed. -/
theorem ChanSys.step_sendsBracketed (env : SinkEnv) (s s1 : ChanSys) (a : Action)
    (h : s.step env a = some s1) (hinv : s.SendsBracketed) : s1.SendsBracketed := by
  intro w
  have hw := hinv w
  cases a with
  | register name sink =>
    simp only [ChanSys.step] at h
    split_ifs at h
    cases h
    simp only [ChanSys.Register]
    rw [inFlight_append_selecting _ _ _ rfl]
    exact hw
  | dispatch name ev =>
    simp only [ChanSys.step] at h
    split_ifs at h
    cases h
    simp only [ChanSys.SendEvent, sendStartsOf, sendEndsOf, List.filterMap_append] at hw ⊢
    simpa using hw
  | receive i =>
    simp only [ChanSys.step] at h
    split_ifs at h
    split at h
    · rename_i c ev hsender
      split at h
      · rename_i w0 hsel
        obtain ⟨wk, hget, _, hpc⟩ := selectingOn_spec _ _ _ hsel
        rw [hget] at h
        simp only [Option.some.injEq] at h
        subst h
        simp only
        rw [inFlight_setPc _ _ _ _ wk hget]
        simp only [sendStartsOf, sendEndsOf, List.filterMap_append] at hw ⊢
        by_cases hww : w = w0
        · subst hww
          have hfl : inFlight s.workers w = [] := by
            rw [inFlight_of_get _ _ _ hget, hpc]
            rfl
          rw [hfl] at hw
          simp [hw, WorkerPc.inFlight]
        · have hne : ¬ w0 = w := fun hc => hww hc.symm
          simp [hne, hww, hw]
      · cases h
    · cases h
  | sendReturn w0 =>
    simp only [ChanSys.step] at h
    split_ifs at h
    split at h
    · rename_i wk hget
      split at h
      · rename_i ev hpc
        simp only [Option.some.injEq] at h
        subst h
        simp only
        rw [inFlight_setPc _ _ _ _ wk hget]
        simp only [sendStartsOf, sendEndsOf, List.filterMap_append] at hw ⊢
        by_cases hww : w = w0
        · subst hww
          have hfl : inFlight s.workers w = [ev] := by
            rw [inFlight_of_get _ _ _ hget, hpc]
            rfl
          rw [hfl] at hw
          simp [hw, WorkerPc.inFlight]
        · have hne : ¬ w0 = w := fun hc => hww hc.symm
          simp [hne, hww, hw]
      · cases h
    · cases h
  | closeCall =>
    simp only [ChanSys.step] at h
    split_ifs at h
    split at h
    · cases h
      exact hw
    · cases h
  | exitSignal =>
    simp only [ChanSys.step] at h
    split_ifs at h
    split at h
    · rename_i c rest hcl
      split at h
      · rename_i w0 hsel
        obtain ⟨wk, hget, _, hpc⟩ := selectingOnExit_spec _ _ _ hsel
        cases h
        simp only
        rw [inFlight_setPc _ _ _ _ wk hget]
        by_cases hww : w = w0
        · subst hww
          have hfl : inFlight s.workers w = [] := by
            rw [inFlight_of_get _ _ _ hget, hpc]
            rfl
          rw [hfl] at hw
          simp [hw, WorkerPc.inFlight]
        · simp [hww, hw]
      · cases h
    · cases h
  | closeWait =>
    simp only [ChanSys.step] at h
    split_ifs at h
    split at h
    · split at h <;> cases h <;> exact hw
    · cases h
  | workerClose w0 =>
    simp only [ChanSys.step] at h
    split_ifs at h
    split at h
    · rename_i wk hget
      split at h
      · rename_i hpc
        cases h
        simp only
        rw [inFlight_setPc _ _ _ _ wk hget]
        simp only [sendStartsOf, sendEndsOf, List.filterMap_append] at hw ⊢
        by_cases hww : w = w0
        · subst hww
          have hfl : inFlight s.workers w = [] := by
            rw [inFlight_of_get _ _ _ hget, hpc]
            rfl
          rw [hfl] at hw
          simp [hw, WorkerPc.inFlight]
        · simp [hww, hw]
      · cases h
    · cases h
  | closeReturn =>
    simp only [ChanSys.step] at h
    split_ifs at h
    split at h
    · cases h
      simp only [sendStartsOf, sendEndsOf, List.filterMap_append] at hw ⊢
      simpa using hw
    · cases h

/-- Every run keeps the sends of each worker bracketed. -/
theorem ChanSys.run_sendsBracketed (env : SinkEnv) (schedule : List Action)
    (s s1 : ChanSys) (h : ChanSys.run env schedule s = some s1)
    (hinv : s.SendsBracketed) : s1.SendsBracketed := by
  induction schedule generalizing s with
  | nil =>
    simp only [ChanSys.run, Option.some.injEq] at h
    subst h
    exact hinv
  | cons a rest ih =>
    simp only [ChanSys.run] at h
    split at h
    · rename_i s2 hstep
      exact ih s2 h (ChanSys.step_sendsBracketed env s s2 a hstep hinv)
    · cases h

/-- C8 (as stated, refuted): on the channel-based registry with one destination
`a`, `dispatch("a", first)` returns before `dispatch("a", second)` is called,
and in this run the worker invokes `Send` with `second` before `first`. -/
theorem channel_dispatch_order_not_kept :
    (ChanSys.run okEnv reorderSchedule ChanSys.init).map
        (fun s => (s.trace, dispatchedTo s.trace "a", sendStartsOf s.trace 0)) =
      some ([ChanEvent.dispatched "a" firstEvent, ChanEvent.dispatched "a" secondEvent,
             ChanEvent.sendStart 0 secondEvent, ChanEvent.sendEnd 0 secondEvent,
             ChanEvent.sendStart 0 firstEvent, ChanEvent.sendEnd 0 firstEvent],
            [firstEvent, secondEvent], [secondEvent, firstEvent]) := by
  decide

/-- C8 (amended): on the channel-based registry the worker of a destination
never runs two `Send` calls at the same time: at every point of every run the
sends it has started are the sends it has finished, in the same order, followed
by at most one send in progress. The order of the `Send` calls is the order in
which the worker receives the events from the channel; it is not fixed by the
order of the dispatch calls, each of which hands its event over from a
goroutine of its own: after `dispatch(name, e1)` returned and then
`dispatch(name, e2)` was called, `Send` may be invoked with `e1` first or with
`e2` first. -/
theorem channel_worker_sends_one_at_a_time (env : SinkEnv) (schedule : List Action)
    (s : ChanSys) (h : ChanSys.run env schedule ChanSys.init = some s) :
    (∀ w, sendStartsOf s.trace w = sendEndsOf s.trace w ++ inFlight s.workers w ∧
      (inFlight s.workers w).length ≤ 1 ∧
      (sendEndsOf s.trace w).length ≤ (sendStartsOf s.trace w).length ∧
      (sendStartsOf s.trace w).length ≤ (sendEndsOf s.trace w).length + 1) ∧
    (∀ (name : String) (sink : SinkId) (e1 e2 : EnhancedEvent),
      (ChanSys.run env [Action.register name sink, Action.dispatch name e1,
          Action.dispatch name e2, Action.receive 0, Action.sendReturn 0,
          Action.receive 0, Action.sendReturn 0] ChanSys.init).map
        (fun s => (dispatchedTo s.trace name, sendStartsOf s.trace 0)) =
          some ([e1, e2], [e1, e2]) ∧
      (ChanSys.run env [Action.register name sink, Action.dispatch name e1,
          Action.dispatch name e2, Action.receive 1, Action.sendReturn 0,
          Action.receive 0, Action.sendReturn 0] ChanSys.init).map
        (fun s => (dispatchedTo s.trace name, sendStartsOf s.trace 0)) =
          some ([e1, e2], [e2, e1])) := by
  have hinit : ChanSys.init.SendsBracketed := by
    intro w
    simp [ChanSys.init, sendStartsOf, sendEndsOf, inFlight]
  have hinv := ChanSys.run_sendsBracketed env schedule ChanSys.init s h hinit
  have hlen : ∀ w, (inFlight s.workers w).length ≤ 1 := by
    intro w
    simp only [inFlight]
    split
    · rename_i wk _
      cases wk.pc <;> simp [WorkerPc.inFlight]
    · simp
  refine ⟨?_, ?_⟩
  · intro w
    have hw := hinv w
    have hl := hlen w
    refine ⟨hw, hl, ?_, ?_⟩
    · rw [hw, List.length_append]
      omega
    · rw [hw, List.length_append]
      omega
  · intro name sink e1 e2
    constructor
    · simp [ChanSys.run, ChanSys.step, ChanSys.init, ChanSys.Register, ChanSys.SendEvent,
        chanLookup, chanSet, selectingOn, setPc, dispatchedTo, sendStartsOf, World.init,
        List.findIdx_cons, List.modify, List.eraseIdx]
    · simp [ChanSys.run, ChanSys.step, ChanSys.init, ChanSys.Register, ChanSys.SendEvent,
        chanLookup, chanSet, selectingOn, setPc, dispatchedTo, sendStartsOf, World.init,
        List.findIdx_cons, List.modify, List.eraseIdx]

/-- Witness of C8 (amended): the run in which the second event is received
first, stopped while its `Send` is in progress. -/
theorem channel_worker_sends_one_at_a_time_witness :
    ∃ s, ChanSys.run okEnv (reorderSchedule.take 4) ChanSys.init = some s ∧
      inFlight s.workers 0 = [secondEvent] ∧
      sendStartsOf s.trace 0 = sendEndsOf s.trace 0 ++ inFlight s.workers 0 ∧
      (sendStartsOf s.trace 0).length ≤ (sendEndsOf s.trace 0).length + 1 := by
  have hsome : (ChanSys.run okEnv (reorderSchedule.take 4) ChanSys.init).isSome = true := by
    decide
  obtain ⟨s, hs⟩ := Option.isSome_iff_exists.mp hsome
  have hfl : (ChanSys.run okEnv (reorderSchedule.take 4) ChanSys.init).map
      (fun s => inFlight s.workers 0) = some [secondEvent] := by decide
  rw [hs] at hfl
  have hthm := (channel_worker_sends_one_at_a_time okEnv (reorderSchedule.take 4) s hs).1 0
  exact ⟨s, hs, by simpa using hfl, hthm.1, hthm.2.2.2⟩

/-! ### Event watcher: discard signal and working copy -/

/-- C12: for every raw event, `isEventDiscarded` increments the discarded-event
counter, by one, if and only if the event is discarded as stale and its
timestamp (last-seen, or event-time when last-seen is zero) is strictly after
the process start time; a stale event whose timestamp is not after the start
time is discarded without a signal, and a retained event never increments the
counter. -/
theorem isEventDiscarded_counter (e : EventWatcher) (startUpTime now : Int)
    (event : Event) (st : WatcherState) :
    (e.isEventDiscarded startUpTime now event st).2.EventsDiscarded =
      st.EventsDiscarded +
        (if (e.isEventDiscarded startUpTime now event st).1 = true ∧
            (if event.LastTimestamp = 0 then event.EventTime else event.LastTimestamp) >
              startUpTime
         then 1 else 0) ∧
    ((e.isEventDiscarded startUpTime now event st).2.EventsDiscarded ≠ st.EventsDiscarded ↔
      (e.isEventDiscarded startUpTime now event st).1 = true ∧
        (if event.LastTimestamp = 0 then event.EventTime else event.LastTimestamp) >
          startUpTime) ∧
    ((e.isEventDiscarded startUpTime now event st).1 = true ↔
      Time.Since now
        (if event.LastTimestamp = 0 then event.EventTime else event.LastTimestamp) >
          e.maxEventAgeSeconds) := by
  simp only [EventWatcher.isEventDiscarded]
  split_ifs <;> simp_all

/-- C13: for every retained raw event, the event handed to the callback is a
copy whose managed-field metadata is empty and whose every other event field
equals that of the raw event, and the raw event itself, its managed fields
included, is as it was before `onEvent`. -/
theorem onEvent_working_copy (e : EventWatcher)
    (lookup : ObjectReference → Except LookupError ObjectMetadata)
    (startUpTime now : Int) (event : Event) (st : WatcherState)
    (hret : (e.isEventDiscarded startUpTime now event st).1 = false) :
    (∃ ev, (e.OnAdd lookup startUpTime now event st).2.delivered = st.delivered ++ [ev] ∧
      ev.Event.ManagedFields = [] ∧
      ev.Event = { event with ManagedFields := [] } ∧
      ev.Event.Name = event.Name ∧ ev.Event.Namespace = event.Namespace ∧
      ev.Event.UID = event.UID ∧ ev.Event.ResourceVersion = event.ResourceVersion ∧
      ev.Event.Labels = event.Labels ∧ ev.Event.Annotations = event.Annotations ∧
      ev.Event.InvolvedObject = event.InvolvedObject ∧ ev.Event.Reason = event.Reason ∧
      ev.Event.Message = event.Message ∧
      ev.Event.SourceComponent = event.SourceComponent ∧
      ev.Event.SourceHost = event.SourceHost ∧
      ev.Event.FirstTimestamp = event.FirstTimestamp ∧
      ev.Event.LastTimestamp = event.LastTimestamp ∧ ev.Event.Count = event.Count ∧
      ev.Event.EventType = event.EventType ∧ ev.Event.EventTime = event.EventTime ∧
      ev.Event.Action = event.Action ∧
      ev.Event.ReportingController = event.ReportingController ∧
      ev.Event.ReportingInstance = event.ReportingInstance) ∧
    (e.OnAdd lookup startUpTime now event st).1 = event ∧
    (e.OnAdd lookup startUpTime now event st).1.ManagedFields = event.ManagedFields := by
  obtain ⟨hdel, _⟩ := e.onEvent_retained lookup startUpTime now event st hret
  refine ⟨⟨_, hdel, ?_⟩, rfl, rfl⟩
  simp

/-- Witness of C13: a retained event that carries a managed-fields entry. -/
theorem onEvent_working_copy_witness :
    ((NewEventWatcher 5 true).isEventDiscarded 0 2000 sampleEvent WatcherState.init).1
      = false ∧
    sampleEvent.ManagedFields = ["kubelet"] ∧
    (((NewEventWatcher 5 true).OnAdd lookupOk 0 2000 sampleEvent
        WatcherState.init).2.delivered.map fun ev => ev.Event) =
      [{ sampleEvent with ManagedFields := [] }] ∧
    ((NewEventWatcher 5 true).OnAdd lookupOk 0 2000 sampleEvent WatcherState.init).1 =
      sampleEvent := by
  have hret : ((NewEventWatcher 5 true).isEventDiscarded 0 2000 sampleEvent
      WatcherState.init).1 = false := by decide
  obtain ⟨⟨ev, hev, _, hcopy, _⟩, hraw, _⟩ :=
    onEvent_working_copy (NewEventWatcher 5 true) lookupOk 0 2000 sampleEvent
      WatcherState.init hret
  refine ⟨hret, rfl, ?_, hraw⟩
  rw [hev]
  simp [WatcherState.init, hcopy]

/-! ### Configuration validation -/

/-- C14: for every configuration, `validateMaxEventAgeSeconds` fails if and
only if `throttlePeriod` and `maxEventAgeSeconds` are both non-zero, and then
leaves the configuration unchanged; otherwise it succeeds with
`maxEventAgeSeconds` equal to 5 when both were zero, equal to `throttlePeriod`
when only `throttlePeriod` was set, and unchanged when only
`maxEventAgeSeconds` was set, every other field being untouched. -/
theorem validateMaxEventAgeSeconds_cases (c : Config) :
    ((∃ err, c.validateMaxEventAgeSeconds.err = some err) ↔
      c.ThrottlePeriod ≠ 0 ∧ c.MaxEventAgeSeconds ≠ 0) ∧
    (c.ThrottlePeriod ≠ 0 ∧ c.MaxEventAgeSeconds ≠ 0 →
      c.validateMaxEventAgeSeconds.config = c) ∧
    (c.ThrottlePeriod = 0 ∧ c.MaxEventAgeSeconds = 0 →
      c.validateMaxEventAgeSeconds.err = none ∧
      c.validateMaxEventAgeSeconds.config = { c with MaxEventAgeSeconds := 5 }) ∧
    (c.ThrottlePeriod ≠ 0 ∧ c.MaxEventAgeSeconds = 0 →
      c.validateMaxEventAgeSeconds.err = none ∧
      c.validateMaxEventAgeSeconds.config =
        { c with MaxEventAgeSeconds := c.ThrottlePeriod }) ∧
    (c.ThrottlePeriod = 0 ∧ c.MaxEventAgeSeconds ≠ 0 →
      c.validateMaxEventAgeSeconds.err = none ∧
      c.validateMaxEventAgeSeconds.config = c) ∧
    c.validateDefaults = c.validateMaxEventAgeSeconds := by
  refine ⟨?_, ?_, ?_, ?_, ?_, rfl⟩
  all_goals simp only [Config.validateMaxEventAgeSeconds]
  · split_ifs <;> simp_all
  · intro h
    split_ifs <;> simp_all
  · intro h
    simp [h]
  · intro h
    split_ifs <;> simp_all
  · intro h
    split_ifs <;> simp_all

/-- Witness of C14: the four combinations on the test configuration. -/
theorem validateMaxEventAgeSeconds_cases_witness :
    (testConfig simpleRoute []).validateMaxEventAgeSeconds.err = none ∧
    (testConfig simpleRoute []).validateMaxEventAgeSeconds.config.MaxEventAgeSeconds = 5 ∧
    ({ testConfig simpleRoute [] with ThrottlePeriod := 7 } : Config
      ).validateMaxEventAgeSeconds.config.MaxEventAgeSeconds = 7 ∧
    ({ testConfig simpleRoute [] with MaxEventAgeSeconds := 9 } : Config
      ).validateMaxEventAgeSeconds.config.MaxEventAgeSeconds = 9 ∧
    (∃ err, ({ testConfig simpleRoute [] with ThrottlePeriod := 7, MaxEventAgeSeconds := 9 }
      : Config).validateMaxEventAgeSeconds.err = some err) := by
  have h0 := (validateMaxEventAgeSeconds_cases (testConfig simpleRoute [])).2.2.1
    ⟨rfl, rfl⟩
  have h1 := (validateMaxEventAgeSeconds_cases
    { testConfig simpleRoute [] with ThrottlePeriod := 7 }).2.2.2.1 ⟨by decide, rfl⟩
  have h2 := (validateMaxEventAgeSeconds_cases
    { testConfig simpleRoute [] with MaxEventAgeSeconds := 9 }).2.2.2.2.1 ⟨rfl, by decide⟩
  have h3 := (validateMaxEventAgeSeconds_cases
    { testConfig simpleRoute [] with ThrottlePeriod := 7, MaxEventAgeSeconds := 9 }).1.mpr
    ⟨by decide, by decide⟩
  refine ⟨h0.1, ?_, ?_, ?_, h3⟩
  · rw [h0.2]
  · rw [h1.2]
  · rw [h2.2]

/-! ### Routing reaches only the match tree -/

/-- Unfolding of `Route.routeRule` on a rule. -/
theorem Route.routeRule_mk (p : List (EnhancedEvent → Bool)) (recv : Option String)
    (sub : Option Route) (ev : EnhancedEvent) :
    Route.routeRule (Rule.mk p recv sub) ev =
      if (Rule.mk p recv sub).MatchesEvent ev then
        (match recv with
          | none => []
          | some name => [name]) ++
        (match sub with
          | none => []
          | some rt => Route.route rt ev)
      else [] := by
  cases sub <;> rfl

/-- Unfolding of `Route.receiversRule` on a rule. -/
theorem Route.receiversRule_mk (p : List (EnhancedEvent → Bool)) (recv : Option String)
    (sub : Option Route) :
    Route.receiversRule (Rule.mk p recv sub) =
      (match recv with
        | none => []
        | some name => [name]) ++
      (match sub with
        | none => []
        | some rt => Route.receivers rt) := by
  cases sub <;> rfl

/-- Unfolding of `Route.route` on a route. -/
theorem Route.route_mk (d m : List Rule) (ev : EnhancedEvent) :
    (Route.mk d m).route ev =
      if d.any (fun r => r.MatchesEvent ev) then [] else Route.routeRules m ev :=
  rfl

/-- Every destination a route resolves is reachable through its match tree. -/
theorem Route.route_subset_receivers (r : Route) (ev : EnhancedEvent) (name : String)
    (h : name ∈ r.route ev) : name ∈ r.receivers := by
  revert h
  refine Route.rec
    (motive_1 := fun x => name ∈ Route.routeRule x ev → name ∈ Route.receiversRule x)
    (motive_2 := fun x => name ∈ x.route ev → name ∈ x.receivers)
    (motive_3 := fun o => ∀ rt, o = some rt → name ∈ rt.route ev → name ∈ rt.receivers)
    (motive_4 := fun xs => name ∈ Route.routeRules xs ev → name ∈ Route.receiversRules xs)
    ?_ ?_ ?_ ?_ ?_ ?_ r
  · intro p recv sub ih h
    rw [Route.routeRule_mk] at h
    rw [Route.receiversRule_mk, List.mem_append]
    split_ifs at h
    · rw [List.mem_append] at h
      cases h with
      | inl h => exact Or.inl h
      | inr h =>
        cases sub with
        | none => simp at h
        | some rt => exact Or.inr (ih rt rfl h)
    · simp at h
  · intro d m _ ihm h
    rw [Route.route_mk] at h
    split_ifs at h
    · simp at h
    · exact ihm h
  · intro rt hrt
    cases hrt
  · intro val ih rt hrt h
    cases hrt
    exact ih h
  · intro h
    exact absurd h (List.not_mem_nil name)
  · intro head tail ihh iht h
    have h1 : name ∈ Route.routeRule head ev ++ Route.routeRules tail ev := h
    have h2 := List.mem_append.mp h1
    have goal : name ∈ Route.receiversRule head ++ Route.receiversRules tail := by
      rw [List.mem_append]
      cases h2 with
      | inl h => exact Or.inl (ihh h)
      | inr h => exact Or.inr (iht h)
    exact goal

/-- Dispatching a list of names on the synchronous registry, when it returns,
has invoked `Send` once per name, on the sink bound to the name, in order. -/
theorem SyncRegistry.dispatchAll_sends (env : SinkEnv) (s : SyncRegistry)
    (ev : EnhancedEvent) (names : List String) (w w1 : World)
    (h : dispatchAll (SyncRegistry.iface env) s ev names w = Run.done w1) :
    ∃ sinks : List SinkId, names.map s.lookup = sinks.map some ∧
      allSends w1.calls = allSends w.calls ++ sinks.map fun k => (k, ev) := by
  induction names generalizing w with
  | nil =>
    simp only [dispatchAll, Run.done.injEq] at h
    subst h
    exact ⟨[], rfl, by simp⟩
  | cons name rest ih =>
    simp only [dispatchAll, SyncRegistry.iface] at h
    cases hl : s.lookup name with
    | none =>
      simp [SyncRegistry.SendEvent, hl, Run.bind] at h
    | some sink =>
      rw [SyncRegistry.sendEvent_registered env s name sink ev w hl] at h
      simp only [Run.bind] at h
      obtain ⟨sinks, hmap, hsends⟩ := ih _ h
      refine ⟨sink :: sinks, by simp [hl, hmap], ?_⟩
      rw [hsends]
      simp [allSends, List.filterMap_append]

/-- C11: for every event, an engine built from an empty route and no receivers
handles `OnEvent` without failing and dispatches the event to no destination;
more generally every destination name that routing resolves is reachable
through the match tree, and when `OnEvent` on the synchronous registry returns,
every `Send` it made was on the sink bound to a name reachable through the
match tree, with that event. -/
theorem onEvent_reaches_only_match_tree (env : SinkEnv) (s : SyncRegistry) (R : Route)
    (E : EnhancedEvent) (w : World) :
    (∀ (getSink : ReceiverConfig → Except String SinkId) (config : Config),
      config.Route = Route.mk [] [] → config.Receivers = [] →
      ∃ engine, (NewEngine (SyncRegistry.iface env) getSink config s w).result =
          Except.ok engine ∧
        engine.Registry = s ∧
        Engine.OnEvent (SyncRegistry.iface env) engine E w = Run.done w) ∧
    (∀ name ∈ R.route E, name ∈ R.receivers) ∧
    (∀ w1, Engine.OnEvent (SyncRegistry.iface env) (Engine.mk R s) E w = Run.done w1 →
      ∃ sinks : List SinkId, allSends w1.calls = allSends w.calls ++ sinks.map (fun k => (k, E)) ∧
        ∀ k ∈ sinks, ∃ name ∈ R.receivers, s.lookup name = some k) := by
  refine ⟨?_, Route.route_subset_receivers R E, ?_⟩
  · intro getSink config hroute hrecv
    refine ⟨{ Route := config.Route, Registry := s }, ?_, rfl, ?_⟩
    · simp [NewEngine, NewEngine.loop, hrecv]
    · simp [Engine.OnEvent, Route.ProcessEvent, hroute, Route.route, Route.routeRules,
        dispatchAll]
  · intro w1 h
    simp only [Engine.OnEvent, Route.ProcessEvent] at h
    obtain ⟨sinks, hmap, hsends⟩ := SyncRegistry.dispatchAll_sends env s E _ w w1 h
    refine ⟨sinks, hsends, ?_⟩
    intro k hk
    have hmem : some k ∈ (R.route E).map s.lookup := by
      rw [hmap]
      exact List.mem_map.mpr ⟨k, hk, rfl⟩
    obtain ⟨name, hname, hlook⟩ := List.mem_map.mp hmem
    exact ⟨name, Route.route_subset_receivers R E name hname, hlook⟩

/-- Witness of C11 on `TestEngineNoRoutes`: the empty route, no receivers, the
zero synchronous registry and the zero event. -/
theorem onEvent_reaches_only_match_tree_witness :
    (testConfig emptyRoute []).Route = Route.mk [] [] ∧
    (testConfig emptyRoute []).Receivers = [] ∧
    ∃ engine, (NewEngine (SyncRegistry.iface okEnv) testGetSink (testConfig emptyRoute [])
        SyncRegistry.empty World.init).result = Except.ok engine ∧
      engine.Registry = SyncRegistry.empty ∧
      Engine.OnEvent (SyncRegistry.iface okEnv) engine EnhancedEvent.zero World.init =
        Run.done World.init :=
  ⟨rfl, rfl,
   (onEvent_reaches_only_match_tree okEnv SyncRegistry.empty emptyRoute EnhancedEvent.zero
      World.init).1 testGetSink (testConfig emptyRoute []) rfl rfl⟩

/-! ### Faults of the registries -/

/-- C18 (the code at the failing input): a configuration whose route names the
receiver `missing` while only `in-mem` is configured passes `Validate`; the
engine is built, and `dispatch("missing", e)` on the synchronous registry does
not return: `s.reg["missing"]` is the nil interface and calling `Send` on it
faults, as does `Engine.OnEvent`. No `Send` is invoked. -/
theorem sync_dispatch_unregistered_faults :
    (testConfig danglingRoute [⟨"in-mem", ""⟩]).Validate.err = none ∧
    testRegistry.lookup "missing" = none ∧
    SyncRegistry.SendEvent okEnv testRegistry "missing" firstEvent World.init =
      Run.crash "invalid memory address or nil pointer dereference" ∧
    Engine.OnEvent (SyncRegistry.iface okEnv) (Engine.mk danglingRoute testRegistry)
      firstEvent World.init =
      Run.crash "invalid memory address or nil pointer dereference" := by
  refine ⟨by decide, by decide, by decide, by decide⟩

/-- C19 (the code at the failing input): on the channel-based registry as
`main` creates it, with no destination registered, `Close()` finds no exit
channel to signal and then calls `r.wg.Wait()` on the nil wait group: the
process faults. After the call of `Close` no other step is enabled (there is no
worker to signal and `Close` cannot return), so `Close` never returns
normally. -/
theorem channel_close_without_destinations_faults :
    (ChanSys.run okEnv [Action.closeCall, Action.closeWait] ChanSys.init).map
        (fun s => (s.faulted, s.closer)) = some (true, ClosePc.signalling []) ∧
    (ChanSys.run okEnv [Action.closeCall, Action.closeReturn] ChanSys.init) = none ∧
    (ChanSys.run okEnv [Action.closeCall, Action.exitSignal] ChanSys.init) = none ∧
    (ChanSys.run okEnv [Action.closeCall, Action.closeWait, Action.closeReturn]
      ChanSys.init) = none := by
  refine ⟨by decide, by decide, by decide, by decide⟩

/-! ### BigQuery sink -/

/-- Setting the first `n` entries of a list of `false` to `true`, one index at
a time. -/
theorem foldl_set_true (len n : Nat) (h : n ≤ len) :
    (List.range n).foldl (fun r i => r.set i true) (List.replicate len false) =
      List.replicate n true ++ List.replicate (len - n) false := by
  induction n with
  | zero => simp
  | succ k ih =>
    have hk : k ≤ len := Nat.le_of_succ_le h
    rw [List.range_succ, List.foldl_append, ih hk]
    simp only [List.foldl_cons, List.foldl_nil]
    rw [List.set_append_right _ _ (by simp)]
    have hlen : len - k = (len - (k + 1)) + 1 := by omega
    simp only [List.length_replicate, Nat.sub_self]
    rw [hlen, List.replicate_succ, List.set_cons_zero, List.replicate_succ' k true]
    simp

/-- The loop of `bigQuerySanitizeKey` appends one character per rune. -/
theorem bigQuerySanitizeKey_loop_eq (U : UnicodeTables) (l fixedKey : List Char) :
    bigQuerySanitizeKey.loop U l fixedKey = fixedKey ++ l.map (sanitizeRune U) := by
  induction l generalizing fixedKey with
  | nil => simp [bigQuerySanitizeKey.loop]
  | cons ch rest ih => simp [bigQuerySanitizeKey.loop, ih]

/-- Every character `bigQuerySanitizeKey` returns is a letter, a digit or an
underscore, and when the key starts with an ASCII character the result starts
with a letter or an underscore. -/
theorem bigQuerySanitizeKey_valid_part (U : UnicodeTables) (key fixed : String)
    (h : bigQuerySanitizeKey U key = Run.done fixed) :
    (∀ ch ∈ fixed.data, U.IsLetter ch.toNat = true ∨ U.IsDigit ch.toNat = true ∨ ch = '_') ∧
    (∀ c rest, key.data = c :: rest → c.toNat < 128 →
      ∃ f tail, fixed.data = f :: tail ∧ (U.IsLetter f.toNat = true ∨ f = '_')) := by
  simp only [bigQuerySanitizeKey] at h
  split at h
  · cases h
  · rename_i c rest hdata
    simp only [Run.done.injEq] at h
    subst h
    simp only [bigQuerySanitizeKey_loop_eq]
    constructor
    · intro ch hch
      simp only [List.mem_append, List.mem_map] at hch
      rcases hch with hch | ⟨x, _, hx⟩
      · split_ifs at hch
        · simp only [List.mem_singleton] at hch
          exact Or.inr (Or.inr hch)
        · simp at hch
      · subst hx
        simp only [sanitizeRune]
        split_ifs with hx
        · simp only [Bool.or_eq_true] at hx
          rcases hx with hx | hx
          · exact Or.inl hx
          · exact Or.inr (Or.inl hx)
        · exact Or.inr (Or.inr rfl)
    · intro c1 rest1 hdata1 hascii
      rw [hdata] at hdata1
      cases hdata1
      have hlead : utf8LeadByte c = c.toNat := by simp [utf8LeadByte, hascii]
      rw [hdata, hlead]
      by_cases hl : U.IsLetter c.toNat = true
      · exact ⟨c, rest.map (sanitizeRune U), by simp [hl, sanitizeRune], Or.inl hl⟩
      · exact ⟨'_', sanitizeRune U c :: rest.map (sanitizeRune U), by simp [hl], Or.inr rfl⟩

/-- C16 (the code at the failing input): for the key made of the Arabic-Indic
digit zero (U+0660, in UTF-8 the bytes D9 A0), `rune(key[0])` is U+00D9, a
letter, so no underscore is put in front; the digit itself is kept. The result
is the key unchanged: its first character is a digit, neither a letter nor an
underscore. -/
theorem bigQuerySanitizeKey_leading_digit (U : UnicodeTables)
    (hlead : U.IsLetter 217 = true) (hletter : U.IsLetter 1632 = false)
    (hdigit : U.IsDigit 1632 = true) :
    utf8LeadByte (Char.ofNat 1632) = 217 ∧
    bigQuerySanitizeKey U (String.mk [Char.ofNat 1632]) =
      Run.done (String.mk [Char.ofNat 1632]) ∧
    U.IsLetter (Char.ofNat 1632).toNat = false ∧
    U.IsDigit (Char.ofNat 1632).toNat = true ∧
    Char.ofNat 1632 ≠ '_' := by
  have hnat : (Char.ofNat 1632).toNat = 1632 := by decide
  have hb : utf8LeadByte (Char.ofNat 1632) = 217 := by decide
  refine ⟨hb, ?_, by rw [hnat]; exact hletter, by rw [hnat]; exact hdigit, by decide⟩
  simp only [bigQuerySanitizeKey, hb, hlead, bigQuerySanitizeKey.loop, sanitizeRune, hnat,
    hletter, hdigit]
  simp

/-- Witness of C16: the excerpt of the Unicode tables has the three facts. -/
theorem bigQuerySanitizeKey_leading_digit_witness :
    unicodeExcerpt.IsLetter 217 = true ∧ unicodeExcerpt.IsLetter 1632 = false ∧
    unicodeExcerpt.IsDigit 1632 = true ∧
    bigQuerySanitizeKey unicodeExcerpt (String.mk [Char.ofNat 1632]) =
      Run.done (String.mk [Char.ofNat 1632]) :=
  ⟨by decide, by decide, by decide,
   (bigQuerySanitizeKey_leading_digit unicodeExcerpt (by decide) (by decide)
      (by decide)).2.1⟩

/-! ### Layout templates -/

/-- Assigning a key the map does not hold appends the entry. -/
theorem mapPut_of_not_mem {κ ν : Type} [DecidableEq κ] (m : List (κ × ν)) (k : κ) (v : ν)
    (h : k ∉ m.map Prod.fst) : mapPut m k v = m ++ [(k, v)] := by
  induction m with
  | nil => rfl
  | cons p rest ih =>
    obtain ⟨k0, v0⟩ := p
    simp only [List.map_cons, List.mem_cons, not_or] at h
    have hk : ¬ k0 = k := fun hc => h.1 hc.symm
    simp [mapPut, hk, ih h.2]

/-- Unfolding of the loop over an any-keyed map at a string key. -/
theorem convertTemplate.anyLoop_cons (render : EnhancedEvent → String → Except String String)
    (ev : EnhancedEvent) (k : Key) (v : Value) (rest : List (Key × Value))
    (acc : List (String × Value)) :
    convertTemplate.anyLoop render ev ((k, v) :: rest) acc =
      match convertTemplate render ev v with
      | Run.crash r => Run.crash r
      | Run.done (Except.error err) => Run.done (Except.error err)
      | Run.done (Except.ok res) =>
        match k with
        | Key.str key => convertTemplate.anyLoop render ev rest (mapPut acc key res)
        | Key.other _ => Run.crash "interface conversion: interface \x7b\x7d is not string" :=
  rfl

/-- Unfolding of the loop over a string-keyed map. -/
theorem convertTemplate.strLoop_cons (render : EnhancedEvent → String → Except String String)
    (ev : EnhancedEvent) (k : String) (v : Value) (rest : List (String × Value))
    (acc : List (String × Value)) :
    convertTemplate.strLoop render ev ((k, v) :: rest) acc =
      match convertTemplate render ev v with
      | Run.crash r => Run.crash r
      | Run.done (Except.error err) => Run.done (Except.error err)
      | Run.done (Except.ok res) =>
        convertTemplate.strLoop render ev rest (mapPut acc k res) :=
  rfl

/-- Unfolding of the loop over a list. -/
theorem convertTemplate.listLoop_cons (render : EnhancedEvent → String → Except String String)
    (ev : EnhancedEvent) (v : Value) (rest acc : List Value) :
    convertTemplate.listLoop render ev (v :: rest) acc =
      match convertTemplate render ev v with
      | Run.crash r => Run.crash r
      | Run.done (Except.error err) => Run.done (Except.error err)
      | Run.done (Except.ok t) => convertTemplate.listLoop render ev rest (acc ++ [t]) :=
  rfl

/-- Unfolding of `convertTemplate` on an any-keyed map. -/
theorem convertTemplate_mapAny (render : EnhancedEvent → String → Except String String)
    (ev : EnhancedEvent) (m : List (Key × Value)) :
    convertTemplate render ev (Value.mapAny m) =
      match convertTemplate.anyLoop render ev m [] with
      | Run.crash r => Run.crash r
      | Run.done (Except.error err) => Run.done (Except.error err)
      | Run.done (Except.ok strKeysMap) => Run.done (Except.ok (Value.mapStr strKeysMap)) :=
  rfl

/-- Unfolding of `convertTemplate` on a string-keyed map. -/
theorem convertTemplate_mapStr (render : EnhancedEvent → String → Except String String)
    (ev : EnhancedEvent) (m : List (String × Value)) :
    convertTemplate render ev (Value.mapStr m) =
      match convertTemplate.strLoop render ev m [] with
      | Run.crash r => Run.crash r
      | Run.done (Except.error err) => Run.done (Except.error err)
      | Run.done (Except.ok strKeysMap) => Run.done (Except.ok (Value.mapStr strKeysMap)) :=
  rfl

/-- Unfolding of `convertTemplate` on a list. -/
theorem convertTemplate_list (render : EnhancedEvent → String → Except String String)
    (ev : EnhancedEvent) (l : List Value) :
    convertTemplate render ev (Value.list l) =
      match convertTemplate.listLoop render ev l [] with
      | Run.crash r => Run.crash r
      | Run.done (Except.error err) => Run.done (Except.error err)
      | Run.done (Except.ok listConf) => Run.done (Except.ok (Value.list listConf)) :=
  rfl

/-- Unfolding of `convertTemplate` on a string. -/
theorem convertTemplate_str (render : EnhancedEvent → String → Except String String)
    (ev : EnhancedEvent) (s : String) :
    convertTemplate render ev (Value.str s) =
      match render ev s with
      | Except.error err => Run.done (Except.error err)
      | Except.ok rendered => Run.done (Except.ok (Value.str rendered)) :=
  rfl

/-- Every key of an any-keyed map is among its any-keys. -/
theorem Value.mem_anyKeysAny (m : List (Key × Value)) (p : Key × Value) (h : p ∈ m) :
    p.1 ∈ Value.anyKeysAny m := by
  induction m with
  | nil => cases h
  | cons q rest ih =>
    obtain ⟨k, v⟩ := q
    have hunf : Value.anyKeysAny ((k, v) :: rest) =
        k :: (Value.anyKeys v ++ Value.anyKeysAny rest) := rfl
    rw [hunf]
    cases h with
    | head => exact List.mem_cons_self _ _
    | tail _ h1 =>
      exact List.mem_cons_of_mem _ (List.mem_append_right _ (ih h1))

/-- String keys that differ as keys differ as strings. -/
theorem Key.asString_nodup (keys : List Key) (hnd : keys.Nodup)
    (hstr : ∀ k ∈ keys, ∃ s, k = Key.str s) : (keys.map Key.asString).Nodup := by
  induction keys with
  | nil => simp
  | cons k rest ih =>
    rw [List.nodup_cons] at hnd
    rw [List.map_cons, List.nodup_cons]
    refine ⟨?_, ih hnd.2 (fun x hx => hstr x (List.mem_cons_of_mem _ hx))⟩
    intro hmem
    obtain ⟨x, hx, hxe⟩ := List.mem_map.mp hmem
    obtain ⟨s, hs⟩ := hstr k (List.mem_cons_self _ _)
    obtain ⟨t, ht⟩ := hstr x (List.mem_cons_of_mem _ hx)
    subst hs
    subst ht
    simp only [Key.asString] at hxe
    subst hxe
    exact hnd.1 hx

/-- When every map holds each key once, every template string renders and
every key of an any-keyed map is a string, `convertTemplate` returns the
conversion of the specification. -/
theorem convertTemplate_eq_spec (render : EnhancedEvent → String → Except String String)
    (ev : EnhancedEvent) (v : Value) :
    v.keysNodup = true →
    (∀ t ∈ v.templates, ∃ r, render ev t = Except.ok r) →
    (∀ k ∈ v.anyKeys, ∃ s, k = Key.str s) →
    convertTemplate render ev v = Run.done (Except.ok (specConvert render ev v)) := by
  refine Value.rec
    (motive_1 := fun v => v.keysNodup = true →
      (∀ t ∈ v.templates, ∃ r, render ev t = Except.ok r) →
      (∀ k ∈ v.anyKeys, ∃ s, k = Key.str s) →
      convertTemplate render ev v = Run.done (Except.ok (specConvert render ev v)))
    (motive_2 := fun m => Value.keysNodupAny m = true →
      (∀ t ∈ Value.templatesAny m, ∃ r, render ev t = Except.ok r) →
      (∀ k ∈ Value.anyKeysAny m, ∃ s, k = Key.str s) →
      ∀ acc : List (String × Value),
        (∀ p ∈ m, p.1.asString ∉ acc.map Prod.fst) →
        (m.map fun p => p.1.asString).Nodup →
        convertTemplate.anyLoop render ev m acc =
          Run.done (Except.ok (acc ++ specConvert.anyEntries render ev m)))
    (motive_3 := fun m => Value.keysNodupStr m = true →
      (∀ t ∈ Value.templatesStr m, ∃ r, render ev t = Except.ok r) →
      (∀ k ∈ Value.anyKeysStr m, ∃ s, k = Key.str s) →
      ∀ acc : List (String × Value),
        (∀ p ∈ m, p.1 ∉ acc.map Prod.fst) →
        (m.map Prod.fst).Nodup →
        convertTemplate.strLoop render ev m acc =
          Run.done (Except.ok (acc ++ specConvert.strEntries render ev m)))
    (motive_4 := fun l => Value.keysNodupList l = true →
      (∀ t ∈ Value.templatesList l, ∃ r, render ev t = Except.ok r) →
      (∀ k ∈ Value.anyKeysList l, ∃ s, k = Key.str s) →
      ∀ acc : List Value,
        convertTemplate.listLoop render ev l acc =
          Run.done (Except.ok (acc ++ specConvert.items render ev l)))
    (motive_5 := fun p => p.2.keysNodup = true →
      (∀ t ∈ p.2.templates, ∃ r, render ev t = Except.ok r) →
      (∀ k ∈ p.2.anyKeys, ∃ s, k = Key.str s) →
      convertTemplate render ev p.2 = Run.done (Except.ok (specConvert render ev p.2)))
    (motive_6 := fun p => p.2.keysNodup = true →
      (∀ t ∈ p.2.templates, ∃ r, render ev t = Except.ok r) →
      (∀ k ∈ p.2.anyKeys, ∃ s, k = Key.str s) →
      convertTemplate render ev p.2 = Run.done (Except.ok (specConvert render ev p.2)))
    ?_ ?_ ?_ ?_ ?_ ?_ ?_ ?_ ?_ ?_ ?_ ?_ ?_ ?_ v
  · intro _ _ _
    rfl
  · intro s _ ht _
    obtain ⟨r, hr⟩ := ht s (List.mem_singleton.mpr rfl)
    rw [convertTemplate_str]
    have hspec : specConvert render ev (Value.str s) =
        match render ev s with
        | Except.ok rendered => Value.str rendered
        | Except.error _ => Value.str s := rfl
    rw [hspec, hr]
  · intro m ih hnd ht hk
    have hnd1 : (decide ((m.map Prod.fst).Nodup) && Value.keysNodupAny m) = true := hnd
    rw [Bool.and_eq_true, decide_eq_true_iff] at hnd1
    have hkeys : (m.map fun p => p.1.asString).Nodup := by
      have h := Key.asString_nodup (m.map Prod.fst) hnd1.1 (by
        intro k hkm
        obtain ⟨p, hp, hpe⟩ := List.mem_map.mp hkm
        subst hpe
        exact hk _ (Value.mem_anyKeysAny m p hp))
      simpa [List.map_map] using h
    have hloop := ih hnd1.2 ht hk [] (by simp) hkeys
    rw [convertTemplate_mapAny, hloop]
    rfl
  · intro m ih hnd ht hk
    have hnd1 : (decide ((m.map Prod.fst).Nodup) && Value.keysNodupStr m) = true := hnd
    rw [Bool.and_eq_true, decide_eq_true_iff] at hnd1
    have hloop := ih hnd1.2 ht hk [] (by simp) hnd1.1
    rw [convertTemplate_mapStr, hloop]
    rfl
  · intro l ih hnd ht hk
    have hloop := ih hnd ht hk []
    rw [convertTemplate_list, hloop]
    rfl
  · intro c _ _ _
    rfl
  · intro _ _ _ acc _ _
    simp [convertTemplate.anyLoop, specConvert.anyEntries]
  · intro head tail ihh iht hnd ht hk acc hacc hkeys
    obtain ⟨k, v⟩ := head
    have hnd1 : (v.keysNodup && Value.keysNodupAny tail) = true := hnd
    rw [Bool.and_eq_true] at hnd1
    have ht1 : ∀ t ∈ v.templates ++ Value.templatesAny tail,
        ∃ r, render ev t = Except.ok r := ht
    have hk1 : ∀ x ∈ k :: (v.anyKeys ++ Value.anyKeysAny tail), ∃ s, x = Key.str s := hk
    obtain ⟨s, hs⟩ := hk1 k (List.mem_cons_self _ _)
    subst hs
    have hv := ihh hnd1.1 (fun t h => ht1 t (List.mem_append_left _ h))
      (fun x h => hk1 x (List.mem_cons_of_mem _ (List.mem_append_left _ h)))
    simp only at hv
    rw [convertTemplate.anyLoop_cons, hv]
    simp only
    have hnot : s ∉ acc.map Prod.fst := hacc (Key.str s, v) (List.mem_cons_self _ _)
    rw [mapPut_of_not_mem _ _ _ hnot]
    simp only [List.map_cons, List.nodup_cons, Key.asString] at hkeys
    rw [iht hnd1.2 (fun t h => ht1 t (List.mem_append_right _ h))
      (fun x h => hk1 x (List.mem_cons_of_mem _ (List.mem_append_right _ h)))
      (acc ++ [(s, specConvert render ev v)]) ?_ hkeys.2]
    · have hspec : specConvert.anyEntries render ev ((Key.str s, v) :: tail) =
          (s, specConvert render ev v) :: specConvert.anyEntries render ev tail := rfl
      rw [hspec]
      simp
    · intro p hp hmem
      simp only [List.map_append, List.map_cons, List.map_nil, List.mem_append,
        List.mem_singleton] at hmem
      cases hmem with
      | inl h => exact hacc p (List.mem_cons_of_mem _ hp) h
      | inr h => exact hkeys.1 (List.mem_map.mpr ⟨p, hp, h⟩)
  · intro _ _ _ acc _ _
    simp [convertTemplate.strLoop, specConvert.strEntries]
  · intro head tail ihh iht hnd ht hk acc hacc hkeys
    obtain ⟨k, v⟩ := head
    have hnd1 : (v.keysNodup && Value.keysNodupStr tail) = true := hnd
    rw [Bool.and_eq_true] at hnd1
    have ht1 : ∀ t ∈ v.templates ++ Value.templatesStr tail,
        ∃ r, render ev t = Except.ok r := ht
    have hk1 : ∀ x ∈ v.anyKeys ++ Value.anyKeysStr tail, ∃ s, x = Key.str s := hk
    have hv := ihh hnd1.1 (fun t h => ht1 t (List.mem_append_left _ h))
      (fun x h => hk1 x (List.mem_append_left _ h))
    simp only at hv
    rw [convertTemplate.strLoop_cons, hv]
    simp only
    have hnot : k ∉ acc.map Prod.fst := hacc (k, v) (List.mem_cons_self _ _)
    rw [mapPut_of_not_mem _ _ _ hnot]
    simp only [List.map_cons, List.nodup_cons] at hkeys
    rw [iht hnd1.2 (fun t h => ht1 t (List.mem_append_right _ h))
      (fun x h => hk1 x (List.mem_append_right _ h))
      (acc ++ [(k, specConvert render ev v)]) ?_ hkeys.2]
    · have hspec : specConvert.strEntries render ev ((k, v) :: tail) =
          (k, specConvert render ev v) :: specConvert.strEntries render ev tail := rfl
      rw [hspec]
      simp
    · intro p hp hmem
      simp only [List.map_append, List.map_cons, List.map_nil, List.mem_append,
        List.mem_singleton] at hmem
      cases hmem with
      | inl h => exact hacc p (List.mem_cons_of_mem _ hp) h
      | inr h => exact hkeys.1 (List.mem_map.mpr ⟨p, hp, h⟩)
  · intro _ _ _ acc
    simp [convertTemplate.listLoop, specConvert.items]
  · intro head tail ihh iht hnd ht hk acc
    have hnd1 : (head.keysNodup && Value.keysNodupList tail) = true := hnd
    rw [Bool.and_eq_true] at hnd1
    have ht1 : ∀ t ∈ head.templates ++ Value.templatesList tail,
        ∃ r, render ev t = Except.ok r := ht
    have hk1 : ∀ x ∈ head.anyKeys ++ Value.anyKeysList tail, ∃ s, x = Key.str s := hk
    have hv := ihh hnd1.1 (fun t h => ht1 t (List.mem_append_left _ h))
      (fun x h => hk1 x (List.mem_append_left _ h))
    rw [convertTemplate.listLoop_cons, hv]
    simp only
    rw [iht hnd1.2 (fun t h => ht1 t (List.mem_append_right _ h))
      (fun x h => hk1 x (List.mem_append_right _ h))]
    have hspec : specConvert.items render ev (head :: tail) =
        specConvert render ev head :: specConvert.items render ev tail := rfl
    rw [hspec]
    simp
  · intro k v ih
    exact ih
  · intro k v ih
    exact ih

/-- When every key of an any-keyed map is a string, `convertTemplate` does not
fault: it returns an error, or a value, and a value only when every template
string rendered. -/
theorem convertTemplate_error_or_rendered
    (render : EnhancedEvent → String → Except String String)
    (ev : EnhancedEvent) (v : Value) :
    (∀ k ∈ v.anyKeys, ∃ s, k = Key.str s) →
    (∃ e, convertTemplate render ev v = Run.done (Except.error e)) ∨
    (∃ v1, convertTemplate render ev v = Run.done (Except.ok v1) ∧
      ∀ t ∈ v.templates, ∃ r, render ev t = Except.ok r) := by
  refine Value.rec
    (motive_1 := fun v => (∀ k ∈ v.anyKeys, ∃ s, k = Key.str s) →
      (∃ e, convertTemplate render ev v = Run.done (Except.error e)) ∨
      (∃ v1, convertTemplate render ev v = Run.done (Except.ok v1) ∧
        ∀ t ∈ v.templates, ∃ r, render ev t = Except.ok r))
    (motive_2 := fun m => (∀ k ∈ Value.anyKeysAny m, ∃ s, k = Key.str s) →
      ∀ acc : List (String × Value),
        (∃ e, convertTemplate.anyLoop render ev m acc = Run.done (Except.error e)) ∨
        (∃ acc1, convertTemplate.anyLoop render ev m acc = Run.done (Except.ok acc1) ∧
          ∀ t ∈ Value.templatesAny m, ∃ r, render ev t = Except.ok r))
    (motive_3 := fun m => (∀ k ∈ Value.anyKeysStr m, ∃ s, k = Key.str s) →
      ∀ acc : List (String × Value),
        (∃ e, convertTemplate.strLoop render ev m acc = Run.done (Except.error e)) ∨
        (∃ acc1, convertTemplate.strLoop render ev m acc = Run.done (Except.ok acc1) ∧
          ∀ t ∈ Value.templatesStr m, ∃ r, render ev t = Except.ok r))
    (motive_4 := fun l => (∀ k ∈ Value.anyKeysList l, ∃ s, k = Key.str s) →
      ∀ acc : List Value,
        (∃ e, convertTemplate.listLoop render ev l acc = Run.done (Except.error e)) ∨
        (∃ acc1, convertTemplate.listLoop render ev l acc = Run.done (Except.ok acc1) ∧
          ∀ t ∈ Value.templatesList l, ∃ r, render ev t = Except.ok r))
    (motive_5 := fun p => (∀ k ∈ p.2.anyKeys, ∃ s, k = Key.str s) →
      (∃ e, convertTemplate render ev p.2 = Run.done (Except.error e)) ∨
      (∃ v1, convertTemplate render ev p.2 = Run.done (Except.ok v1) ∧
        ∀ t ∈ p.2.templates, ∃ r, render ev t = Except.ok r))
    (motive_6 := fun p => (∀ k ∈ p.2.anyKeys, ∃ s, k = Key.str s) →
      (∃ e, convertTemplate render ev p.2 = Run.done (Except.error e)) ∨
      (∃ v1, convertTemplate render ev p.2 = Run.done (Except.ok v1) ∧
        ∀ t ∈ p.2.templates, ∃ r, render ev t = Except.ok r))
    ?_ ?_ ?_ ?_ ?_ ?_ ?_ ?_ ?_ ?_ ?_ ?_ ?_ ?_ v
  · intro _
    exact Or.inr ⟨Value.null, rfl, fun t ht => absurd ht (List.not_mem_nil t)⟩
  · intro s _
    rw [convertTemplate_str]
    cases hr : render ev s with
    | error e => exact Or.inl ⟨e, rfl⟩
    | ok r =>
      refine Or.inr ⟨Value.str r, rfl, ?_⟩
      intro t ht
      have ht1 : t ∈ [s] := ht
      rw [List.mem_singleton] at ht1
      subst ht1
      exact ⟨r, hr⟩
  · intro m ih hk
    rw [convertTemplate_mapAny]
    rcases ih hk [] with ⟨e, he⟩ | ⟨acc1, hacc, ht⟩
    · rw [he]
      exact Or.inl ⟨e, rfl⟩
    · rw [hacc]
      exact Or.inr ⟨Value.mapStr acc1, rfl, ht⟩
  · intro m ih hk
    rw [convertTemplate_mapStr]
    rcases ih hk [] with ⟨e, he⟩ | ⟨acc1, hacc, ht⟩
    · rw [he]
      exact Or.inl ⟨e, rfl⟩
    · rw [hacc]
      exact Or.inr ⟨Value.mapStr acc1, rfl, ht⟩
  · intro l ih hk
    rw [convertTemplate_list]
    rcases ih hk [] with ⟨e, he⟩ | ⟨acc1, hacc, ht⟩
    · rw [he]
      exact Or.inl ⟨e, rfl⟩
    · rw [hacc]
      exact Or.inr ⟨Value.list acc1, rfl, ht⟩
  · intro c _
    exact Or.inr ⟨Value.other c, rfl, fun t ht => absurd ht (List.not_mem_nil t)⟩
  · intro _ acc
    exact Or.inr ⟨acc, rfl, fun t ht => absurd ht (List.not_mem_nil t)⟩
  · intro head tail ihh iht hk acc
    obtain ⟨k, v⟩ := head
    have hk1 : ∀ x ∈ k :: (v.anyKeys ++ Value.anyKeysAny tail), ∃ s, x = Key.str s := hk
    obtain ⟨s, hs⟩ := hk1 k (List.mem_cons_self _ _)
    subst hs
    rw [convertTemplate.anyLoop_cons]
    rcases ihh (fun x h => hk1 x (List.mem_cons_of_mem _ (List.mem_append_left _ h)))
      with ⟨e, he⟩ | ⟨v1, hv1, htv⟩
    · simp only at he
      rw [he]
      exact Or.inl ⟨e, rfl⟩
    · simp only at hv1 htv
      rw [hv1]
      simp only
      rcases iht (fun x h => hk1 x (List.mem_cons_of_mem _ (List.mem_append_right _ h)))
        (mapPut acc s v1) with ⟨e, he⟩ | ⟨acc1, hacc, htt⟩
      · exact Or.inl ⟨e, he⟩
      · refine Or.inr ⟨acc1, hacc, ?_⟩
        intro t ht
        have ht1 : t ∈ v.templates ++ Value.templatesAny tail := ht
        rcases List.mem_append.mp ht1 with h | h
        · exact htv t h
        · exact htt t h
  · intro _ acc
    exact Or.inr ⟨acc, rfl, fun t ht => absurd ht (List.not_mem_nil t)⟩
  · intro head tail ihh iht hk acc
    obtain ⟨k, v⟩ := head
    have hk1 : ∀ x ∈ v.anyKeys ++ Value.anyKeysStr tail, ∃ s, x = Key.str s := hk
    rw [convertTemplate.strLoop_cons]
    rcases ihh (fun x h => hk1 x (List.mem_append_left _ h)) with ⟨e, he⟩ | ⟨v1, hv1, htv⟩
    · simp only at he
      rw [he]
      exact Or.inl ⟨e, rfl⟩
    · simp only at hv1 htv
      rw [hv1]
      simp only
      rcases iht (fun x h => hk1 x (List.mem_append_right _ h))
        (mapPut acc k v1) with ⟨e, he⟩ | ⟨acc1, hacc, htt⟩
      · exact Or.inl ⟨e, he⟩
      · refine Or.inr ⟨acc1, hacc, ?_⟩
        intro t ht
        have ht1 : t ∈ v.templates ++ Value.templatesStr tail := ht
        rcases List.mem_append.mp ht1 with h | h
        · exact htv t h
        · exact htt t h
  · intro _ acc
    exact Or.inr ⟨acc, rfl, fun t ht => absurd ht (List.not_mem_nil t)⟩
  · intro head tail ihh iht hk acc
    have hk1 : ∀ x ∈ head.anyKeys ++ Value.anyKeysList tail, ∃ s, x = Key.str s := hk
    rw [convertTemplate.listLoop_cons]
    rcases ihh (fun x h => hk1 x (List.mem_append_left _ h)) with ⟨e, he⟩ | ⟨v1, hv1, htv⟩
    · rw [he]
      exact Or.inl ⟨e, rfl⟩
    · rw [hv1]
      simp only
      rcases iht (fun x h => hk1 x (List.mem_append_right _ h))
        (acc ++ [v1]) with ⟨e, he⟩ | ⟨acc1, hacc, htt⟩
      · exact Or.inl ⟨e, he⟩
      · refine Or.inr ⟨acc1, hacc, ?_⟩
        intro t ht
        have ht1 : t ∈ head.templates ++ Value.templatesList tail := ht
        rcases List.mem_append.mp ht1 with h | h
        · exact htv t h
        · exact htt t h
  · intro k v ih
    exact ih
  · intro k v ih
    exact ih

/-- The converted entries of a string-keyed map: same keys, converted values,
in order. -/
theorem specConvert.strEntries_eq_map
    (render : EnhancedEvent → String → Except String String) (ev : EnhancedEvent)
    (m : List (String × Value)) :
    specConvert.strEntries render ev m = m.map fun p => (p.1, specConvert render ev p.2) := by
  induction m with
  | nil => rfl
  | cons p rest ih =>
    obtain ⟨k, v⟩ := p
    have h : specConvert.strEntries render ev ((k, v) :: rest) =
        (k, specConvert render ev v) :: specConvert.strEntries render ev rest := rfl
    rw [h, ih]
    rfl

/-- The converted entries of an any-keyed map: the keys as strings, converted
values, in order. -/
theorem specConvert.anyEntries_eq_map
    (render : EnhancedEvent → String → Except String String) (ev : EnhancedEvent)
    (m : List (Key × Value)) :
    specConvert.anyEntries render ev m =
      m.map fun p => (p.1.asString, specConvert render ev p.2) := by
  induction m with
  | nil => rfl
  | cons p rest ih =>
    obtain ⟨k, v⟩ := p
    have h : specConvert.anyEntries render ev ((k, v) :: rest) =
        (k.asString, specConvert render ev v) :: specConvert.anyEntries render ev rest := rfl
    rw [h, ih]
    rfl

/-- The converted elements of a list, in order. -/
theorem specConvert.items_eq_map
    (render : EnhancedEvent → String → Except String String) (ev : EnhancedEvent)
    (l : List Value) :
    specConvert.items render ev l = l.map (specConvert render ev) := by
  induction l with
  | nil => rfl
  | cons v rest ih =>
    have h : specConvert.items render ev (v :: rest) =
        specConvert render ev v :: specConvert.items render ev rest := rfl
    rw [h, ih]
    rfl

/-- C15: for every layout and event such that every template string of the
layout renders without error and every key of a nested any-keyed map is a
string (each map holding each key once, as Go maps do),
`convertLayoutTemplate` returns a map with exactly the keys of the layout in
which each string is replaced by its rendering against the event, each nested
map (any-keyed or string-keyed) becomes a string-keyed map with the same keys
converted recursively, each list becomes a list of the same length with its
elements converted in order, and every other value is returned unchanged; if
some template string fails to render, the result is an error and no map. -/
theorem convertLayoutTemplate_converts
    (render : EnhancedEvent → String → Except String String) (ev : EnhancedEvent)
    (layout : List (String × Value))
    (hwf : (Value.mapStr layout).keysNodup = true)
    (hkeys : ∀ k ∈ (Value.mapStr layout).anyKeys, ∃ s, k = Key.str s) :
    ((∀ t ∈ (Value.mapStr layout).templates, ∃ r, render ev t = Except.ok r) →
      convertLayoutTemplate render layout ev =
        Run.done (Except.ok (layout.map fun p => (p.1, specConvert render ev p.2)))) ∧
    ((∃ t ∈ (Value.mapStr layout).templates, ∃ e, render ev t = Except.error e) →
      ∃ e, convertLayoutTemplate render layout ev = Run.done (Except.error e)) ∧
    (∀ s r, render ev s = Except.ok r →
      specConvert render ev (Value.str s) = Value.str r) ∧
    (∀ m, specConvert render ev (Value.mapAny m) =
      Value.mapStr (m.map fun p => (p.1.asString, specConvert render ev p.2))) ∧
    (∀ m, specConvert render ev (Value.mapStr m) =
      Value.mapStr (m.map fun p => (p.1, specConvert render ev p.2))) ∧
    (∀ l, specConvert render ev (Value.list l) = Value.list (l.map (specConvert render ev))) ∧
    specConvert render ev Value.null = Value.null ∧
    (∀ c, specConvert render ev (Value.other c) = Value.other c) := by
  refine ⟨?_, ?_, ?_, ?_, ?_, ?_, rfl, fun _ => rfl⟩
  · intro hrender
    have h := convertTemplate_eq_spec render ev (Value.mapStr layout) hwf hrender hkeys
    rw [convertTemplate_mapStr] at h
    have hspec : specConvert render ev (Value.mapStr layout) =
        Value.mapStr (specConvert.strEntries render ev layout) := rfl
    rw [hspec, specConvert.strEntries_eq_map] at h
    simp only [convertLayoutTemplate]
    rcases hl : convertTemplate.strLoop render ev layout [] with r | c
    · rw [hl] at h
      cases r with
      | error e => simp at h
      | ok acc =>
        simp only [Run.done.injEq, Except.ok.injEq, Value.mapStr.injEq] at h
        rw [h]
    · rw [hl] at h
      simp at h
  · rintro ⟨t, ht, e, he⟩
    rcases convertTemplate_error_or_rendered render ev (Value.mapStr layout) hkeys with
      ⟨e1, he1⟩ | ⟨v1, _, hall⟩
    · rw [convertTemplate_mapStr] at he1
      simp only [convertLayoutTemplate]
      rcases hl : convertTemplate.strLoop render ev layout [] with r | c
      · rw [hl] at he1
        cases r with
        | error e2 => exact ⟨e2, rfl⟩
        | ok acc => simp at he1
      · rw [hl] at he1
        simp at he1
    · obtain ⟨r, hr⟩ := hall t ht
      rw [hr] at he
      cases he
  · intro s r hr
    have hspec : specConvert render ev (Value.str s) =
        match render ev s with
        | Except.ok rendered => Value.str rendered
        | Except.error _ => Value.str s := rfl
    rw [hspec, hr]
  · intro m
    have hspec : specConvert render ev (Value.mapAny m) =
        Value.mapStr (specConvert.anyEntries render ev m) := rfl
    rw [hspec, specConvert.anyEntries_eq_map]
  · intro m
    have hspec : specConvert render ev (Value.mapStr m) =
        Value.mapStr (specConvert.strEntries render ev m) := rfl
    rw [hspec, specConvert.strEntries_eq_map]
  · intro l
    have hspec : specConvert render ev (Value.list l) =
        Value.list (specConvert.items render ev l) := rfl
    rw [hspec, specConvert.items_eq_map]

/-- Witness of C15: the sample layout converts; the layout with a template that
does not parse gives an error. -/
theorem convertLayoutTemplate_converts_witness :
    (Value.mapStr sampleLayout).keysNodup = true ∧
    (∀ k ∈ (Value.mapStr sampleLayout).anyKeys, ∃ s, k = Key.str s) ∧
    convertLayoutTemplate sampleRender sampleLayout firstEvent =
      Run.done (Except.ok
        [("details", Value.mapStr
            [("message", Value.str "first"),
             ("tags", Value.list [Value.str "sre", Value.str "ops"])]),
         ("eventType", Value.str "kube-event"),
         ("count", Value.other (Scalar.int 3))]) ∧
    ∃ e, convertLayoutTemplate sampleRender brokenLayout firstEvent =
      Run.done (Except.error e) := by
  have hk : ∀ k ∈ (Value.mapStr sampleLayout).anyKeys, ∃ s, k = Key.str s := by
    intro k hk
    have hk1 : k ∈ [Key.str "message", Key.str "tags"] := hk
    simp only [List.mem_cons, List.mem_singleton, List.not_mem_nil, or_false] at hk1
    rcases hk1 with h | h
    · exact ⟨"message", h⟩
    · exact ⟨"tags", h⟩
  have hkb : ∀ k ∈ (Value.mapStr brokenLayout).anyKeys, ∃ s, k = Key.str s := by
    intro k hk
    have hk1 : k ∈ [Key.str "message"] := hk
    simp only [List.mem_singleton] at hk1
    exact ⟨"message", hk1⟩
  have hr : ∀ t ∈ (Value.mapStr sampleLayout).templates,
      ∃ r, sampleRender firstEvent t = Except.ok r := by
    intro t ht
    have ht1 : t ∈ ["\x7b\x7b .Message \x7d\x7d", "sre", "ops", "kube-event"] := ht
    simp only [List.mem_cons, List.mem_singleton, List.not_mem_nil, or_false] at ht1
    rcases ht1 with h | h | h | h <;> subst h
    · exact ⟨"first", rfl⟩
    · exact ⟨"sre", rfl⟩
    · exact ⟨"ops", rfl⟩
    · exact ⟨"kube-event", rfl⟩
  refine ⟨by decide, hk, ?_, ?_⟩
  · rw [(convertLayoutTemplate_converts sampleRender firstEvent sampleLayout (by decide)
      hk).1 hr]
    rfl
  · exact (convertLayoutTemplate_converts sampleRender firstEvent brokenLayout (by decide)
      hkb).2.1 ⟨"\x7b\x7b .Message", List.mem_cons_self _ _, "template: unclosed action", rfl⟩

/-! ### BigQuery sink: nil values -/

/-- The loop of `bigQueryDropNils`, entry by entry. -/
theorem bigQueryDropNils.loop_cons (key : String) (value : Value)
    (rest y : List (String × Value)) :
    bigQueryDropNils.loop ((key, value) :: rest) y =
      if value.isNull then bigQueryDropNils.loop rest y
      else bigQueryDropNils.loop rest (mapPut y key (bigQueryDropNils.stored value)) := by
  cases value <;> rfl

/-- From keys that are pairwise distinct and not yet in `y`, the loop of
`bigQueryDropNils` appends the stored values of the entries that are not nil,
in order. -/
theorem bigQueryDropNils_loop_eq (x y : List (String × Value))
    (hx : (x.map Prod.fst).Nodup) (hy : ∀ p ∈ x, p.1 ∉ y.map Prod.fst) :
    bigQueryDropNils.loop x y =
      y ++ (x.filter fun p => !p.2.isNull).map
        fun p => (p.1, bigQueryDropNils.stored p.2) := by
  induction x generalizing y with
  | nil => simp [bigQueryDropNils.loop]
  | cons p rest ih =>
    obtain ⟨key, value⟩ := p
    simp only [List.map_cons, List.nodup_cons] at hx
    rw [bigQueryDropNils.loop_cons]
    by_cases hnull : value.isNull = true
    · simp only [hnull, if_true]
      rw [ih y hx.2 (fun p hp => hy p (List.mem_cons_of_mem _ hp))]
      simp [List.filter_cons, hnull]
    · simp only [hnull, if_false]
      have hnot : key ∉ y.map Prod.fst := hy (key, value) (List.mem_cons_self _ _)
      have hdis : ∀ p ∈ rest,
          p.1 ∉ (y ++ [(key, bigQueryDropNils.stored value)]).map Prod.fst := by
        intro p hp hmem
        simp only [List.map_append, List.map_cons, List.map_nil, List.mem_append,
          List.mem_singleton] at hmem
        cases hmem with
        | inl h => exact hy p (List.mem_cons_of_mem _ hp) h
        | inr h => exact hx.1 (List.mem_map.mpr ⟨p, hp, h⟩)
      rw [mapPut_of_not_mem _ _ _ hnot, ih _ hx.2 hdis]
      simp [List.filter_cons, hnull]

/-- Storing a value that is not nil and has no nil in its maps keeps a map
free of nil values. -/
theorem Value.noNilEntries_mapPut (y : List (String × Value)) (key : String) (v : Value)
    (hy : Value.noNilEntries y = true) (hv : v.isNull = false)
    (hm : v.noNilInMaps = true) : Value.noNilEntries (mapPut y key v) = true := by
  induction y with
  | nil =>
    have h : Value.noNilEntries [(key, v)] =
        (!v.isNull && v.noNilInMaps && Value.noNilEntries []) := rfl
    have h0 : Value.noNilEntries [] = true := rfl
    simp [mapPut, h, h0, hv, hm]
  | cons p rest ih =>
    obtain ⟨k0, v0⟩ := p
    have hunf : Value.noNilEntries ((k0, v0) :: rest) =
        (!v0.isNull && v0.noNilInMaps && Value.noNilEntries rest) := rfl
    rw [hunf] at hy
    simp only [Bool.and_eq_true] at hy
    by_cases hk : k0 = key
    · have h : Value.noNilEntries ((k0, v) :: rest) =
          (!v.isNull && v.noNilInMaps && Value.noNilEntries rest) := rfl
      simp [mapPut, hk, h, hv, hm, hy.2]
      rw [← hk]
      simp [h, hv, hm, hy.2]
    · have h : Value.noNilEntries ((k0, v0) :: mapPut rest key v) =
          (!v0.isNull && v0.noNilInMaps && Value.noNilEntries (mapPut rest key v)) := rfl
      simp only [mapPut, hk, if_false]
      rw [h, ih hy.2]
      simp [hy.1.1, hy.1.2]

/-- The loop of `bigQueryDropNils` keeps a map free of nil values, at every
depth of nested string-keyed maps. -/
theorem bigQueryDropNils.loop_noNil (x : List (String × Value)) :
    ∀ y, Value.noNilEntries y = true →
      Value.noNilEntries (bigQueryDropNils.loop x y) = true := by
  refine Value.rec_2
    (motive_1 := fun v => (bigQueryDropNils.stored v).noNilInMaps = true ∧
      (v.isNull = false → (bigQueryDropNils.stored v).isNull = false))
    (motive_2 := fun _ => True)
    (motive_3 := fun m => ∀ y, Value.noNilEntries y = true →
      Value.noNilEntries (bigQueryDropNils.loop m y) = true)
    (motive_4 := fun _ => True)
    (motive_5 := fun _ => True)
    (motive_6 := fun p => (bigQueryDropNils.stored p.2).noNilInMaps = true ∧
      (p.2.isNull = false → (bigQueryDropNils.stored p.2).isNull = false))
    ?_ ?_ ?_ ?_ ?_ ?_ ?_ ?_ ?_ ?_ ?_ ?_ ?_ ?_ x
  · exact ⟨rfl, fun h => by cases h⟩
  · intro s
    exact ⟨rfl, fun _ => rfl⟩
  · intro m _
    exact ⟨rfl, fun _ => rfl⟩
  · intro m ih
    exact ⟨ih [] rfl, fun _ => rfl⟩
  · intro l _
    exact ⟨rfl, fun _ => rfl⟩
  · intro c
    exact ⟨rfl, fun _ => rfl⟩
  · trivial
  · intro _ _ _ _
    trivial
  · intro y hy
    exact hy
  · intro head tail ihh iht y hy
    obtain ⟨key, value⟩ := head
    rw [bigQueryDropNils.loop_cons]
    by_cases hnull : value.isNull = true
    · simp only [hnull, if_true]
      exact iht y hy
    · simp only [hnull, if_false]
      have hfalse : value.isNull = false := by simpa using hnull
      exact iht _ (Value.noNilEntries_mapPut y key _ hy (ihh.2 hfalse) ihh.1)
  · trivial
  · intro _ _ _ _
    trivial
  · intro _ _ _
    trivial
  · intro k v ih
    exact ih

/-- C17: for every string-keyed map `x` (holding each key once),
`bigQueryDropNils(x)` has exactly the keys of `x` whose value is not nil; a
value that is itself a string-keyed map is replaced by `bigQueryDropNils` of it
and every other value is unchanged, so no key with a nil value remains at any
depth of nested maps; `x` itself is as it was. -/
theorem bigQueryDropNils_spec (x : List (String × Value))
    (hkeys : (x.map Prod.fst).Nodup) :
    bigQueryDropNils x =
      (x.filter fun p => !p.2.isNull).map
        (fun p => (p.1, bigQueryDropNils.stored p.2)) ∧
    (∀ k, k ∈ (bigQueryDropNils x).map Prod.fst ↔ ∃ v, (k, v) ∈ x ∧ v.isNull = false) ∧
    (∀ m, bigQueryDropNils.stored (Value.mapStr m) = Value.mapStr (bigQueryDropNils m)) ∧
    (∀ v, (∀ m, v ≠ Value.mapStr m) → bigQueryDropNils.stored v = v) ∧
    Value.noNilEntries (bigQueryDropNils x) = true ∧
    (bigQueryDropNils.call x).1 = x ∧
    (bigQueryDropNils.call x).2 = bigQueryDropNils x := by
  have heq : bigQueryDropNils x =
      (x.filter fun p => !p.2.isNull).map
        (fun p => (p.1, bigQueryDropNils.stored p.2)) := by
    have h := bigQueryDropNils_loop_eq x [] hkeys (by simp)
    simpa [bigQueryDropNils] using h
  refine ⟨heq, ?_, fun _ => rfl, ?_, bigQueryDropNils.loop_noNil x [] rfl, rfl, rfl⟩
  · intro k
    rw [heq]
    simp only [List.map_map, List.mem_map, List.mem_filter, Function.comp]
    constructor
    · rintro ⟨p, ⟨hp, hn⟩, hk⟩
      refine ⟨p.2, ?_, by simpa using hn⟩
      rw [← hk]
      exact hp
    · rintro ⟨v, hv, hn⟩
      exact ⟨(k, v), ⟨hv, by simp [hn]⟩, rfl⟩
  · intro v hv
    cases v with
    | mapStr m => exact absurd rfl (hv m)
    | _ => rfl

/-- Witness of C17: a row with nil values at two depths. -/
theorem bigQueryDropNils_spec_witness :
    (sampleRow.map Prod.fst).Nodup ∧
    bigQueryDropNils sampleRow =
      [("reason", Value.str "Started"),
       ("metadata", Value.mapStr
          [("name", Value.str "web-0.17"), ("labels", Value.mapStr [])]),
       ("tags", Value.list [Value.null])] ∧
    Value.noNilEntries (bigQueryDropNils sampleRow) = true ∧
    (bigQueryDropNils.call sampleRow).1 = sampleRow := by
  have h := bigQueryDropNils_spec sampleRow (by decide)
  exact ⟨by decide, rfl, h.2.2.2.2.1, h.2.2.2.2.2.1⟩

/-! ### BigQuery sink: keys of a map -/

/-- The keys after a map assignment: unchanged when the key is held, the key
added at the end otherwise. -/
theorem mapPut_keys {κ ν : Type} [DecidableEq κ] (m : List (κ × ν)) (k : κ) (v : ν) :
    (mapPut m k v).map Prod.fst =
      if k ∈ m.map Prod.fst then m.map Prod.fst else m.map Prod.fst ++ [k] := by
  induction m with
  | nil => simp [mapPut]
  | cons p rest ih =>
    obtain ⟨k0, v0⟩ := p
    by_cases hk : k0 = k
    · simp [mapPut, hk]
    · have hk1 : ¬ k = k0 := fun hc => hk hc.symm
      simp only [mapPut, hk, if_false, List.map_cons, ih, List.mem_cons, hk1, false_or]
      split_ifs <;> simp

/-- A map assignment keeps the keys pairwise distinct. -/
theorem mapPut_nodup {κ ν : Type} [DecidableEq κ] (m : List (κ × ν)) (k : κ) (v : ν)
    (h : (m.map Prod.fst).Nodup) : ((mapPut m k v).map Prod.fst).Nodup := by
  rw [mapPut_keys]
  split_ifs with hk
  · exact h
  · rw [List.nodup_append]
    refine ⟨h, List.nodup_singleton k, ?_⟩
    intro a ha hb
    rw [List.mem_singleton] at hb
    subst hb
    exact hk ha

/-- The keys after a map assignment are the key and the keys held before. -/
theorem mapPut_mem_keys {κ ν : Type} [DecidableEq κ] (m : List (κ × ν)) (k a : κ) (v : ν) :
    a ∈ (mapPut m k v).map Prod.fst ↔ a = k ∨ a ∈ m.map Prod.fst := by
  rw [mapPut_keys]
  split_ifs with hk
  · constructor
    · intro h
      exact Or.inr h
    · rintro (h | h)
      · rw [h]
        exact hk
      · exact h
  · simp only [List.mem_append, List.mem_singleton]
    constructor
    · rintro (h | h)
      · exact Or.inr h
      · exact Or.inl h
    · rintro (h | h)
      · exact Or.inr h
      · exact Or.inl h

/-- A map assignment adds at most one entry. -/
theorem mapPut_length_le {κ ν : Type} [DecidableEq κ] (m : List (κ × ν)) (k : κ) (v : ν) :
    (mapPut m k v).length ≤ m.length + 1 := by
  have h := congrArg List.length (mapPut_keys m k v)
  simp only [List.length_map] at h
  rw [h]
  split_ifs <;> simp

/-- On a key that is not empty `bigQuerySanitizeKey` returns the fixed key. -/
theorem bigQuerySanitizeKey_of_nonempty (U : UnicodeTables) (key : String)
    (h : key.data.isEmpty = false) :
    bigQuerySanitizeKey U key = Run.done (specSanitizedKey U key) := by
  simp only [specSanitizedKey, bigQuerySanitizeKey]
  cases hd : key.data with
  | nil => simp [hd] at h
  | cons c rest => simp

/-- When `bigQuerySanitizeKey` returns, it returns the fixed key. -/
theorem bigQuerySanitizeKey_done (U : UnicodeTables) (key fixedKey : String)
    (h : bigQuerySanitizeKey U key = Run.done fixedKey) :
    fixedKey = specSanitizedKey U key := by
  simp only [specSanitizedKey, h]

/-- The loop of `bigQuerySanitizeKeys`, entry by entry. -/
theorem bigQuerySanitizeKeys.loop_step (U : UnicodeTables) (key : String) (value : Value)
    (rest y : List (String × Value)) :
    bigQuerySanitizeKeys.loop U ((key, value) :: rest) y =
      match bigQuerySanitizeKey U key with
      | Run.crash r => Run.crash r
      | Run.done fixedKey =>
        match bigQuerySanitizeKeys.stored U value with
        | Run.crash r => Run.crash r
        | Run.done v => bigQuerySanitizeKeys.loop U rest (mapPut y fixedKey v) :=
  rfl

/-- The entries of the specification: each entry under its fixed key, with its
value fixed, in order. -/
theorem specSanitizeEntries_eq_map (U : UnicodeTables) (x : List (String × Value)) :
    specSanitizeEntries U x =
      x.map fun p => (specSanitizedKey U p.1, specSanitizeValue U p.2) := by
  induction x with
  | nil => rfl
  | cons p rest ih =>
    obtain ⟨k, v⟩ := p
    have h : specSanitizeEntries U ((k, v) :: rest) =
        (specSanitizedKey U k, specSanitizeValue U v) :: specSanitizeEntries U rest := rfl
    rw [h, ih]
    rfl

/-- Whenever the loop of `bigQuerySanitizeKeys` returns, the keys of the result
are pairwise distinct and are the keys held before together with the fixed
keys of the entries; no entry is added beyond one per entry of `x`. -/
theorem bigQuerySanitizeKeys.loop_keys (U : UnicodeTables) (x : List (String × Value)) :
    ∀ acc y : List (String × Value),
      bigQuerySanitizeKeys.loop U x acc = Run.done y → (acc.map Prod.fst).Nodup →
      (y.map Prod.fst).Nodup ∧
      (∀ k, k ∈ y.map Prod.fst ↔
        k ∈ acc.map Prod.fst ∨ ∃ p ∈ x, specSanitizedKey U p.1 = k) ∧
      y.length ≤ acc.length + x.length := by
  induction x with
  | nil =>
    intro acc y h hacc
    simp only [bigQuerySanitizeKeys.loop, Run.done.injEq] at h
    subst h
    exact ⟨hacc, by simp, by simp⟩
  | cons p rest ih =>
    intro acc y h hacc
    obtain ⟨key, value⟩ := p
    rw [bigQuerySanitizeKeys.loop_step] at h
    cases hk : bigQuerySanitizeKey U key with
    | crash r =>
      rw [hk] at h
      cases h
    | done fixedKey =>
      rw [hk] at h
      simp only at h
      cases hs : bigQuerySanitizeKeys.stored U value with
      | crash r =>
        rw [hs] at h
        cases h
      | done v =>
        rw [hs] at h
        simp only at h
        have hfix := bigQuerySanitizeKey_done U key fixedKey hk
        obtain ⟨h1, h2, h3⟩ := ih _ y h (mapPut_nodup acc fixedKey v hacc)
        refine ⟨h1, ?_, ?_⟩
        · intro k
          rw [h2, mapPut_mem_keys]
          constructor
          · rintro ((h | h) | ⟨q, hq, hqk⟩)
            · exact Or.inr ⟨(key, value), List.mem_cons_self _ _, by rw [h, hfix]⟩
            · exact Or.inl h
            · exact Or.inr ⟨q, List.mem_cons_of_mem _ hq, hqk⟩
          · rintro (h | ⟨q, hq, hqk⟩)
            · exact Or.inl (Or.inr h)
            · rw [List.mem_cons] at hq
              rcases hq with hq | hq
              · subst hq
                exact Or.inl (Or.inl (by rw [← hqk, hfix]))
              · exact Or.inr ⟨q, hq, hqk⟩
        · have hl := mapPut_length_le acc fixedKey v
          simp only [List.length_cons]
          omega

/-- When no key is empty and the fixed keys are pairwise distinct in every
string-keyed map reached through string-keyed maps, the loop of
`bigQuerySanitizeKeys` appends every entry under its fixed key, in order. -/
theorem bigQuerySanitizeKeys.loop_apart (U : UnicodeTables) (x : List (String × Value)) :
    Value.sanitizesApartEntries U x = true →
    (∀ p ∈ x, p.1.data.isEmpty = false) →
    (x.map fun p => specSanitizedKey U p.1).Nodup →
    ∀ acc : List (String × Value),
      (∀ p ∈ x, specSanitizedKey U p.1 ∉ acc.map Prod.fst) →
      bigQuerySanitizeKeys.loop U x acc = Run.done (acc ++ specSanitizeEntries U x) := by
  refine Value.rec_2
    (motive_1 := fun v => Value.sanitizesApart U v = true →
      bigQuerySanitizeKeys.stored U v = Run.done (specSanitizeValue U v))
    (motive_2 := fun _ => True)
    (motive_3 := fun m => Value.sanitizesApartEntries U m = true →
      (∀ p ∈ m, p.1.data.isEmpty = false) →
      (m.map fun p => specSanitizedKey U p.1).Nodup →
      ∀ acc : List (String × Value),
        (∀ p ∈ m, specSanitizedKey U p.1 ∉ acc.map Prod.fst) →
        bigQuerySanitizeKeys.loop U m acc = Run.done (acc ++ specSanitizeEntries U m))
    (motive_4 := fun _ => True)
    (motive_5 := fun _ => True)
    (motive_6 := fun p => Value.sanitizesApart U p.2 = true →
      bigQuerySanitizeKeys.stored U p.2 = Run.done (specSanitizeValue U p.2))
    ?_ ?_ ?_ ?_ ?_ ?_ ?_ ?_ ?_ ?_ ?_ ?_ ?_ ?_ x
  · intro _
    rfl
  · intro s _
    rfl
  · intro m _ _
    rfl
  · intro m ih h
    have h1 : (m.all (fun p => !p.1.data.isEmpty) &&
        decide ((m.map fun p => specSanitizedKey U p.1).Nodup) &&
        Value.sanitizesApartEntries U m) = true := h
    simp only [Bool.and_eq_true, List.all_eq_true, decide_eq_true_iff] at h1
    obtain ⟨⟨hne, hnd⟩, hent⟩ := h1
    have hloop := ih hent (fun p hp => by simpa using hne p hp) hnd [] (by simp)
    have hunf : bigQuerySanitizeKeys.stored U (Value.mapStr m) =
        match bigQuerySanitizeKeys.loop U m [] with
        | Run.done y => Run.done (Value.mapStr y)
        | Run.crash r => Run.crash r := rfl
    rw [hunf, hloop]
    rfl
  · intro l _ _
    rfl
  · intro c _
    rfl
  · trivial
  · intro _ _ _ _
    trivial
  · intro _ _ _ acc _
    simp [bigQuerySanitizeKeys.loop, specSanitizeEntries]
  · intro head tail ihh iht hent hne hnd acc hacc
    obtain ⟨key, value⟩ := head
    have hent1 : (Value.sanitizesApart U value && Value.sanitizesApartEntries U tail) = true :=
      hent
    rw [Bool.and_eq_true] at hent1
    simp only [List.map_cons, List.nodup_cons] at hnd
    have hkey := bigQuerySanitizeKey_of_nonempty U key (hne (key, value) (List.mem_cons_self _ _))
    have hval := ihh hent1.1
    simp only at hval
    rw [bigQuerySanitizeKeys.loop_step, hkey]
    simp only
    rw [hval]
    simp only
    have hnot : specSanitizedKey U key ∉ acc.map Prod.fst :=
      hacc (key, value) (List.mem_cons_self _ _)
    rw [mapPut_of_not_mem _ _ _ hnot]
    have hdis : ∀ p ∈ tail, specSanitizedKey U p.1 ∉
        (acc ++ [(specSanitizedKey U key, specSanitizeValue U value)]).map Prod.fst := by
      intro p hp hmem
      simp only [List.map_append, List.map_cons, List.map_nil, List.mem_append,
        List.mem_singleton] at hmem
      cases hmem with
      | inl h => exact hacc p (List.mem_cons_of_mem _ hp) h
      | inr h => exact hnd.1 (List.mem_map.mpr ⟨p, hp, h⟩)
    rw [iht hent1.2 (fun p hp => hne p (List.mem_cons_of_mem _ hp)) hnd.2 _ hdis]
    have hspec : specSanitizeEntries U ((key, value) :: tail) =
        (specSanitizedKey U key, specSanitizeValue U value) :: specSanitizeEntries U tail :=
      rfl
    rw [hspec]
    simp
  · trivial
  · intro _ _ _ _
    trivial
  · intro _ _ _
    trivial
  · intro k v ih
    exact ih

/-- C21 (as stated, refuted): the map with the two distinct, non-empty keys
`a-b` and `a_b` has two entries; both keys are fixed to `a_b`, and
`bigQuerySanitizeKeys` returns a map with the single key `a_b`, holding the
value of whichever entry the loop visits last. -/
theorem bigQuerySanitizeKeys_merges_keys :
    (clashingRow.map Prod.fst).Nodup ∧
    clashingRow.all (fun p => !p.1.data.isEmpty) = true ∧
    clashingRow.length = 2 ∧
    bigQuerySanitizeKey unicodeExcerpt "a-b" = Run.done "a_b" ∧
    bigQuerySanitizeKey unicodeExcerpt "a_b" = Run.done "a_b" ∧
    bigQuerySanitizeKeys unicodeExcerpt clashingRow =
      Run.done [("a_b", Value.other (Scalar.int 2))] ∧
    bigQuerySanitizeKeys unicodeExcerpt clashingRow.reverse =
      Run.done [("a_b", Value.other (Scalar.int 1))] := by
  refine ⟨by decide, by decide, by decide, by decide, by decide, rfl, rfl⟩

/-- C21 (amended): for every string-keyed map `x` in which, at every nesting
level of string-keyed maps, no key is empty and the fixed keys are pairwise
distinct, `bigQuerySanitizeKeys(x)` keeps every entry of `x`: the result has as
many keys as `x` at every nesting level and holds, under
`bigQuerySanitizeKey(k)`, the value of `x` at `k`, fixed recursively when it is
a string-keyed map. In general, whenever `bigQuerySanitizeKeys` returns, the
keys of the result are exactly the fixed keys of `x`, each once: the result
never has more keys than `x`, and keys with the same fixed key are merged. -/
theorem bigQuerySanitizeKeys_keeps_entries (U : UnicodeTables) (x : List (String × Value))
    (h : Value.sanitizesApart U (Value.mapStr x) = true) :
    bigQuerySanitizeKeys U x =
      Run.done (x.map fun p => (specSanitizedKey U p.1, specSanitizeValue U p.2)) ∧
    (∀ y, bigQuerySanitizeKeys U x = Run.done y →
      y.length = x.length ∧
      y.map Prod.fst = x.map (fun p => specSanitizedKey U p.1) ∧
      (y.map Prod.fst).Nodup) ∧
    (∀ m, specSanitizeValue U (Value.mapStr m) =
      Value.mapStr (m.map fun p => (specSanitizedKey U p.1, specSanitizeValue U p.2))) ∧
    (∀ v, (∀ m, v ≠ Value.mapStr m) → specSanitizeValue U v = v) ∧
    (∀ k, k.data.isEmpty = false → bigQuerySanitizeKey U k = Run.done (specSanitizedKey U k)) ∧
    (∀ x1 y1 : List (String × Value), bigQuerySanitizeKeys U x1 = Run.done y1 →
      (y1.map Prod.fst).Nodup ∧
      (∀ k, k ∈ y1.map Prod.fst ↔ ∃ p ∈ x1, specSanitizedKey U p.1 = k) ∧
      y1.length ≤ x1.length) := by
  have h1 : (x.all (fun p => !p.1.data.isEmpty) &&
      decide ((x.map fun p => specSanitizedKey U p.1).Nodup) &&
      Value.sanitizesApartEntries U x) = true := h
  simp only [Bool.and_eq_true, List.all_eq_true, decide_eq_true_iff] at h1
  obtain ⟨⟨hne, hnd⟩, hent⟩ := h1
  have hrun : bigQuerySanitizeKeys U x =
      Run.done (x.map fun p => (specSanitizedKey U p.1, specSanitizeValue U p.2)) := by
    have hl := bigQuerySanitizeKeys.loop_apart U x hent
      (fun p hp => by simpa using hne p hp) hnd [] (by simp)
    rw [specSanitizeEntries_eq_map] at hl
    simpa [bigQuerySanitizeKeys] using hl
  refine ⟨hrun, ?_, ?_, ?_, bigQuerySanitizeKey_of_nonempty U, ?_⟩
  · intro y hy
    rw [hrun] at hy
    simp only [Run.done.injEq] at hy
    subst hy
    refine ⟨by simp, by simp [List.map_map, Function.comp], ?_⟩
    simpa [List.map_map, Function.comp] using hnd
  · intro m
    have hspec : specSanitizeValue U (Value.mapStr m) =
        Value.mapStr (specSanitizeEntries U m) := rfl
    rw [hspec, specSanitizeEntries_eq_map]
  · intro v hv
    cases v with
    | mapStr m => exact absurd rfl (hv m)
    | _ => rfl
  · intro x1 y1 hy
    have hk := bigQuerySanitizeKeys.loop_keys U x1 [] y1 hy (by simp)
    refine ⟨hk.1, ?_, by simpa using hk.2.2⟩
    intro k
    rw [hk.2.1 k]
    simp

/-- Witness of C21 (amended): a row with a nested label map whose fixed keys
are pairwise distinct. -/
theorem bigQuerySanitizeKeys_keeps_entries_witness :
    Value.sanitizesApart unicodeExcerpt (Value.mapStr labelledRow) = true ∧
    bigQuerySanitizeKeys unicodeExcerpt labelledRow =
      Run.done
        [("reason", Value.str "Started"),
         ("labels", Value.mapStr
            [("app_kubernetes_io_name", Value.str "web"), ("_2nd", Value.str "x")])] ∧
    (∀ y, bigQuerySanitizeKeys unicodeExcerpt labelledRow = Run.done y →
      y.length = labelledRow.length) := by
  have h := bigQuerySanitizeKeys_keeps_entries unicodeExcerpt labelledRow (by decide)
  exact ⟨by decide, rfl, fun y hy => (h.2.1 y hy).1⟩

/-! ### BigQuery sink: the batch handler -/

/-- The test for empty keys, entry by entry. -/
theorem Value.keysNonemptyEntries_cons (k : String) (v : Value)
    (rest : List (String × Value)) :
    Value.keysNonemptyEntries ((k, v) :: rest) =
      (!k.data.isEmpty && v.keysNonempty && Value.keysNonemptyEntries rest) :=
  rfl

/-- Storing a value without empty keys under a key that is not empty keeps a
map free of empty keys. -/
theorem Value.keysNonemptyEntries_mapPut (y : List (String × Value)) (key : String)
    (v : Value) (hy : Value.keysNonemptyEntries y = true) (hk : key.data.isEmpty = false)
    (hv : v.keysNonempty = true) : Value.keysNonemptyEntries (mapPut y key v) = true := by
  induction y with
  | nil =>
    have h0 : Value.keysNonemptyEntries [] = true := rfl
    simp [mapPut, Value.keysNonemptyEntries_cons, h0, hk, hv]
  | cons p rest ih =>
    obtain ⟨k0, v0⟩ := p
    rw [Value.keysNonemptyEntries_cons] at hy
    simp only [Bool.and_eq_true] at hy
    by_cases hk0 : k0 = key
    · simp only [mapPut, hk0, if_true]
      rw [Value.keysNonemptyEntries_cons]
      simp [hk, hv, hy.2]
    · simp only [mapPut, hk0, if_false]
      rw [Value.keysNonemptyEntries_cons, ih hy.2]
      simp [hy.1.1, hy.1.2]

/-- The loop of `bigQueryDropNils` on a map without empty keys keeps a map
free of empty keys, at every depth of nested string-keyed maps. -/
theorem bigQueryDropNils_loop_keysNonempty (x : List (String × Value)) :
    Value.keysNonemptyEntries x = true → ∀ y, Value.keysNonemptyEntries y = true →
      Value.keysNonemptyEntries (bigQueryDropNils.loop x y) = true := by
  refine Value.rec_2
    (motive_1 := fun v => v.keysNonempty = true →
      (bigQueryDropNils.stored v).keysNonempty = true)
    (motive_2 := fun _ => True)
    (motive_3 := fun m => Value.keysNonemptyEntries m = true →
      ∀ y, Value.keysNonemptyEntries y = true →
        Value.keysNonemptyEntries (bigQueryDropNils.loop m y) = true)
    (motive_4 := fun _ => True)
    (motive_5 := fun _ => True)
    (motive_6 := fun p => p.2.keysNonempty = true →
      (bigQueryDropNils.stored p.2).keysNonempty = true)
    ?_ ?_ ?_ ?_ ?_ ?_ ?_ ?_ ?_ ?_ ?_ ?_ ?_ ?_ x
  · intro _
    rfl
  · intro s _
    rfl
  · intro m _ _
    rfl
  · intro m ih hm
    exact ih hm [] rfl
  · intro l _ _
    rfl
  · intro c _
    rfl
  · trivial
  · intro _ _ _ _
    trivial
  · intro _ y hy
    exact hy
  · intro head tail ihh iht hx y hy
    obtain ⟨key, value⟩ := head
    rw [Value.keysNonemptyEntries_cons] at hx
    simp only [Bool.and_eq_true, Bool.not_eq_true'] at hx
    rw [bigQueryDropNils.loop_cons]
    by_cases hnull : value.isNull = true
    · simp only [hnull, if_true]
      exact iht hx.2 y hy
    · simp only [hnull, if_false]
      exact iht hx.2 _ (Value.keysNonemptyEntries_mapPut y key _ hy hx.1.1 (ihh hx.1.2))
  · trivial
  · intro _ _ _ _
    trivial
  · intro _ _ _
    trivial
  · intro k v ih
    exact ih

/-- On a map without empty keys the loop of `bigQuerySanitizeKeys` returns,
from every map `acc`. -/
theorem bigQuerySanitizeKeys_loop_returns (U : UnicodeTables) (x : List (String × Value)) :
    Value.keysNonemptyEntries x = true →
      ∀ acc, ∃ y, bigQuerySanitizeKeys.loop U x acc = Run.done y := by
  refine Value.rec_2
    (motive_1 := fun v => v.keysNonempty = true →
      ∃ w, bigQuerySanitizeKeys.stored U v = Run.done w)
    (motive_2 := fun _ => True)
    (motive_3 := fun m => Value.keysNonemptyEntries m = true →
      ∀ acc, ∃ y, bigQuerySanitizeKeys.loop U m acc = Run.done y)
    (motive_4 := fun _ => True)
    (motive_5 := fun _ => True)
    (motive_6 := fun p => p.2.keysNonempty = true →
      ∃ w, bigQuerySanitizeKeys.stored U p.2 = Run.done w)
    ?_ ?_ ?_ ?_ ?_ ?_ ?_ ?_ ?_ ?_ ?_ ?_ ?_ ?_ x
  · intro _
    exact ⟨_, rfl⟩
  · intro s _
    exact ⟨_, rfl⟩
  · intro m _ _
    exact ⟨_, rfl⟩
  · intro m ih hm
    obtain ⟨y, hy⟩ := ih hm []
    have hunf : bigQuerySanitizeKeys.stored U (Value.mapStr m) =
        match bigQuerySanitizeKeys.loop U m [] with
        | Run.done y => Run.done (Value.mapStr y)
        | Run.crash r => Run.crash r := rfl
    rw [hunf, hy]
    exact ⟨_, rfl⟩
  · intro l _ _
    exact ⟨_, rfl⟩
  · intro c _
    exact ⟨_, rfl⟩
  · trivial
  · intro _ _ _ _
    trivial
  · intro _ acc
    exact ⟨acc, rfl⟩
  · intro head tail ihh iht hx acc
    obtain ⟨key, value⟩ := head
    rw [Value.keysNonemptyEntries_cons] at hx
    simp only [Bool.and_eq_true, Bool.not_eq_true'] at hx
    obtain ⟨w, hw⟩ := ihh hx.1.2
    rw [bigQuerySanitizeKeys.loop_step, bigQuerySanitizeKey_of_nonempty U key hx.1.1]
    simp only [hw]
    exact iht hx.2 _
  · trivial
  · intro _ _ _ _
    trivial
  · intro _ _ _
    trivial
  · intro k v ih
    exact ih

/-- On a batch of events whose decoded maps have no empty key, the loop of
`bigQueryWriteBatchToJsonFile` returns, with one more row per item. -/
theorem bigQueryWriteBatchToJsonFile_loop_returns (U : UnicodeTables)
    (decode : EnhancedEvent → List (String × Value)) (items : List BatchItem)
    (hitems : ∀ item ∈ items, ∃ ev, item = BatchItem.event ev ∧
      Value.keysNonemptyEntries (decode ev) = true) :
    ∀ written, ∃ rows,
      bigQueryWriteBatchToJsonFile.loop U decode items written = Run.done rows ∧
      rows.length = written.length + items.length := by
  induction items with
  | nil =>
    intro written
    exact ⟨written, rfl, rfl⟩
  | cons item rest ih =>
    intro written
    obtain ⟨ev, hev, hkeys⟩ := hitems item (List.mem_cons_self _ _)
    subst hev
    have hdrop : Value.keysNonemptyEntries (bigQueryDropNils (decode ev)) = true :=
      bigQueryDropNils_loop_keysNonempty (decode ev) hkeys [] rfl
    obtain ⟨row, hrow⟩ :=
      bigQuerySanitizeKeys_loop_returns U (bigQueryDropNils (decode ev)) hdrop []
    have hrow1 : bigQuerySanitizeKeys U (bigQueryDropNils (decode ev)) = Run.done row := hrow
    obtain ⟨rows, hrows, hlen⟩ :=
      ih (fun it hit => hitems it (List.mem_cons_of_mem _ hit)) (written ++ [row])
    refine ⟨rows, ?_, ?_⟩
    · simp only [bigQueryWriteBatchToJsonFile.loop, hrow1]
      exact hrows
    · rw [hlen]
      simp only [List.length_append, List.length_cons, List.length_nil]
      omega

/-- Whenever the batch handler returns, every item is reported as succeeded. -/
theorem bigQueryHandleBatch_res (U : UnicodeTables)
    (decode : EnhancedEvent → List (String × Value)) (items : List BatchItem)
    (createErr flushErr importErr removeErr : Option String) (out : BatchOutcome)
    (h : bigQueryHandleBatch U decode items createErr flushErr importErr removeErr =
      Run.done out) :
    out.res = List.replicate items.length true := by
  have hfold := foldl_set_true items.length items.length (Nat.le_refl _)
  simp only [Nat.sub_self, List.replicate_zero, List.append_nil] at hfold
  simp only [bigQueryHandleBatch] at h
  cases hw : bigQueryWriteBatchToJsonFile U decode items createErr flushErr with
  | crash r => simp [hw] at h
  | done p =>
    obtain ⟨writeErr, written⟩ := p
    rw [hw] at h
    cases importErr <;> cases removeErr <;> simp only [Run.done.injEq] at h <;>
      rw [← h] <;> exact hfold

/-- C20 (as stated, refuted): the batch handler does not return a result for
every batch of items. On a batch of one event whose decoded map has a label
with the empty key, and on a batch that holds an item that is not an event,
with a batch file that can be created, the handler faults inside
`bigQueryWriteBatchToJsonFile` and reports nothing. -/
theorem bigQueryHandleBatch_faults_on_some_batches :
    bigQueryHandleBatch unicodeExcerpt emptyKeyDecode [BatchItem.event firstEvent]
        none none none none =
      Run.crash "index out of range [0] with length 0" ∧
    bigQueryHandleBatch unicodeExcerpt sampleDecode
        [BatchItem.event firstEvent, BatchItem.other (Value.str "second")]
        none none none none =
      Run.crash "interface conversion: interface \x7b\x7d is not *kube.EnhancedEvent" ∧
    (¬ ∃ out, bigQueryHandleBatch unicodeExcerpt emptyKeyDecode [BatchItem.event firstEvent]
        none none none none = Run.done out) ∧
    (¬ ∃ out, bigQueryHandleBatch unicodeExcerpt sampleDecode
        [BatchItem.event firstEvent, BatchItem.other (Value.str "second")]
        none none none none = Run.done out) := by
  have h1 : bigQueryHandleBatch unicodeExcerpt emptyKeyDecode [BatchItem.event firstEvent]
      none none none none = Run.crash "index out of range [0] with length 0" := rfl
  have h2 : bigQueryHandleBatch unicodeExcerpt sampleDecode
      [BatchItem.event firstEvent, BatchItem.other (Value.str "second")]
      none none none none =
      Run.crash "interface conversion: interface \x7b\x7d is not *kube.EnhancedEvent" := rfl
  refine ⟨h1, h2, ?_, ?_⟩
  · rintro ⟨out, hout⟩
    rw [h1] at hout
    cases hout
  · rintro ⟨out, hout⟩
    rw [h2] at hout
    cases hout

/-- C20 (amended): for every batch whose items are all events whose decoded
maps have no empty key at any depth of nested string-keyed maps, and every
outcome of creating and flushing the batch file, of loading it into the
warehouse and of deleting it, the batch handler of the BigQuery sink returns a
result of the same length as the batch in which every item is reported as
succeeded; so it does for any batch when the batch file cannot be created,
since no item is read then. Whenever the handler returns, on any batch, the
result has the length of the batch and reports no item as failed. -/
theorem bigQueryHandleBatch_all_succeeded (U : UnicodeTables)
    (decode : EnhancedEvent → List (String × Value)) (items : List BatchItem)
    (createErr flushErr importErr removeErr : Option String) :
    ((createErr.isSome = true ∨
      ∀ item ∈ items, ∃ ev, item = BatchItem.event ev ∧
        Value.keysNonemptyEntries (decode ev) = true) →
      ∃ out,
        bigQueryHandleBatch U decode items createErr flushErr importErr removeErr =
          Run.done out ∧
        out.res = List.replicate items.length true ∧
        out.res.length = items.length ∧
        (∀ b ∈ out.res, b = true)) ∧
    (∀ out,
      bigQueryHandleBatch U decode items createErr flushErr importErr removeErr =
        Run.done out →
      out.res.length = items.length ∧ false ∉ out.res) := by
  have hall : ∀ out,
      bigQueryHandleBatch U decode items createErr flushErr importErr removeErr =
        Run.done out →
      out.res = List.replicate items.length true :=
    fun out h =>
      bigQueryHandleBatch_res U decode items createErr flushErr importErr removeErr out h
  have hwrite : (createErr.isSome = true ∨
      ∀ item ∈ items, ∃ ev, item = BatchItem.event ev ∧
        Value.keysNonemptyEntries (decode ev) = true) →
      ∃ p, bigQueryWriteBatchToJsonFile U decode items createErr flushErr = Run.done p := by
    intro hbatch
    cases createErr with
    | some err => exact ⟨_, rfl⟩
    | none =>
      cases hbatch with
      | inl h => simp at h
      | inr hitems =>
        obtain ⟨rows, hrows, _⟩ :=
          bigQueryWriteBatchToJsonFile_loop_returns U decode items hitems []
        exact ⟨(flushErr, rows), by simp only [bigQueryWriteBatchToJsonFile, hrows]⟩
  refine ⟨?_, ?_⟩
  · intro hbatch
    obtain ⟨p, hp⟩ := hwrite hbatch
    obtain ⟨writeErr, written⟩ := p
    have hret : ∃ out,
        bigQueryHandleBatch U decode items createErr flushErr importErr removeErr =
          Run.done out := by
      simp only [bigQueryHandleBatch, hp]
      cases importErr <;> cases removeErr <;> exact ⟨_, rfl⟩
    obtain ⟨out, hout⟩ := hret
    have hres := hall out hout
    refine ⟨out, hout, hres, ?_, ?_⟩
    · rw [hres, List.length_replicate]
    · intro b hb
      rw [hres] at hb
      exact (List.mem_replicate.mp hb).2
  · intro out hout
    have hres := hall out hout
    refine ⟨?_, ?_⟩
    · rw [hres, List.length_replicate]
    · intro hb
      rw [hres] at hb
      exact absurd (List.mem_replicate.mp hb).2 (by decide)

/-- Witness of C20 (amended): a batch of three events whose file cannot be
flushed and whose load fails. -/
theorem bigQueryHandleBatch_all_succeeded_witness :
    (∀ item ∈ [BatchItem.event firstEvent, BatchItem.event secondEvent,
        BatchItem.event firstEvent],
      ∃ ev, item = BatchItem.event ev ∧
        Value.keysNonemptyEntries (sampleDecode ev) = true) ∧
    ∃ out,
      bigQueryHandleBatch unicodeExcerpt sampleDecode
          [BatchItem.event firstEvent, BatchItem.event secondEvent,
           BatchItem.event firstEvent]
          none (some "disk full") (some "load failed") none = Run.done out ∧
      out.res = [true, true, true] ∧ out.removed = false := by
  have hitems : ∀ item ∈ [BatchItem.event firstEvent, BatchItem.event secondEvent,
      BatchItem.event firstEvent],
      ∃ ev, item = BatchItem.event ev ∧
        Value.keysNonemptyEntries (sampleDecode ev) = true := by
    intro item hmem
    simp only [List.mem_cons, List.mem_singleton, List.not_mem_nil, or_false] at hmem
    rcases hmem with h | h | h
    · exact ⟨firstEvent, h, by decide⟩
    · exact ⟨secondEvent, h, by decide⟩
    · exact ⟨firstEvent, h, by decide⟩
  obtain ⟨out, hout, hres, _, _⟩ :=
    (bigQueryHandleBatch_all_succeeded unicodeExcerpt sampleDecode
      [BatchItem.event firstEvent, BatchItem.event secondEvent, BatchItem.event firstEvent]
      none (some "disk full") (some "load failed") none).1 (Or.inr hitems)
  refine ⟨hitems, out, hout, hres, ?_⟩
  have hrun : bigQueryHandleBatch unicodeExcerpt sampleDecode
      [BatchItem.event firstEvent, BatchItem.event secondEvent, BatchItem.event firstEvent]
      none (some "disk full") (some "load failed") none =
      Run.done
        { res := [true, true, true],
          logs := ["ERROR Failed to write JSON file", "ERROR BigQuerySink load failed"],
          written :=
            [[("message", Value.str "first"),
              ("involvedObject", Value.mapStr
                [("labels", Value.mapStr [("app_kubernetes_io_name", Value.str "web")])])],
             [("message", Value.str "second"),
              ("involvedObject", Value.mapStr
                [("labels", Value.mapStr [("app_kubernetes_io_name", Value.str "web")])])],
             [("message", Value.str "first"),
              ("involvedObject", Value.mapStr
                [("labels", Value.mapStr [("app_kubernetes_io_name", Value.str "web")])])]],
          removed := false } := rfl
  rw [hrun] at hout
  cases hout
  rfl

/-! ### Layout templates: a key that is not a string -/

/-- C22 (the code at the failing input): on an any-keyed map with the integer
key `1`, `convertTemplate` converts the value of the entry and then evaluates
`k.(string)`, which faults: it returns neither a value nor an error, whatever
the renderer and the event. The same happens through `convertLayoutTemplate`
when the map is nested in a layout. -/
theorem convertTemplate_faults_on_non_string_key
    (render : EnhancedEvent → String → Except String String) (ev : EnhancedEvent) :
    convertTemplate render ev
        (Value.mapAny [(Key.other (Scalar.int 1), Value.other (Scalar.int 2))]) =
      Run.crash "interface conversion: interface \x7b\x7d is not string" ∧
    convertLayoutTemplate render
        [("details", Value.mapAny [(Key.other (Scalar.int 1), Value.other (Scalar.int 2))])]
        ev =
      Run.crash "interface conversion: interface \x7b\x7d is not string" ∧
    convertLayoutTemplate sampleRender intKeyLayout firstEvent =
      Run.crash "interface conversion: interface \x7b\x7d is not string" := by
  refine ⟨rfl, rfl, rfl⟩

end EventExporter
